import Mathlib

/-!
SLADE, entry type detection and resource resolution.

A shallow embedding of `src/Archive/EntryType/EntryType.cpp` (the matcher
`EntryType::isThisType`, the sweep `EntryType::detectEntryType`, the registry functions
`copyToType`, `fromId` and `readEntryTypeDefinition`) and of the resource classes of
`src/General/ResourceManager.cpp` (`EntryResource`, `TextureResource` and the methods
`removeArchive`, `getTextureHash`, `addEntry`, `removeEntry`, `getTexture` and
`putAllTextures` of `ResourceManager`), together with the properties of the design that are
stated about them.

Conventions of the embedding:

* text (`wxString`) is a list of characters, raw entry data a list of bytes;
* a pointer to an entry type is modelled by the definition it points to, and
  the four special types are told apart by the fields `loadEntryTypes` sets;
* a pointer to an archive is the identity `ptr` of the archive, the null pointer `none`;
  a weak reference is the entry it locks, an expired one `none`, and two references are
  to the same entry when the identities `ptr` of the entries agree;
* a 32-bit unsigned value is a natural number reduced modulo 4294967296;
* the collaborators that are not among the sources (entry and archive accessors, the
  texture list readers) are the fields of `Env`;
* a map from keys to resources is the function from keys to resources;
* an evaluation that the C++ standard leaves undefined (the remainder by a
  zero divisor in the size-multiple loop, the dereference of a null parent
  archive) is the result `none`.
-/

namespace Slade

/-! ## Data model -/

/-- Text values: a `wxString` as its list of characters. -/
abbrev Str := List Char

/-- A text literal. -/
def str (s : String) : Str := s.toList

/-- The conversion of an `int` to `unsigned` (32 bits). -/
def toU32 (i : Int) : Nat := (i % 4294967296).toNat

/-- Modelled from the spec: the data format class of `EntryDataFormat.h`, which is not among
the sources. A format is known by its id; `anyFormat` and `textFormat` are the two sentinels. -/
structure EntryDataFormat where
  id : Str
  deriving DecidableEq

/-- The sentinel that matches any data. -/
def EntryDataFormat.anyFormat : EntryDataFormat := ⟨str "any"⟩

/-- The sentinel for pure text, checked by `isThisType` itself. -/
def EntryDataFormat.textFormat : EntryDataFormat := ⟨str "text"⟩

/-- Modelled from the spec: the match confidences of `EntryDataFormat.h` (not among the
sources): definite-non-match is 0, definite-match is the full confidence 255, and any value
in between is a probabilistic match. -/
def MATCH_FALSE : Nat := 0

/-- Modelled from the spec: the definite-match confidence, see `MATCH_FALSE`. -/
def MATCH_TRUE : Nat := 255

/-- The format matchers (`EntryDataFormat::isThisFormat`), external to the detector:
for a format id and the entry data, the confidence of the match. -/
abbrev FormatMatcher := Str → List Nat → Nat

/-- The call `format->isThisFormat(data)`. -/
def EntryDataFormat.isThisFormat (fm : FormatMatcher) (f : EntryDataFormat) (data : List Nat) : Nat :=
  fm f.id data

/-- The fields of the class `EntryType` that `EntryType.cpp` reads and writes. The field
`index_` is the position in the registry and is carried by the registry list. -/
structure EntryType where
  id_ : Str
  name_ : Str
  extension_ : Str
  icon_ : Str
  editor_ : Str
  category_ : Str
  colour_ : Nat × Nat × Nat
  detectable_ : Bool
  reliability_ : Fin 256
  extra_ : List (Str × Str)
  format_ : EntryDataFormat
  match_ext_or_name_ : Bool
  match_extension_ : List Str
  match_name_ : List Str
  match_size_ : List Int
  size_limit_ : Int × Int
  size_multiple_ : List Int
  section_ : List Str
  match_archive_ : List Str
  deriving DecidableEq

/-- Modelled from the spec: the constructor `EntryType::EntryType(id)` with the member
defaults of `EntryType.h`, which is not among the sources: any format, no size bound (-1),
no match criterion, detectable, full reliability. -/
def EntryType.new (id : Str) : EntryType :=
  { id_ := id
    name_ := str "Unknown"
    extension_ := str "dat"
    icon_ := str "default"
    editor_ := str "default"
    category_ := str "Data"
    colour_ := (255, 255, 255)
    detectable_ := true
    reliability_ := 255
    extra_ := []
    format_ := EntryDataFormat.anyFormat
    match_ext_or_name_ := false
    match_extension_ := []
    match_name_ := []
    match_size_ := []
    size_limit_ := (-1, -1)
    size_multiple_ := []
    section_ := []
    match_archive_ := [] }

/-- The special type `etype_unknown` as `loadEntryTypes` sets it up. -/
def etype_unknown : EntryType :=
  { EntryType.new (str "Unknown") with
    format_ := EntryDataFormat.anyFormat, icon_ := str "unknown", detectable_ := false,
    reliability_ := 0 }

/-- The special type `etype_folder` as `loadEntryTypes` sets it up. -/
def etype_folder : EntryType :=
  { EntryType.new (str "Unknown") with
    format_ := EntryDataFormat.anyFormat, icon_ := str "folder", name_ := str "Folder",
    detectable_ := false }

/-- The special type `etype_marker` as `loadEntryTypes` sets it up. -/
def etype_marker : EntryType :=
  { EntryType.new (str "Unknown") with
    format_ := EntryDataFormat.anyFormat, icon_ := str "marker", name_ := str "Marker",
    detectable_ := false, category_ := str "" }

/-- The special type `etype_map` as `loadEntryTypes` sets it up. -/
def etype_map : EntryType :=
  { EntryType.new (str "Unknown") with
    format_ := EntryDataFormat.anyFormat, icon_ := str "map", name_ := str "Map Marker",
    category_ := str "Maps", detectable_ := false, colour_ := (0, 255, 0) }

/-- The containing archive of an entry, as far as the matcher and the resource manager look
at it: its format id, its identity (the `Archive*` pointer) and the pointer `parentArchive()`
to the archive it is embedded in, if any. -/
structure Archive where
  formatId : Str
  ptr : Nat := 0
  parentArchive : Option Nat := none
  deriving DecidableEq

/-- Modelled from the spec: the entry class of `ArchiveEntry.h`, which is not among the
sources, with what the detector observes of it: the upper-case name, the data, the
containing archive, the namespace that archive detects for the entry, the assigned type and
the confidence recorded with it; `ptr` is the identity of the entry (the pointer that two
references to the same entry share). -/
structure ArchiveEntry where
  upperName : Str
  data : List Nat
  parent : Option Archive
  detectNamespace : Str
  type_ : EntryType
  reliability_ : Nat
  ptr : Nat := 0
  deriving DecidableEq

/-- The call `entry->size()`. -/
def ArchiveEntry.size (e : ArchiveEntry) : Nat := e.data.length

/-- Modelled from the spec: `ArchiveEntry::setType(type, r)` records the type and the
confidence `r` of the match that assigned it (255 when the caller gives none). -/
def ArchiveEntry.setType (e : ArchiveEntry) (t : EntryType) (r : Nat) : ArchiveEntry :=
  { e with type_ := t, reliability_ := r }

/-- Modelled from the spec: `ArchiveEntry::typeReliability()`, how confidently the current
type was assigned: the reliability of the type scaled by the recorded confidence, so that a
definite match carries the full reliability of its definition and `unknown` carries 0. -/
def ArchiveEntry.typeReliability (e : ArchiveEntry) : Nat :=
  e.type_.reliability_.val * e.reliability_ / 255

/-! ## Text helpers -/

/-- Modelled from the spec: `wxString::Matches`, glob matching where `*` stands for any run
of characters and `?` for any one character; the first argument is the mask. -/
def Matches : Str → Str → Bool
  | [], s => s.isEmpty
  | p :: ps, s =>
    if p = '*' then s.tails.any (fun t => Matches ps t)
    else match s with
      | [] => false
      | c :: cs => (p = '?' || p = c) && Matches ps cs

/-- The call `fn.find_first_of(c, 0)`: the index of the first `c`, or `npos`. -/
def find_first_of (fn : Str) (c : Char) : Option Nat :=
  if List.indexOf c fn < fn.length then some (List.indexOf c fn) else none

/-- The call `fn.Left(n)`. -/
def Left (fn : Str) (n : Nat) : Str := fn.take n

/-- The call `fn.Mid(n)`. -/
def Mid (fn : Str) (n : Nat) : Str := fn.drop n

/-- The comparison `S_CMPNOCASE`: equality of two texts ignoring letter case. -/
def S_CMPNOCASE (a b : Str) : Bool := a.map Char.toUpper == b.map Char.toUpper

/-- The call `memchr(data, c, n) != nullptr`: some byte among the first `n` is `c`. -/
def memchr (data : List Nat) (c n : Nat) : Bool := decide (c ∈ data.take n)

/-! ## The matcher `EntryType::isThisType` -/

/-- The archive loop: some listed archive format is that of the containing archive. -/
def archiveMatch (t : EntryType) (entry : ArchiveEntry) : Bool :=
  t.match_archive_.any (fun a =>
    match entry.parent with
    | some p => p.formatId == a
    | none => false)

/-- The size loop (`for (unsigned a : match_size_)`): some listed size, read as unsigned,
is the size of the entry. -/
def sizeMatch (t : EntryType) (entry : ArchiveEntry) : Bool :=
  t.match_size_.any (fun a => entry.size == toU32 a)

/-- The data format check. The result `none` is the early `return MATCH_FALSE`, the result
`some r` goes on with the confidence `r`. -/
def formatCheck (fm : FormatMatcher) (t : EntryType) (entry : ArchiveEntry) : Option Nat :=
  if t.format_ = EntryDataFormat.textFormat then
    -- `size_t end = entry->size() - 1;` wraps around for the empty entry
    let end0 := if entry.size = 0 then 4294967295 else entry.size - 1
    let end1 := if end0 > 3 then end0 - 2 else end0
    if entry.size > 0 ∧ memchr entry.data 0 end1 = true then none else some MATCH_TRUE
  else if t.format_ ≠ EntryDataFormat.anyFormat ∧ entry.size > 0 then
    let r := t.format_.isThisFormat fm entry.data
    if r = MATCH_FALSE then none else some r
  else some MATCH_TRUE

/-- The size-multiple loop, which stops at the first divisor that divides the size. The
remainder by a divisor 0 is undefined: the result is then `none`. -/
def sizeMultipleMatch (size : Nat) : List Int → Option Bool
  | [] => some false
  | m :: ms =>
    if toU32 m = 0 then none
    else if size % toU32 m = 0 then some true
    else sizeMultipleMatch size ms

/-- The name loop: the base name (the text left of the separator, or the whole name) is
matched by some name mask. -/
def nameLoop (t : EntryType) (fn : Str) (ext_sep : Option Nat) : Bool :=
  let name := match ext_sep with
    | some i => Left fn i
    | none => fn
  t.match_name_.any (fun mask => Matches mask name)

/-- The extension loop: there is a separator and the text right of it is a listed
extension. -/
def extLoop (t : EntryType) (fn : Str) (ext_sep : Option Nat) : Bool :=
  match ext_sep with
  | some i => t.match_extension_.any (fun x => Mid fn (i + 1) == x)
  | none => false

/-- The name and extension stage on the upper-case entry name `fn`: `false` is the early
`return MATCH_FALSE`. -/
def nameExtCheck (t : EntryType) (fn : Str) : Bool :=
  let extorname := t.match_ext_or_name_ && !t.match_name_.isEmpty && !t.match_extension_.isEmpty
  if t.match_name_ ≠ [] ∨ t.match_extension_ ≠ [] then
    let ext_sep := find_first_of fn '.'
    -- name check: `none` returns MATCH_FALSE, `some m` sets `matchedname`
    let named : Option Bool :=
      if t.match_name_ ≠ [] then
        let m := nameLoop t fn ext_sep
        if !m && !extorname then none else some m
      else some false
    match named with
    | none => false
    | some matchedname =>
      if t.match_extension_ ≠ [] then
        let m := extLoop t fn ext_sep
        if !m && !(extorname && matchedname) then false else true
      else true
  else true

/-- The section stage: with a section list the confidence `r` carried so far is replaced. -/
def sectionCheck (t : EntryType) (entry : ArchiveEntry) (r : Nat) : Nat :=
  if t.section_ ≠ [] then
    match entry.parent with
    | none => MATCH_FALSE
    | some _ =>
      if t.section_.any (fun ns => S_CMPNOCASE ns entry.detectNamespace) then MATCH_TRUE
      else MATCH_FALSE
  else r

/-- The method `EntryType::isThisType(entry)`; `none` for the entry is the null pointer.
The result `none` is an undefined evaluation, `some r` the returned confidence. -/
def isThisType (fm : FormatMatcher) (t : EntryType) : Option ArchiveEntry → Option Nat
  | none => some MATCH_FALSE
  | some entry =>
    if t.detectable_ = false then some MATCH_FALSE
    else if 0 ≤ t.size_limit_.1 ∧ entry.size < toU32 t.size_limit_.1 then some MATCH_FALSE
    else if 0 ≤ t.size_limit_.2 ∧ entry.size > toU32 t.size_limit_.2 then some MATCH_FALSE
    else if t.match_archive_ ≠ [] ∧ archiveMatch t entry = false then some MATCH_FALSE
    else if t.match_size_ ≠ [] ∧ sizeMatch t entry = false then some MATCH_FALSE
    else
      match formatCheck fm t entry with
      | none => some MATCH_FALSE
      | some r =>
        match (if t.size_multiple_ ≠ [] then sizeMultipleMatch entry.size t.size_multiple_
               else some true) with
        | none => none
        | some false => some MATCH_FALSE
        | some true =>
          if nameExtCheck t entry.upperName = false then some MATCH_FALSE
          else some (sectionCheck t entry r)

/-! ## The sweep `EntryType::detectEntryType` -/

/-- One turn of the loop over the registered types, for the type `t`: the entry after the
turn and whether the turn left the function with `return true`. -/
def sweepBody (fm : FormatMatcher) (t : EntryType) (entry : ArchiveEntry) :
    Option (ArchiveEntry × Bool) :=
  if entry.typeReliability ≥ t.reliability_.val then some (entry, false)
  else
    match isThisType fm t (some entry) with
    | none => none
    | some r =>
      if r > 0 then
        if (entry.setType t r).typeReliability ≥ 255 then some (entry.setType t r, true)
        else some (entry.setType t r, false)
      else some (entry, false)

/-- The loop over the registered types, in registration order. -/
def sweep (fm : FormatMatcher) : List EntryType → ArchiveEntry → Option (ArchiveEntry × Bool)
  | [], entry => some (entry, false)
  | t :: ts, entry =>
    match sweepBody fm t entry with
    | none => none
    | some (entry1, true) => some (entry1, true)
    | some (entry1, false) => sweep fm ts entry1

/-- The function `EntryType::detectEntryType(entry)` over the registry `entry_types`: the
entry as the call leaves it and the returned flag; `none` when an evaluation is undefined. -/
def detectEntryType (fm : FormatMatcher) (entry_types : List EntryType) :
    Option ArchiveEntry → Option (Option ArchiveEntry × Bool)
  | none => some (none, false)
  | some entry =>
    if entry.type_ = etype_folder ∨ entry.type_ = etype_map then some (some entry, false)
    else if entry.size = 0 then some (some (entry.setType etype_marker 255), true)
    else
      match sweep fm entry_types (entry.setType etype_unknown 255) with
      | none => none
      | some (entry1, true) => some (some entry1, true)
      | some (entry1, false) =>
        if entry1.type_ = etype_unknown then some (some entry1, false)
        else some (some entry1, true)

/-! ## The registry: `copyToType`, `fromId`, `readEntryTypeDefinition` -/

/-- The call `s.Lower()`. -/
def Lower (s : Str) : Str := s.map Char.toLower

/-- The call `s.Upper()`. -/
def Upper (s : Str) : Str := s.map Char.toUpper

/-- The call `s.StartsWith(p)`. -/
def StartsWith (s p : Str) : Bool := s.take p.length == p

/-- The conversion of an `int` to `uint8_t`. -/
def toU8 (i : Int) : Nat := (i % 256).toNat

/-- Modelled from the spec: the assignment `extra[key] = value` of `PropertyList.h` (not
among the sources), on the bag of extra properties: the value given last is kept. -/
def propSet (extra : List (Str × Str)) (key value : Str) : List (Str × Str) :=
  (key, value) :: extra.filter (fun p => p.1 != key)

/-- Modelled from the spec: `PropertyList::addFlag`, a property without a value. -/
def addFlag (extra : List (Str × Str)) (key : Str) : List (Str × Str) :=
  propSet extra key []

/-- Modelled from the spec: `PropertyList::copyTo(target)`, every property of the source
set in the target. -/
def copyTo (extra target : List (Str × Str)) : List (Str × Str) :=
  extra.foldl (fun t p => propSet t p.1 p.2) target

/-- The method `EntryType::copyToType(target)`: the target after the copy. -/
def EntryType.copyToType (this target : EntryType) : EntryType :=
  { target with
    -- Copy type attributes
    editor_ := this.editor_
    extension_ := this.extension_
    icon_ := this.icon_
    name_ := this.name_
    reliability_ := this.reliability_
    category_ := this.category_
    colour_ := this.colour_
    -- Copy type match criteria
    format_ := this.format_
    size_limit_ := (this.size_limit_.1, this.size_limit_.2)
    section_ := this.section_
    match_extension_ := this.match_extension_
    match_name_ := this.match_name_
    match_size_ := this.match_size_
    match_archive_ := this.match_archive_
    -- Copy extra properties
    extra_ := copyTo this.extra_ target.extra_ }

/-- The function `EntryType::fromId(id)` over the registry: the first registered type with
that id, else `etype_unknown`. -/
def fromId (entry_types : List EntryType) (id : Str) : EntryType :=
  match entry_types.find? (fun type => type.id_ == id) with
  | some type => type
  | none => etype_unknown

/-- Modelled from the spec: one value of a parsed field with its typed readings (the
string, int and bool accessors of `Utility/Parser.h`, which is not among the sources). -/
structure PValue where
  stringValue : Str
  intValue : Int
  boolValue : Bool
  deriving DecidableEq

/-- Modelled from the spec: a parsed field, its name and its values. -/
structure FieldNode where
  name : Str
  values : List PValue
  deriving DecidableEq

/-- Modelled from the spec: a parsed definition block, its name, the name of the block it
inherits from (empty when none) and its fields. -/
structure TypeNode where
  name : Str
  inherit : Str
  children : List FieldNode
  deriving DecidableEq

/-- The call `fieldnode->stringValue(v)`; the empty text when there is no such value. -/
def FieldNode.stringValue (f : FieldNode) (v : Nat) : Str :=
  match f.values.get? v with
  | some x => x.stringValue
  | none => []

/-- The call `fieldnode->intValue(v)`; 0 when there is no such value. -/
def FieldNode.intValue (f : FieldNode) (v : Nat) : Int :=
  match f.values.get? v with
  | some x => x.intValue
  | none => 0

/-- The call `fieldnode->boolValue()`; false when there is no value. -/
def FieldNode.boolValue (f : FieldNode) : Bool :=
  match f.values.get? 0 with
  | some x => x.boolValue
  | none => false

/-- Modelled from the spec: `EntryDataFormat::format(id)` over the ids of the registered
formats: the format of that id, or the any-format sentinel when it is undefined. -/
def EntryDataFormat.format (formats : List Str) (id : Str) : EntryDataFormat :=
  if id ∈ formats then ⟨id⟩ else EntryDataFormat.anyFormat

/-- The global state of `EntryType.cpp`: the list of all entry types and the list of all
entry type categories. -/
structure Registry where
  entry_types : List EntryType
  entry_categories : List Str
  deriving DecidableEq

/-- The branches of the chain of comparisons on the name of a parsed field. -/
inductive FieldKind where
  | name | detectable | export_ext | format | icon | editor | section | match_ext
  | match_name | match_extorname | size | min_size | max_size | size_multiple | reliability
  | match_archive | extra | category | image_format | colour | other
  deriving DecidableEq

/-- The field names the chain of `else if (S_CMPNOCASE(fieldnode->name(), ...))` compares
with, in the order of the source, each with its branch. -/
def fieldTable : List (Str × FieldKind) :=
  [(str "name", FieldKind.name), (str "detectable", FieldKind.detectable),
   (str "export_ext", FieldKind.export_ext), (str "format", FieldKind.format),
   (str "icon", FieldKind.icon), (str "editor", FieldKind.editor),
   (str "section", FieldKind.section), (str "match_ext", FieldKind.match_ext),
   (str "match_name", FieldKind.match_name), (str "match_extorname", FieldKind.match_extorname),
   (str "size", FieldKind.size), (str "min_size", FieldKind.min_size),
   (str "max_size", FieldKind.max_size), (str "size_multiple", FieldKind.size_multiple),
   (str "reliability", FieldKind.reliability), (str "match_archive", FieldKind.match_archive),
   (str "extra", FieldKind.extra), (str "category", FieldKind.category),
   (str "image_format", FieldKind.image_format), (str "colour", FieldKind.colour)]

/-- The chain of comparisons on the field name: the branch of the first name of the chain
that equals the field name ignoring case, the final `else` when there is none. -/
def fieldKind (n : Str) : FieldKind :=
  match fieldTable.find? (fun p => S_CMPNOCASE n p.1) with
  | some p => p.2
  | none => FieldKind.other

/-- The body of the branch `k` of the chain, on the new type `ntype` and the category list
`cats`. -/
def processField (formats : List Str) (k : FieldKind) (ntype : EntryType) (cats : List Str)
    (fieldnode : FieldNode) : EntryType × List Str :=
  match k with
  | FieldKind.name => ({ ntype with name_ := fieldnode.stringValue 0 }, cats)
  | FieldKind.detectable => ({ ntype with detectable_ := fieldnode.boolValue }, cats)
  | FieldKind.export_ext => ({ ntype with extension_ := fieldnode.stringValue 0 }, cats)
  | FieldKind.format =>
    ({ ntype with format_ := EntryDataFormat.format formats (fieldnode.stringValue 0) }, cats)
  | FieldKind.icon =>
    ({ ntype with
       icon_ := if StartsWith (fieldnode.stringValue 0) (str "e_")
                then Mid (fieldnode.stringValue 0) 2 else fieldnode.stringValue 0 }, cats)
  | FieldKind.editor => ({ ntype with editor_ := fieldnode.stringValue 0 }, cats)
  | FieldKind.section =>
    ({ ntype with
       section_ := ntype.section_ ++ fieldnode.values.map (fun x => Lower x.stringValue) }, cats)
  | FieldKind.match_ext =>
    ({ ntype with
       match_extension_ :=
         ntype.match_extension_ ++ fieldnode.values.map (fun x => Upper x.stringValue) }, cats)
  | FieldKind.match_name =>
    ({ ntype with
       match_name_ := ntype.match_name_ ++ fieldnode.values.map (fun x => Upper x.stringValue) },
      cats)
  | FieldKind.match_extorname => ({ ntype with match_ext_or_name_ := fieldnode.boolValue }, cats)
  | FieldKind.size =>
    ({ ntype with match_size_ := ntype.match_size_ ++ fieldnode.values.map (fun x => x.intValue) },
      cats)
  | FieldKind.min_size =>
    ({ ntype with size_limit_ := (fieldnode.intValue 0, ntype.size_limit_.2) }, cats)
  | FieldKind.max_size =>
    ({ ntype with size_limit_ := (ntype.size_limit_.1, fieldnode.intValue 0) }, cats)
  | FieldKind.size_multiple =>
    ({ ntype with
       size_multiple_ := ntype.size_multiple_ ++ fieldnode.values.map (fun x => x.intValue) },
      cats)
  | FieldKind.reliability =>
    ({ ntype with reliability_ := Fin.ofNat (toU8 (fieldnode.intValue 0)) }, cats)
  | FieldKind.match_archive =>
    ({ ntype with
       match_archive_ :=
         ntype.match_archive_ ++ fieldnode.values.map (fun x => Lower x.stringValue) }, cats)
  | FieldKind.extra =>
    ({ ntype with
       extra_ := fieldnode.values.foldl (fun e x => addFlag e x.stringValue) ntype.extra_ }, cats)
  | FieldKind.category =>
    ({ ntype with category_ := fieldnode.stringValue 0 },
      if cats.any (fun category => S_CMPNOCASE category (fieldnode.stringValue 0)) then cats
      else cats ++ [fieldnode.stringValue 0])
  | FieldKind.image_format =>
    ({ ntype with extra_ := propSet ntype.extra_ (str "image_format") (fieldnode.stringValue 0) },
      cats)
  | FieldKind.colour =>
    (if fieldnode.values.length ≥ 3 then
       { ntype with
         colour_ := (toU8 (fieldnode.intValue 0), toU8 (fieldnode.intValue 1),
                     toU8 (fieldnode.intValue 2)) }
     else ntype, cats)
  | FieldKind.other =>
    ({ ntype with extra_ := propSet ntype.extra_ fieldnode.name (fieldnode.stringValue 0) }, cats)

/-- One turn of the loop over the parsed fields of a block: the new type and the category
list after the field `fieldnode` is processed. -/
def readField (formats : List Str) (st : EntryType × List Str) (fieldnode : FieldNode) :
    EntryType × List Str :=
  processField formats (fieldKind fieldnode.name) st.1 st.2 fieldnode

/-- The new type of a block before its fields are read: a fresh type with the lower-case
block name as id, with the fields of the inherited type copied when the block inherits from
a registered type. -/
def newType (entry_types : List EntryType) (typenode : TypeNode) : EntryType :=
  if typenode.inherit ≠ [] then
    if fromId entry_types (Lower typenode.inherit) ≠ etype_unknown then
      (fromId entry_types (Lower typenode.inherit)).copyToType (EntryType.new (Lower typenode.name))
    else EntryType.new (Lower typenode.name)
  else EntryType.new (Lower typenode.name)

/-- One turn of the loop over the parsed blocks: the block is read into a new type, which
is added to the list of entry types. -/
def readType (formats : List Str) (reg : Registry) (typenode : TypeNode) : Registry :=
  let r := typenode.children.foldl (readField formats)
    (newType reg.entry_types typenode, reg.entry_categories)
  { entry_types := reg.entry_types ++ [r.1], entry_categories := r.2 }

/-- The function `EntryType::readEntryTypeDefinition`, on the blocks under the `entry_types`
root of the parsed text (`none` when there is no such root): the returned flag and the
registry after the call. -/
def readEntryTypeDefinition (formats : List Str) (pt_etypes : Option (List TypeNode))
    (reg : Registry) : Bool × Registry :=
  match pt_etypes with
  | none => (false, reg)
  | some typenodes => (true, typenodes.foldl (readType formats) reg)

/-- The registry as `loadEntryTypes` seeds it: the four special types, no category. -/
def seedRegistry : Registry :=
  { entry_types := [etype_unknown, etype_folder, etype_marker, etype_map], entry_categories := [] }

/-! ## The resource manager: `EntryResource`, `TextureResource`, `removeArchive` -/

/-- The pointer `entry->parent()` (`none` is the null pointer). -/
def ArchiveEntry.parentPtr (e : ArchiveEntry) : Option Nat := e.parent.map (fun a => a.ptr)

/-- The class `EntryResource`: the weak references to the entries of one resource, in the
order they were added; an expired reference is `none`. -/
structure EntryResource where
  entries_ : List (Option ArchiveEntry)
  deriving DecidableEq

/-- The method `EntryResource::add(entry)`. -/
def EntryResource.add (r : EntryResource) (entry : ArchiveEntry) : EntryResource :=
  if entry.parent ≠ none then { entries_ := r.entries_ ++ [some entry] } else r

/-- The loop of `EntryResource::removeArchive`: expired references and references to
entries of the archive are erased. -/
def removeArchiveLoop (archive : Option Nat) : List (Option ArchiveEntry) → List (Option ArchiveEntry)
  | [] => []
  | none :: rest => removeArchiveLoop archive rest
  | some entry :: rest =>
    if entry.parentPtr = archive then removeArchiveLoop archive rest
    else some entry :: removeArchiveLoop archive rest

/-- The method `EntryResource::removeArchive(archive)`. -/
def EntryResource.removeArchive (r : EntryResource) (archive : Option Nat) : EntryResource :=
  { entries_ := removeArchiveLoop archive r.entries_ }

/-- The priority test of `getEntry`, `priority && (entry->parent() == priority ||
entry->parent()->parentArchive() == priority)`; the result `none` is the undefined
evaluation that dereferences the null parent of the entry. -/
def inPriority (priority : Option Nat) (entry : ArchiveEntry) : Option Bool :=
  match priority with
  | none => some false
  | some p =>
    match entry.parent with
    | none => none
    | some a => some (a.ptr == p || a.parentArchive == some p)

/-- One turn of the loop of `EntryResource::getEntry` on the live entry `entry`, with the
running best `best` (`none` is the empty pointer): the running best after the turn and
whether the turn left the loop with `break`; the result `none` is an undefined evaluation.
The collaborators are parameters: the open-order index `archiveIndex` of the archive
manager and `ArchiveEntry::isInNamespace`. -/
def getEntryBody (archiveIndex : Option Nat → Int) (isInNamespace : ArchiveEntry → Str → Bool)
    (priority : Option Nat) (nspace : Str) (ns_required : Bool)
    (entry : ArchiveEntry) (best : Option ArchiveEntry) : Option (ArchiveEntry × Bool) :=
  -- `if (!best) best = entry;`
  let best1 := match best with
    | some b => b
    | none => entry
  if ns_required = true ∧ nspace ≠ [] ∧ isInNamespace entry nspace = false then
    some (best1, false)
  else
    match inPriority priority entry with
    | none => none
    | some true => some (entry, true)
    | some false =>
      if ns_required = false ∧ nspace ≠ [] ∧ isInNamespace best1 nspace = false ∧
          isInNamespace entry nspace = true then some (entry, false)
      else if archiveIndex best1.parentPtr ≤ archiveIndex entry.parentPtr then some (entry, false)
      else some (best1, false)

/-- The loop of `EntryResource::getEntry` on the references still to scan (the last added
first), the running best and the scanned references that are kept: the entry returned and
the list of references after the call. An expired reference is erased. -/
def getEntryLoop (archiveIndex : Option Nat → Int) (isInNamespace : ArchiveEntry → Str → Bool)
    (priority : Option Nat) (nspace : Str) (ns_required : Bool) :
    List (Option ArchiveEntry) → Option ArchiveEntry → List (Option ArchiveEntry) →
    Option (Option ArchiveEntry × List (Option ArchiveEntry))
  | [], best, kept => some (best, kept)
  | none :: todo, best, kept =>
    getEntryLoop archiveIndex isInNamespace priority nspace ns_required todo best kept
  | some entry :: todo, best, kept =>
    match getEntryBody archiveIndex isInNamespace priority nspace ns_required entry best with
    | none => none
    | some (best1, true) => some (some best1, todo.reverse ++ some entry :: kept)
    | some (best1, false) =>
      getEntryLoop archiveIndex isInNamespace priority nspace ns_required todo (some best1)
        (some entry :: kept)

/-- The method `EntryResource::getEntry(priority, nspace, ns_required)`: the entry returned
(`none` is the null pointer) and the resource after the call; the result `none` is an
undefined evaluation. -/
def EntryResource.getEntry (archiveIndex : Option Nat → Int)
    (isInNamespace : ArchiveEntry → Str → Bool) (r : EntryResource)
    (priority : Option Nat) (nspace : Str) (ns_required : Bool) :
    Option (Option ArchiveEntry × EntryResource) :=
  if r.entries_ = [] then some (none, r)
  else
    match getEntryLoop archiveIndex isInNamespace priority nspace ns_required
        r.entries_.reverse none [] with
    | none => none
    | some (best, entries) => some (best, { entries_ := entries })

/-- Modelled from the spec: the texture class of `CTexture.h`, which is not among the
sources, as far as the resource manager keys it: its name. -/
structure CTexture where
  name : Str
  deriving DecidableEq

/-- The record `TextureResource::Texture`: an owned copy of a texture and the pointer to
the archive that defines it. -/
structure Texture where
  tex : CTexture
  parent : Option Nat
  deriving DecidableEq

/-- The class `TextureResource`: the texture records of one name. -/
structure TextureResource where
  textures_ : List Texture
  deriving DecidableEq

/-- The method `TextureResource::remove(parent)`. -/
def TextureResource.remove (r : TextureResource) (parent : Option Nat) : TextureResource :=
  { textures_ := r.textures_.filter (fun t => t.parent != parent) }

/-- The indexes of the class `ResourceManager`; a map from keys to resources is the function
that gives the resource of each key, the empty resource for a key the map does not hold.
The static table `doom64_hash_table_` of 65536 names is the function from its positions. -/
structure ResourceManager where
  palettes_ : Str → EntryResource
  patches_ : Str → EntryResource
  patches_fp_ : Str → EntryResource
  patches_fp_only_ : Str → EntryResource
  flats_ : Str → EntryResource
  flats_fp_ : Str → EntryResource
  flats_fp_only_ : Str → EntryResource
  satextures_ : Str → EntryResource
  satextures_fp_ : Str → EntryResource
  textures_ : Str → TextureResource
  doom64_hash_table_ : Nat → Str := fun _ => []

/-- The function `removeArchiveFromMap(map, archive)`. -/
def removeArchiveFromMap (map : Str → EntryResource) (archive : Option Nat) :
    Str → EntryResource :=
  fun i => (map i).removeArchive archive

/-- The method `ResourceManager::removeArchive(archive)`. -/
def ResourceManager.removeArchive (rm : ResourceManager) (archive : Option Nat) :
    ResourceManager :=
  match archive with
  | none => rm
  | some _ =>
    { palettes_ := removeArchiveFromMap rm.palettes_ archive
      patches_ := removeArchiveFromMap rm.patches_ archive
      patches_fp_ := removeArchiveFromMap rm.patches_fp_ archive
      patches_fp_only_ := removeArchiveFromMap rm.patches_fp_only_ archive
      flats_ := removeArchiveFromMap rm.flats_ archive
      flats_fp_ := removeArchiveFromMap rm.flats_fp_ archive
      flats_fp_only_ := removeArchiveFromMap rm.flats_fp_only_ archive
      satextures_ := removeArchiveFromMap rm.satextures_ archive
      satextures_fp_ := removeArchiveFromMap rm.satextures_fp_ archive
      textures_ := fun i => (rm.textures_ i).remove archive
      doom64_hash_table_ := rm.doom64_hash_table_ }

/-- The nine entry indexes of the resource manager. -/
def ResourceManager.entryIndexes (rm : ResourceManager) : List (Str → EntryResource) :=
  [rm.palettes_, rm.patches_, rm.patches_fp_, rm.patches_fp_only_, rm.flats_, rm.flats_fp_,
   rm.flats_fp_only_, rm.satextures_, rm.satextures_fp_]

/-! ## The resource manager: `getTextureHash`, `addEntry`, `removeEntry` -/

/-- Modelled from the spec: `EntryResource::length()` of `ResourceManager.h`, which is not
among the sources: the number of references the resource holds. -/
def EntryResource.length (r : EntryResource) : Nat := r.entries_.length

/-- The loop of `EntryResource::remove`: every reference whose `lock()` is the entry is
erased; an expired reference locks to the null pointer and stays. -/
def removeLoop (entry : ArchiveEntry) : List (Option ArchiveEntry) → List (Option ArchiveEntry)
  | [] => []
  | w :: rest =>
    if w.map (fun e => e.ptr) = some entry.ptr then removeLoop entry rest
    else w :: removeLoop entry rest

/-- The method `EntryResource::remove(entry)`. -/
def EntryResource.remove (r : EntryResource) (entry : ArchiveEntry) : EntryResource :=
  { entries_ := removeLoop entry r.entries_ }

/-- Modelled from the spec: `TextureResource::length()` of `ResourceManager.h`, which is not
among the sources: the number of records the resource holds. -/
def TextureResource.length (r : TextureResource) : Nat := r.textures_.length

/-- The method `TextureResource::add(tex, parent)`; `none` is the null pointer. -/
def TextureResource.add (r : TextureResource) (tex : Option CTexture) (parent : Option Nat) :
    TextureResource :=
  match tex, parent with
  | some t, some p => { textures_ := r.textures_ ++ [{ tex := t, parent := some p }] }
  | _, _ => r

/-- The buffer `char str[8]` of `getTextureHash` after the copy loop: the first eight
characters of the name, the rest of the eight positions NUL. -/
def hashBuffer (name : Str) : List Char :=
  name.take 8 ++ List.replicate (8 - (name.take 8).length) (Char.ofNat 0)

/-- The statement `hash ^= ((hash << 5) + toupper((int)str[i]) + (hash >> 2))` on a
`uint32_t`. -/
def hashStep (hash : Nat) (c : Char) : Nat :=
  hash ^^^ (((hash <<< 5) % 4294967296 + c.toUpper.toNat + (hash >>> 2)) % 4294967296)

/-- The hashing loop of `getTextureHash` over the buffer, which ends at the first NUL. -/
def hashLoop : List Char → Nat → Nat
  | [], hash => hash
  | c :: cs, hash => if c = Char.ofNat 0 then hash else hashLoop cs (hashStep hash c)

/-- The method `ResourceManager::getTextureHash(name)`, for a name of ASCII characters. -/
def getTextureHash (name : Str) : Nat :=
  hashLoop (hashBuffer name) 1315423911 % 65536

/-- Modelled from the spec: the patch table class of `PatchTable.h`, which is not among the
sources, as the list of its patch names; a fresh table is empty. -/
abbrev PatchTable := List Str

/-- The collaborators of `addEntry` and `removeEntry` that are not among the sources: the
format matchers and the registry of the detector, the entry accessors `isInNamespace`,
`upperNameNoExt` and `path(true)`, the archive calls `isTreeless` and `findLast`, the patch
table loader and the two texture list readers, each giving the textures the list holds after
the read (the resource manager discards the flag the readers return). -/
structure Env where
  fm : FormatMatcher
  entry_types : List EntryType
  isInNamespace : ArchiveEntry → Str → Bool
  upperNameNoExt : ArchiveEntry → Str
  path : ArchiveEntry → Str
  isTreeless : Archive → Bool
  findLast : Archive → EntryType → Option ArchiveEntry
  loadPNAMES : Option ArchiveEntry → Archive → PatchTable
  readTEXTUREXData : ArchiveEntry → PatchTable → List CTexture
  readTEXTURESData : ArchiveEntry → List CTexture

/-- The assignment `map[key] = value` on a map from names. -/
def setKey {α : Type} (map : Str → α) (key : Str) (value : α) : Str → α :=
  fun i => if i = key then value else map i

/-- Modelled from the spec: `PropertyList::propertyExists(key)`. -/
def propertyExists (extra : List (Str × Str)) (key : Str) : Bool :=
  extra.any (fun p => p.1 == key)

/-- The first step of `addEntry`: the type is detected if it is unknown; the entry after the
step, `none` when the detection is undefined. -/
def addEntryDetect (w : Env) (entry : ArchiveEntry) : Option ArchiveEntry :=
  if entry.type_ = etype_unknown then
    match detectEntryType w.fm w.entry_types (some entry) with
    | some (some entry1, _) => some entry1
    | _ => none
  else some entry

/-- The namespace gate of `addEntry` for graphics: the entry is in one of the namespaces
global, patches, sprites, graphics, hires, textures, flats. -/
def inValidNamespace (w : Env) (entry : ArchiveEntry) : Bool :=
  w.isInNamespace entry (str "global") || w.isInNamespace entry (str "patches") ||
  w.isInNamespace entry (str "sprites") || w.isInNamespace entry (str "graphics") ||
  w.isInNamespace entry (str "hires") || w.isInNamespace entry (str "textures") ||
  w.isInNamespace entry (str "flats")

/-- The condition of the patch block of `addEntry`. -/
def isPatchEntry (w : Env) (entry : ArchiveEntry) : Bool :=
  propertyExists entry.type_.extra_ (str "patch") || w.isInNamespace entry (str "patches") ||
  w.isInNamespace entry (str "sprites")

/-- The condition of the flat block of `addEntry`. -/
def isFlatEntry (w : Env) (entry : ArchiveEntry) : Bool :=
  entry.type_.id_ == str "gfx_flat" || w.isInNamespace entry (str "flats")

/-- The condition of the stand-alone texture block of `addEntry`. -/
def isSaTextureEntry (w : Env) (entry : ArchiveEntry) : Bool :=
  w.isInNamespace entry (str "textures") || w.isInNamespace entry (str "hires")

/-- The body shared by the patch block and the flat block of `addEntry`, on the short-name
index, the full-path index and the full-path-only index of the category: the three indexes
after the block; `none` is the undefined call of `isTreeless` on a null parent. -/
def addToIndexes (w : Env) (entry : ArchiveEntry) (lname name path : Str)
    (short fp fp_only : Str → EntryResource) :
    Option ((Str → EntryResource) × (Str → EntryResource) × (Str → EntryResource)) :=
  let addToFpOnly : Bool := if (short name).length = 0 then false else true
  let short1 := setKey short name ((short name).add entry)
  match entry.parent with
  | none => none
  | some parent =>
    if w.isTreeless parent = false then
      let fp1 := setKey fp path ((fp path).add entry)
      if (lname.length > 8 ∨ (short1 name).length > 0) ∧ addToFpOnly = true then
        some (short1, fp1, setKey fp_only path ((fp_only path).add entry))
      else some (short1, fp1, fp_only)
    else some (short1, fp, fp_only)

/-- The patch block of `addEntry`. -/
def addPatch (w : Env) (entry : ArchiveEntry) (lname name path : Str) (rm : ResourceManager) :
    Option ResourceManager :=
  if isPatchEntry w entry = true then
    match addToIndexes w entry lname name path rm.patches_ rm.patches_fp_ rm.patches_fp_only_ with
    | none => none
    | some (short, fp, fp_only) =>
      some { rm with patches_ := short, patches_fp_ := fp, patches_fp_only_ := fp_only }
  else some rm

/-- The flat block of `addEntry`. -/
def addFlat (w : Env) (entry : ArchiveEntry) (lname name path : Str) (rm : ResourceManager) :
    Option ResourceManager :=
  if isFlatEntry w entry = true then
    match addToIndexes w entry lname name path rm.flats_ rm.flats_fp_ rm.flats_fp_only_ with
    | none => none
    | some (short, fp, fp_only) =>
      some { rm with flats_ := short, flats_fp_ := fp, flats_fp_only_ := fp_only }
  else some rm

/-- The stand-alone texture block of `addEntry`. -/
def addSaTexture (w : Env) (entry : ArchiveEntry) (name path : Str) (rm : ResourceManager) :
    Option ResourceManager :=
  if isSaTextureEntry w entry = true then
    match entry.parent with
    | none => none
    | some parent =>
      some { rm with
        satextures_ := setKey rm.satextures_ name ((rm.satextures_ name).add entry)
        satextures_fp_ :=
          if w.isTreeless parent = false then
            setKey rm.satextures_fp_ path ((rm.satextures_fp_ path).add entry)
          else rm.satextures_fp_
        doom64_hash_table_ := fun i =>
          if i = getTextureHash name then name else rm.doom64_hash_table_ i }
  else some rm

/-- The graphics block of `addEntry`: the manager after the block and whether the block left
the function with `return`. -/
def addEntryGfx (w : Env) (entry : ArchiveEntry) (lname name path : Str) (rm : ResourceManager) :
    Option (ResourceManager × Bool) :=
  if inValidNamespace w entry = false then some (rm, true)
  else
    match addPatch w entry lname name path rm with
    | none => none
    | some rm1 =>
      match addFlat w entry lname name path rm1 with
      | none => none
      | some rm2 =>
        match addSaTexture w entry name path rm2 with
        | none => none
        | some rm3 => some (rm3, false)

/-- The texture list that `addEntry` reads from a TEXTUREx entry (`txentry` 1) or a TEXTURES
entry (`txentry` 2); `none` is the undefined call of `findLast` on a null parent. -/
def addEntryList (w : Env) (entry : ArchiveEntry) (txentry : Nat) : Option (List CTexture) :=
  if txentry = 1 then
    match entry.parent with
    | none => none
    | some parent =>
      let pnames := w.findLast parent (fromId w.entry_types (str "pnames"))
      some (w.readTEXTUREXData entry (w.loadPNAMES pnames parent))
  else some (w.readTEXTURESData entry)

/-- The number `txentry` of `addEntry` and `removeEntry`. -/
def txentryOf (entry : ArchiveEntry) : Nat :=
  if entry.type_.id_ = str "texturex" then 1
  else if entry.type_.id_ = str "zdtextures" then 2
  else 0

/-- The texture list block of `addEntry`. -/
def addEntryTextures (w : Env) (entry : ArchiveEntry) (rm : ResourceManager) :
    Option ResourceManager :=
  if txentryOf entry > 0 then
    match addEntryList w entry (txentryOf entry) with
    | none => none
    | some tx =>
      some { rm with
        textures_ := tx.foldl
          (fun m tex => setKey m tex.name ((m tex.name).add (some tex) entry.parentPtr))
          rm.textures_ }
  else some rm

/-- The method `ResourceManager::addEntry(entry)`: the entry as the call leaves it (its type
may have been detected) and the manager after the call; `none` when an evaluation is
undefined. -/
def ResourceManager.addEntry (w : Env) (rm : ResourceManager) :
    Option ArchiveEntry → Option (Option ArchiveEntry × ResourceManager)
  | none => some (none, rm)
  | some entry0 =>
    match addEntryDetect w entry0 with
    | none => none
    | some entry =>
      let lname := w.upperNameNoExt entry
      let name := (w.upperNameNoExt entry).take 8
      let path := Mid (Upper (w.path entry)) 1
      let rm1 :=
        if entry.type_.id_ = str "palette" then
          { rm with palettes_ := setKey rm.palettes_ name ((rm.palettes_ name).add entry) }
        else rm
      match (if entry.type_.editor_ = str "gfx" then addEntryGfx w entry lname name path rm1
             else some (rm1, false)) with
      | none => none
      | some (rm2, true) => some (some entry, rm2)
      | some (rm2, false) =>
        match addEntryTextures w entry rm2 with
        | none => none
        | some rm3 => some (some entry, rm3)

/-- The function `removeEntryFromMap(map, name, entry, full_check)`. -/
def removeEntryFromMap (map : Str → EntryResource) (name : Str) (entry : ArchiveEntry)
    (full_check : Bool) : Str → EntryResource :=
  if full_check = true then fun i => (map i).remove entry
  else setKey map name ((map name).remove entry)

/-- The texture list block of `removeEntry`: the list is read again, a TEXTUREx list with a
fresh patch table, and the records of the archive of the entry are removed under each
name. -/
def removeEntryTextures (w : Env) (entry : ArchiveEntry) (textures : Str → TextureResource) :
    Str → TextureResource :=
  if txentryOf entry > 0 then
    let tx := if txentryOf entry = 1 then w.readTEXTUREXData entry [] else w.readTEXTURESData entry
    tx.foldl (fun m tex => setKey m tex.name ((m tex.name).remove entry.parentPtr)) textures
  else textures

/-- The method `ResourceManager::removeEntry(entry, log, full_check)`. -/
def ResourceManager.removeEntry (w : Env) (rm : ResourceManager) (entry : Option ArchiveEntry)
    (full_check : Bool) : ResourceManager :=
  match entry with
  | none => rm
  | some entry =>
    let name := (w.upperNameNoExt entry).take 8
    let path := Mid (Upper (w.path entry)) 1
    { palettes_ := removeEntryFromMap rm.palettes_ name entry full_check
      patches_ := removeEntryFromMap rm.patches_ name entry full_check
      patches_fp_ := removeEntryFromMap rm.patches_fp_ path entry full_check
      patches_fp_only_ := removeEntryFromMap rm.patches_fp_only_ path entry full_check
      flats_ := removeEntryFromMap rm.flats_ name entry full_check
      flats_fp_ := removeEntryFromMap rm.flats_fp_ path entry full_check
      flats_fp_only_ := removeEntryFromMap rm.flats_fp_only_ path entry full_check
      satextures_ := removeEntryFromMap rm.satextures_ name entry full_check
      satextures_fp_ := removeEntryFromMap rm.satextures_fp_ path entry full_check
      textures_ := removeEntryTextures w entry rm.textures_
      doom64_hash_table_ := rm.doom64_hash_table_ }

/-! ## The resource manager: `getTexture`, `putAllTextures` -/

/-- The loop of `getTexture` over the records of the name, with the running choice (the
variables `tex` and `parent`, kept as the record they come from): the choice after the loop
and whether the loop left the function with `return` on a record of the priority archive. -/
def getTextureLoop (archiveIndex : Option Nat → Int) (priority ignore : Option Nat) :
    List Texture → Texture → Texture × Bool
  | [], cur => (cur, false)
  | res_tex :: rest, cur =>
    if res_tex.parent = ignore then getTextureLoop archiveIndex priority ignore rest cur
    else if priority ≠ none ∧ res_tex.parent = priority then (res_tex, true)
    else if archiveIndex cur.parent ≤ archiveIndex res_tex.parent then
      getTextureLoop archiveIndex priority ignore rest res_tex
    else getTextureLoop archiveIndex priority ignore rest cur

/-- The method `ResourceManager::getTexture(texture, priority, ignore)`: the record whose
texture the returned pointer points to, `none` for the null pointer. -/
def ResourceManager.getTexture (archiveIndex : Option Nat → Int) (rm : ResourceManager)
    (texture : Str) (priority ignore : Option Nat) : Option Texture :=
  match (rm.textures_ (Upper texture)).textures_ with
  | [] => none
  | first :: rest =>
    match getTextureLoop archiveIndex priority ignore (first :: rest) first with
    | (cur, true) => some cur
    | (cur, false) => if cur.parent ≠ ignore then some cur else none

/-- The inner loop of `putAllTextures` over the records of one name, from the record `a` on:
the value of `res` when the loop ends. Each turn first sets `res` to the record of the
turn. -/
def putAllTexturesLoop (archiveIndex : Option Nat → Int) (priority ignore : Option Nat) :
    List Texture → Texture → Texture
  | [], res => res
  | t :: rest, _ =>
    if t.parent = ignore then putAllTexturesLoop archiveIndex priority ignore rest t
    else if priority ≠ none ∧ t.parent = priority then t
    else if archiveIndex t.parent ≤ archiveIndex t.parent then
      putAllTexturesLoop archiveIndex priority ignore rest t
    else putAllTexturesLoop archiveIndex priority ignore rest t

/-- One turn of the outer loop of `putAllTextures`, for the resource of one name: the record
the turn appends to the list, if any. -/
def putAllTexturesBody (archiveIndex : Option Nat → Int) (priority ignore : Option Nat)
    (res : TextureResource) : Option Texture :=
  match res.textures_ with
  | [] => none
  | first :: rest =>
    if (putAllTexturesLoop archiveIndex priority ignore (first :: rest) first).parent ≠ ignore
    then some (putAllTexturesLoop archiveIndex priority ignore (first :: rest) first)
    else none

/-- The method `ResourceManager::putAllTextures(list, priority, ignore)`: the list after
the call. The names the map `textures_` holds, in the order of the map, are `keys`. -/
def ResourceManager.putAllTextures (archiveIndex : Option Nat → Int) (rm : ResourceManager)
    (keys : List Str) (list : List Texture) (priority ignore : Option Nat) : List Texture :=
  keys.foldl
    (fun l k =>
      match putAllTexturesBody archiveIndex priority ignore (rm.textures_ k) with
      | some res => l ++ [res]
      | none => l)
    list

/-! ## The name stage as the specification words it -/

/-- The base name of an entry name: the text before its first dot. -/
def baseName (fn : Str) : Str := fn.takeWhile (fun c => c != '.')

/-- The extension of an entry name: the text after its first dot, when there is a dot. -/
def extension (fn : Str) : Option Str :=
  match fn.dropWhile (fun c => c != '.') with
  | [] => none
  | _ :: rest => some rest

/-- The base name is matched by some name mask of the definition. -/
def nameGlobOk (t : EntryType) (fn : Str) : Prop :=
  ∃ mask ∈ t.match_name_, Matches mask (baseName fn) = true

/-- The extension equals some listed extension of the definition. -/
def extListedOk (t : EntryType) (fn : Str) : Prop :=
  ∃ x ∈ t.match_extension_, extension fn = some x

/-- The name and extension criterion in the words of the specification: either one of the
two suffices when `match_ext_or_name` is set and both sets are non-empty, otherwise each
non-empty set must be matched. -/
def nameExtSpec (t : EntryType) (fn : Str) : Prop :=
  (t.match_ext_or_name_ = true ∧ t.match_name_ ≠ [] ∧ t.match_extension_ ≠ [] ∧
      (nameGlobOk t fn ∨ extListedOk t fn)) ∨
  (¬ (t.match_ext_or_name_ = true ∧ t.match_name_ ≠ [] ∧ t.match_extension_ ≠ []) ∧
      (t.match_name_ ≠ [] → nameGlobOk t fn) ∧ (t.match_extension_ ≠ [] → extListedOk t fn))

/-! ## Predicates of the statements -/

/-- The definition has no criterion besides its format (and its section list, which the
statements name apart): no size bound, no archive, size, size-multiple, name or extension
list. -/
abbrev NoOtherCriterion (t : EntryType) : Prop :=
  t.detectable_ = true ∧ t.size_limit_.1 < 0 ∧ t.size_limit_.2 < 0 ∧ t.match_archive_ = [] ∧
  t.match_size_ = [] ∧ t.size_multiple_ = [] ∧ t.match_name_ = [] ∧ t.match_extension_ = [] ∧
  t.section_ = []

/-- The definition `t` is the winner of the registry `reg` on the entry `e`: the `unknown`
type when no definition of positive reliability matches definitely, else a definition of the
registry that matches definitely and whose reliability no other such definition exceeds. -/
def Winner (fm : FormatMatcher) (e : ArchiveEntry) (reg : List EntryType) (t : EntryType) : Prop :=
  (t = etype_unknown ∧
    ∀ u ∈ reg, isThisType fm u (some e) = some MATCH_TRUE → u.reliability_.val = 0) ∨
  (t ∈ reg ∧ isThisType fm t (some e) = some MATCH_TRUE ∧ 0 < t.reliability_.val ∧
    ∀ u ∈ reg, isThisType fm u (some e) = some MATCH_TRUE →
      u.reliability_.val ≤ t.reliability_.val)

/-- The definitions of the registry that match the entry have pairwise distinct
reliabilities: two definitions of the registry that both match the entry, with whatever
confidence, and have the same reliability are the same definition. -/
abbrev DistinctMatches (fm : FormatMatcher) (e : ArchiveEntry) (reg : List EntryType) : Prop :=
  ∀ a ∈ reg, ∀ b ∈ reg, isThisType fm a (some e) ≠ some MATCH_FALSE →
    isThisType fm b (some e) ≠ some MATCH_FALSE → a.reliability_ = b.reliability_ → a = b

/-- The live reference to `entry` ends the scan of `getEntry`: the entry is not passed over
by the required-namespace check and is of the priority archive or of an archive embedded in
it. -/
def StopsScan (isInNamespace : ArchiveEntry → Str → Bool) (priority : Option Nat) (nspace : Str)
    (ns_required : Bool) (entry : ArchiveEntry) : Prop :=
  ¬ (ns_required = true ∧ nspace ≠ [] ∧ isInNamespace entry nspace = false) ∧
  inPriority priority entry = some true

/-- The registry of the palette scenario: the four special types and the definition `pal`. -/
def paletteRegistry (pal : EntryType) : List EntryType :=
  [etype_unknown, etype_folder, etype_marker, etype_map, pal]

/-- The definition `pal` accepts exactly the entries of 768 bytes. -/
def Accepts768 (fm : FormatMatcher) (pal : EntryType) : Prop :=
  ∀ e : ArchiveEntry,
    (e.size = 768 → ∃ r, 0 < r ∧ isThisType fm pal (some e) = some r) ∧
    (e.size ≠ 768 → isThisType fm pal (some e) = some MATCH_FALSE)

/-- The entry belongs to the archive `p` or to an archive whose parent archive is `p`. -/
def InFamily (p : Nat) (e : ArchiveEntry) : Prop :=
  ∃ a, e.parent = some a ∧ (a.ptr = p ∨ a.parentArchive = some p)

/-- Every live reference of the resource is to an entry with a containing archive, as
`EntryResource::add` admits them. -/
def ParentsSet (r : EntryResource) : Prop :=
  ∀ e, some e ∈ r.entries_ → e.parent ≠ none

/-- The references that `removeArchive` keeps: the live references to entries outside the
archive. -/
def keptRef (archive : Option Nat) (w : Option ArchiveEntry) : Bool :=
  match w with
  | some e => e.parentPtr != archive
  | none => false

/-- The hash as the specification words it: the fold `h := h xor ((h << 5) + c + (h >> 2))`
in 32-bit arithmetic over the upper-cased first eight characters of the name, from the seed
1315423911, reduced modulo 65536. -/
def hashFold (name : Str) : Nat :=
  (Upper (name.take 8)).foldl
    (fun h c => h ^^^ ((h <<< 5 + c.toNat + h >>> 2) % 4294967296)) 1315423911 % 65536

/-- The index `map` with a reference to the entry added under `key` when `cond` holds. -/
def addedUnder (cond : Bool) (entry : ArchiveEntry) (key : Str) (map : Str → EntryResource) :
    Str → EntryResource :=
  if cond = true then setKey map key ((map key).add entry) else map

/-- The texture index with the records of the texture list of the entry added, for an entry
of the archive `parent`. -/
def addedTextures (w : Env) (entry : ArchiveEntry) (parent : Archive)
    (textures : Str → TextureResource) : Str → TextureResource :=
  if txentryOf entry > 0 then
    (if txentryOf entry = 1 then
      w.readTEXTUREXData entry
        (w.loadPNAMES (w.findLast parent (fromId w.entry_types (str "pnames"))) parent)
     else w.readTEXTURESData entry).foldl
      (fun m tex => setKey m tex.name ((m tex.name).add (some tex) entry.parentPtr)) textures
  else textures

/-- The manager that `addEntry` leaves for an entry of the archive `parent` whose type is
settled, index by index: each index gains a reference exactly under the condition of its
block. -/
def addEntryResult (w : Env) (rm : ResourceManager) (entry : ArchiveEntry) (parent : Archive) :
    ResourceManager :=
  let name := (w.upperNameNoExt entry).take 8
  let path := Mid (Upper (w.path entry)) 1
  let gfx : Bool := entry.type_.editor_ == str "gfx" && inValidNamespace w entry
  let tree : Bool := !w.isTreeless parent
  { palettes_ := addedUnder (entry.type_.id_ == str "palette") entry name rm.palettes_
    patches_ := addedUnder (gfx && isPatchEntry w entry) entry name rm.patches_
    patches_fp_ := addedUnder (gfx && isPatchEntry w entry && tree) entry path rm.patches_fp_
    patches_fp_only_ :=
      addedUnder (gfx && isPatchEntry w entry && tree && (rm.patches_ name).length != 0)
        entry path rm.patches_fp_only_
    flats_ := addedUnder (gfx && isFlatEntry w entry) entry name rm.flats_
    flats_fp_ := addedUnder (gfx && isFlatEntry w entry && tree) entry path rm.flats_fp_
    flats_fp_only_ :=
      addedUnder (gfx && isFlatEntry w entry && tree && (rm.flats_ name).length != 0)
        entry path rm.flats_fp_only_
    satextures_ := addedUnder (gfx && isSaTextureEntry w entry) entry name rm.satextures_
    satextures_fp_ :=
      addedUnder (gfx && isSaTextureEntry w entry && tree) entry path rm.satextures_fp_
    textures_ :=
      if (entry.type_.editor_ == str "gfx" && !inValidNamespace w entry) = true then rm.textures_
      else addedTextures w entry parent rm.textures_
    doom64_hash_table_ :=
      if (gfx && isSaTextureEntry w entry) = true then
        fun i => if i = getTextureHash name then name else rm.doom64_hash_table_ i
      else rm.doom64_hash_table_ }

/-- The names of the nine entry indexes of the resource manager. -/
inductive EntryIndex where
  | palettes | patches | patches_fp | patches_fp_only | flats | flats_fp | flats_fp_only
  | satextures | satextures_fp
  deriving DecidableEq

/-- The entry index of the given name. -/
def ResourceManager.index (rm : ResourceManager) : EntryIndex → Str → EntryResource
  | .palettes => rm.palettes_
  | .patches => rm.patches_
  | .patches_fp => rm.patches_fp_
  | .patches_fp_only => rm.patches_fp_only_
  | .flats => rm.flats_
  | .flats_fp => rm.flats_fp_
  | .flats_fp_only => rm.flats_fp_only_
  | .satextures => rm.satextures_
  | .satextures_fp => rm.satextures_fp_

/-- The references the index `i` holds under the key `k`. -/
def ResourceManager.refs (rm : ResourceManager) (i : EntryIndex) (k : Str) :
    List (Option ArchiveEntry) :=
  (rm.index i k).entries_

/-- The condition under which `addEntry` adds a reference to the index `i`, for an entry of
the archive `parent` whose type is settled, in the manager `rm`. -/
def indexedIn (w : Env) (rm : ResourceManager) (entry : ArchiveEntry) (parent : Archive) :
    EntryIndex → Bool
  | .palettes => entry.type_.id_ == str "palette"
  | .patches =>
    entry.type_.editor_ == str "gfx" && inValidNamespace w entry && isPatchEntry w entry
  | .patches_fp =>
    entry.type_.editor_ == str "gfx" && inValidNamespace w entry && isPatchEntry w entry &&
      !w.isTreeless parent
  | .patches_fp_only =>
    entry.type_.editor_ == str "gfx" && inValidNamespace w entry && isPatchEntry w entry &&
      !w.isTreeless parent && (rm.patches_ ((w.upperNameNoExt entry).take 8)).length != 0
  | .flats =>
    entry.type_.editor_ == str "gfx" && inValidNamespace w entry && isFlatEntry w entry
  | .flats_fp =>
    entry.type_.editor_ == str "gfx" && inValidNamespace w entry && isFlatEntry w entry &&
      !w.isTreeless parent
  | .flats_fp_only =>
    entry.type_.editor_ == str "gfx" && inValidNamespace w entry && isFlatEntry w entry &&
      !w.isTreeless parent && (rm.flats_ ((w.upperNameNoExt entry).take 8)).length != 0
  | .satextures =>
    entry.type_.editor_ == str "gfx" && inValidNamespace w entry && isSaTextureEntry w entry
  | .satextures_fp =>
    entry.type_.editor_ == str "gfx" && inValidNamespace w entry && isSaTextureEntry w entry &&
      !w.isTreeless parent

/-- The key under which `addEntry` and `removeEntry` address the index `i` for the entry: the
short name for the short-name indexes, the path for the full-path indexes. -/
def keyOf (w : Env) (entry : ArchiveEntry) : EntryIndex → Str
  | .palettes | .patches | .flats | .satextures => (w.upperNameNoExt entry).take 8
  | .patches_fp | .patches_fp_only | .flats_fp | .flats_fp_only | .satextures_fp =>
    Mid (Upper (w.path entry)) 1

/-- The catalog holds no reference to the entry: no reference of any index, under any key,
locks to the entry. -/
def NoReference (rm : ResourceManager) (e : ArchiveEntry) : Prop :=
  ∀ (i : EntryIndex) (k : Str), ∀ x ∈ rm.refs i k, x.map (fun y => y.ptr) ≠ some e.ptr

/-- The entry parses into the texture list `tx`: the reader of its kind leaves the textures
`tx` in the list, a TEXTUREx reader with every patch table. -/
def ParsesInto (w : Env) (e : ArchiveEntry) (tx : List CTexture) : Prop :=
  if e.type_.id_ = str "texturex" then ∀ ptable, w.readTEXTUREXData e ptable = tx
  else w.readTEXTURESData e = tx

/-! ## Sample definitions and entries -/

/-- A format matcher that knows no format. -/
def noFormats : FormatMatcher := fun _ _ => 0

/-- A format matcher with one format, `maybe`, that matches any data with confidence 128. -/
def maybeFormats : FormatMatcher := fun id _ => if id = str "maybe" then 128 else 0

/-- An entry with the given name and data, outside any archive, typed `unknown`. -/
def mkEntry (name : Str) (data : List Nat) : ArchiveEntry :=
  { upperName := name, data := data, parent := none, detectNamespace := [],
    type_ := etype_unknown, reliability_ := 255 }

/-- A definition that matches every entry, with the given id and reliability. -/
def anyType (id : Str) (rel : Fin 256) : EntryType :=
  { EntryType.new id with reliability_ := rel }

/-- The definition of the name scenario: name mask `MAP*` or extension `WAD`. -/
def mapOrWad : EntryType :=
  { EntryType.new (str "maporwad") with
    match_name_ := [str "MAP*"], match_extension_ := [str "WAD"], match_ext_or_name_ := true }

/-- The definition of the palette scenario: exactly 768 bytes, reliability 200. -/
def palette : EntryType :=
  { EntryType.new (str "palette") with match_size_ := [768], reliability_ := 200 }

/-- A pure text definition with no other criterion. -/
def textType : EntryType :=
  { EntryType.new (str "text") with format_ := EntryDataFormat.textFormat }

/-- A definition listing the section `flats`, with the format `maybe`. -/
def flatType : EntryType :=
  { EntryType.new (str "flat") with format_ := ⟨str "maybe"⟩, section_ := [str "flats"] }

/-- An entry of a wad archive, in the namespace `FLATS`. -/
def flatEntry : ArchiveEntry :=
  { mkEntry (str "FLOOR1") [1, 2, 3, 4] with
    parent := some { formatId := str "wad" }, detectNamespace := str "FLATS" }

/-- A six-byte entry whose only NUL byte is the third byte from the end. -/
def nulThirdFromEnd : ArchiveEntry := mkEntry (str "SCRIPTS") [65, 66, 67, 0, 68, 69]

/-- A four-byte entry that ends in the two-byte null padding. -/
def paddedShort : ArchiveEntry := mkEntry (str "SCRIPTS") [65, 66, 0, 0]

/-- A six-byte entry that ends in the two-byte null padding. -/
def paddedLong : ArchiveEntry := mkEntry (str "SCRIPTS") [65, 66, 67, 68, 0, 0]

/-- A six-byte entry with a NUL byte in its second byte. -/
def nulEarly : ArchiveEntry := mkEntry (str "SCRIPTS") [65, 0, 67, 68, 69, 70]

/-- A definition of reliability 200 whose format, `maybe`, matches with confidence 128. -/
def maybe200 : EntryType :=
  { EntryType.new (str "graphic") with format_ := ⟨str "maybe"⟩, reliability_ := 200 }

/-- A three-byte entry typed `unknown`. -/
def smallEntry : ArchiveEntry := mkEntry (str "LUMP") [1, 2, 3]

/-- A ten-byte entry typed `unknown`. -/
def tenBytes : ArchiveEntry := mkEntry (str "LUMP") (List.replicate 10 7)

/-- An entry of 768 bytes typed `unknown`. -/
def paletteEntry : ArchiveEntry := mkEntry (str "PLAYPAL") (List.replicate 768 7)

/-- An entry of 768 bytes typed as a map marker. -/
def mapMarkerEntry : ArchiveEntry :=
  { mkEntry (str "MAP01") (List.replicate 768 7) with type_ := etype_map }

/-- A one-byte entry as the sweep starts on it: typed `unknown`. -/
def gateEntry : ArchiveEntry := (mkEntry (str "X") [1]).setType etype_unknown 255

/-- Three definitions that match every entry, of reliability 200, 100 and 250. -/
def gateA : EntryType := anyType (str "a") 200

/-- The second definition of the gate scenario, of reliability 100. -/
def gateB : EntryType := anyType (str "b") 100

/-- The third definition of the gate scenario, of reliability 250. -/
def gateC : EntryType := anyType (str "c") 250

/-- All the values the fields of the given name (ignoring case) carry, in block order. -/
def givenValues (fname : Str) : List FieldNode → List PValue
  | [] => []
  | f :: fs =>
    if S_CMPNOCASE f.name fname then f.values ++ givenValues fname fs
    else givenValues fname fs

/-- A text value of a parsed field. -/
def sval (s : String) : PValue := { stringValue := str s, intValue := 0, boolValue := false }

/-- An integer value of a parsed field. -/
def ival (i : Int) : PValue := { stringValue := [], intValue := i, boolValue := i != 0 }

/-- The ids of the sample data formats. -/
def sampleFormats : List Str := [str "any", str "text", str "maybe"]

/-- The block `Palette`: size 768, reliability 200. -/
def paletteBlock : TypeNode :=
  { name := str "Palette", inherit := [],
    children := [{ name := str "size", values := [ival 768] },
                 { name := str "reliability", values := [ival 200] }] }

/-- A block with three anomalies: an unknown inheritance parent, an undefined format and two
colour components. -/
def oddBlock : TypeNode :=
  { name := str "Odd", inherit := str "nothing",
    children := [{ name := str "format", values := [sval "nonexistent"] },
                 { name := str "colour", values := [ival 1, ival 2] }] }

/-- The block `Grid`: the size must be a multiple of 4. -/
def gridBlock : TypeNode :=
  { name := str "Grid", inherit := [],
    children := [{ name := str "size_multiple", values := [ival 4] }] }

/-- The block `Heir`, which inherits from `Grid` and gives no field. -/
def heirBlock : TypeNode := { name := str "Heir", inherit := str "Grid", children := [] }

/-- The block `Maps`: the name mask `MAP*`. -/
def mapsBlock : TypeNode :=
  { name := str "Maps", inherit := [],
    children := [{ name := str "match_name", values := [sval "map*"] }] }

/-- The block `Episode`, which inherits from `Maps` and gives the name mask `E?M?`. -/
def episodeBlock : TypeNode :=
  { name := str "Episode", inherit := str "maps",
    children := [{ name := str "match_name", values := [sval "e?m?"] }] }

/-- The registry after the block `Palette` is read into the seeded registry. -/
def paletteRead : Registry :=
  (readEntryTypeDefinition sampleFormats (some [paletteBlock]) seedRegistry).2

/-- The registry after the blocks `Grid` and `Heir` are read into the seeded registry. -/
def gridRead : Registry :=
  (readEntryTypeDefinition sampleFormats (some [gridBlock, heirBlock]) seedRegistry).2

/-- The registry after the blocks `Maps` and `Episode` are read into the seeded registry. -/
def mapsRead : Registry :=
  (readEntryTypeDefinition sampleFormats (some [mapsBlock, episodeBlock]) seedRegistry).2

/-- The registry after the block `Maps` alone is read into the seeded registry. -/
def mapsOnly : Registry :=
  (readEntryTypeDefinition sampleFormats (some [mapsBlock]) seedRegistry).2

/-- The archive `A1`, opened first. -/
def archiveA1 : Archive := { formatId := str "wad", ptr := 1 }

/-- The archive `A2`, opened second. -/
def archiveA2 : Archive := { formatId := str "wad", ptr := 2 }

/-- The open-order index of the sample archive manager: `A1` has index 0, `A2` index 1, any
other pointer -1. -/
def sampleIndex : Option Nat → Int := fun p =>
  if p = some 1 then 0 else if p = some 2 then 1 else -1

/-- The namespace test of the samples: the namespace detected for the entry is the one
asked for. -/
def sampleInNamespace : ArchiveEntry → Str → Bool := fun e ns => e.detectNamespace == ns

/-- The entry `FLOOR` of the archive `A1`, in the namespace `flats`. -/
def floorA1 : ArchiveEntry :=
  { mkEntry (str "FLOOR") [1, 2] with parent := some archiveA1, detectNamespace := str "flats" }

/-- The entry `FLOOR` of the archive `A2`, in the namespace `patches`. -/
def floorA2 : ArchiveEntry :=
  { mkEntry (str "FLOOR") [3, 4] with parent := some archiveA2, detectNamespace := str "patches" }

/-- A resource manager whose palette index holds, under the key `FLOOR`, the entries of
`A1` and `A2`, and whose texture index holds a record of each archive under `WALL`. -/
def sampleManager : ResourceManager :=
  { palettes_ := fun k =>
      if k = str "FLOOR" then { entries_ := [some floorA1, some floorA2] } else { entries_ := [] }
    patches_ := fun _ => { entries_ := [] }
    patches_fp_ := fun _ => { entries_ := [] }
    patches_fp_only_ := fun _ => { entries_ := [] }
    flats_ := fun _ => { entries_ := [] }
    flats_fp_ := fun _ => { entries_ := [] }
    flats_fp_only_ := fun _ => { entries_ := [] }
    satextures_ := fun _ => { entries_ := [] }
    satextures_fp_ := fun _ => { entries_ := [] }
    textures_ := fun k =>
      if k = str "WALL" then
        { textures_ := [{ tex := { name := str "WALL" }, parent := some 1 },
                        { tex := { name := str "WALL" }, parent := some 2 }] }
      else { textures_ := [] } }

/-- The sample surroundings: no format matcher, an empty registry, the namespace detected for
the entry, the name up to the first dot, the path `/` and the name, no treeless archive, no
patch names entry, and two readers that find no texture. -/
def sampleEnv : Env :=
  { fm := noFormats
    entry_types := []
    isInNamespace := sampleInNamespace
    upperNameNoExt := fun e => e.upperName.takeWhile (fun c => c != '.')
    path := fun e => '/' :: e.upperName
    isTreeless := fun _ => false
    findLast := fun _ _ => none
    loadPNAMES := fun _ _ => []
    readTEXTUREXData := fun _ _ => []
    readTEXTURESData := fun _ => [] }

/-- A resource manager that holds nothing. -/
def emptyManager : ResourceManager :=
  { palettes_ := fun _ => { entries_ := [] }
    patches_ := fun _ => { entries_ := [] }
    patches_fp_ := fun _ => { entries_ := [] }
    patches_fp_only_ := fun _ => { entries_ := [] }
    flats_ := fun _ => { entries_ := [] }
    flats_fp_ := fun _ => { entries_ := [] }
    flats_fp_only_ := fun _ => { entries_ := [] }
    satextures_ := fun _ => { entries_ := [] }
    satextures_fp_ := fun _ => { entries_ := [] }
    textures_ := fun _ => { textures_ := [] } }

/-- A graphics definition that carries the property `patch`. -/
def gfxPatchType : EntryType :=
  { EntryType.new (str "gfx_png") with editor_ := str "gfx", extra_ := [(str "patch", [])] }

/-- The palette definition of the resource scenarios. -/
def paletteType : EntryType := EntryType.new (str "palette")

/-- The entry `WALL.PNG` of the archive `A1`, a graphic with the property `patch` in the
namespace `flats`. -/
def wallPng : ArchiveEntry :=
  { mkEntry (str "WALL.PNG") [1, 2] with
    parent := some archiveA1, detectNamespace := str "flats", type_ := gfxPatchType, ptr := 7 }

/-- The palette entry `PLAYPAL` of the archive `A1`. -/
def playpalA1 : ArchiveEntry :=
  { mkEntry (str "PLAYPAL") [1, 2] with
    parent := some archiveA1, detectNamespace := str "global", type_ := paletteType, ptr := 8 }

/-- A definition whose only criterion is the extension list of the one extension `x`. -/
def extOnly (x : Str) : EntryType :=
  { EntryType.new (str "byext") with match_extension_ := [x] }

/-- A definition whose only criterion is the name list of the one mask `mask`. -/
def nameOnly (mask : Str) : EntryType :=
  { EntryType.new (str "byname") with match_name_ := [mask] }

/-- A resource manager whose patch index holds, under the short name `WALL`, the entry
`FLOOR` of the archive `A2`. -/
def wallHeld : ResourceManager :=
  { emptyManager with
    patches_ := fun k =>
      if k = str "WALL" then { entries_ := [some floorA2] } else { entries_ := [] } }

/-- A graphics definition without any property. -/
def gfxPlainType : EntryType := { EntryType.new (str "gfx_raw") with editor_ := str "gfx" }

/-- The entry `FLOOR` of the archive `A2`, a plain graphic in the namespace `patches`. -/
def floorGfx : ArchiveEntry := { floorA2 with type_ := gfxPlainType, ptr := 9 }

/-- The definition of the compiled texture lists. -/
def texturexType : EntryType :=
  { EntryType.new (str "texturex") with editor_ := str "texturex" }

/-- The entry `TEXTURE1` of the archive `A1`, a compiled texture list. -/
def texture1 : ArchiveEntry :=
  { mkEntry (str "TEXTURE1") [1, 2] with
    parent := some archiveA1, detectNamespace := str "global", type_ := texturexType,
    ptr := 10 }

/-- The sample surroundings with a TEXTUREx reader that finds the two textures `WALL` and
`DOOR`. -/
def texEnv : Env :=
  { sampleEnv with
    readTEXTUREXData := fun _ _ => [{ name := str "WALL" }, { name := str "DOOR" }] }

/-- The sample surroundings with a TEXTUREx reader that finds the one texture `wall`, its
name in lower case. -/
def lowerEnv : Env :=
  { sampleEnv with readTEXTUREXData := fun _ _ => [{ name := str "wall" }] }

/-- A resource manager whose texture index holds under `WALL` the record of the archive `A2`
and then the record of the archive `A1`, as after the texture list of `A1` was indexed
again. -/
def wallLate : ResourceManager :=
  { emptyManager with
    textures_ := fun k =>
      if k = str "WALL" then
        { textures_ := [{ tex := { name := str "WALL" }, parent := some 2 },
                        { tex := { name := str "WALL" }, parent := some 1 }] }
      else { textures_ := [] } }

/-! ## Properties of the sweep -/

/-- The matcher does not look at the type or the confidence assigned to the entry. -/
theorem isThisType_setType (fm : FormatMatcher) (t u : EntryType) (e : ArchiveEntry) (r : Nat) :
    isThisType fm t (some (e.setType u r)) = isThisType fm t (some e) := rfl

/-- The sweep over a registry split in two runs the second part from where the first ends. -/
theorem sweep_append (fm : FormatMatcher) (pre post : List EntryType) (e0 e : ArchiveEntry)
    (h : sweep fm pre e0 = some (e, false)) :
    sweep fm (pre ++ post) e0 = sweep fm post e := by
  induction pre generalizing e0 with
  | nil =>
    simp only [sweep, Option.some.injEq, Prod.mk.injEq, and_true] at h
    subst h
    rfl
  | cons a pre ih =>
    simp only [List.cons_append, sweep] at h ⊢
    cases hb : sweepBody fm a e0 with
    | none => rw [hb] at h; simp at h
    | some p =>
      obtain ⟨e1, b⟩ := p
      rw [hb] at h
      cases b with
      | true => simp at h
      | false => exact ih e1 h

/-- C4: an entry of size 0 whose type is neither folder nor map marker is set to the marker
type by `detectEntryType`, which returns true, whatever the registry holds. -/
theorem detect_zero_size_marker (fm : FormatMatcher) (entry_types : List EntryType)
    (entry : ArchiveEntry) (hsize : entry.size = 0)
    (hfolder : entry.type_ ≠ etype_folder) (hmap : entry.type_ ≠ etype_map) :
    detectEntryType fm entry_types (some entry)
      = some (some (entry.setType etype_marker 255), true) := by
  simp [detectEntryType, hsize, hfolder, hmap]

/-- Witness of C4: the empty entry `MAPINFO` becomes a marker although the only detectable
definition of the registry matches it by name. -/
theorem detect_zero_size_marker_witness :
    isThisType noFormats mapOrWad (some (mkEntry (str "MAPINFO") [])) = some MATCH_TRUE ∧
    detectEntryType noFormats [etype_unknown, mapOrWad] (some (mkEntry (str "MAPINFO") []))
      = some (some ((mkEntry (str "MAPINFO") []).setType etype_marker 255), true) :=
  ⟨by decide,
   detect_zero_size_marker noFormats [etype_unknown, mapOrWad] (mkEntry (str "MAPINFO") [])
     (by decide) (by decide) (by decide)⟩

/-- C2: when the sweep reaches the definition `D` with the entry at type reliability `R`:
if the reliability of `D` is at most `R`, the turn leaves the entry as it is and the sweep
goes on from the same entry; if it is greater than `R` and `D.isThisType` reports a match
of confidence `r`, the entry is typed `D` by the turn and the sweep goes on (or returns)
from the entry typed `D`. -/
theorem sweep_reliability_gate (fm : FormatMatcher) (pre post : List EntryType)
    (D : EntryType) (e0 e : ArchiveEntry) (hreach : sweep fm pre e0 = some (e, false)) :
    (D.reliability_.val ≤ e.typeReliability →
      sweepBody fm D e = some (e, false) ∧
      sweep fm (pre ++ D :: post) e0 = sweep fm post e) ∧
    (∀ r, e.typeReliability < D.reliability_.val → isThisType fm D (some e) = some r → 0 < r →
      ∃ stop, sweepBody fm D e = some (e.setType D r, stop) ∧
        (e.setType D r).type_ = D ∧
        sweep fm (pre ++ D :: post) e0
          = if stop = true then some (e.setType D r, true) else sweep fm post (e.setType D r)) := by
  rw [sweep_append fm pre (D :: post) e0 e hreach]
  constructor
  · intro hle
    have hb : sweepBody fm D e = some (e, false) := by
      simp [sweepBody, hle]
    exact ⟨hb, by simp [sweep, hb]⟩
  · intro r hlt hr hpos
    have hnot : ¬ (e.typeReliability ≥ D.reliability_.val) := by omega
    by_cases hfull : (e.setType D r).typeReliability ≥ 255
    · have hb : sweepBody fm D e = some (e.setType D r, true) := by
        simp only [sweepBody, if_neg hnot, hr, gt_iff_lt, hpos, if_true, hfull]
      exact ⟨true, hb, rfl, by simp [sweep, hb]⟩
    · have hb : sweepBody fm D e = some (e.setType D r, false) := by
        simp only [sweepBody, if_neg hnot, hr, gt_iff_lt, hpos, if_true, hfull, if_false]
      exact ⟨false, hb, rfl, by simp [sweep, hb]⟩

/-- Witness of C2: the sweep reaches the second definition, of reliability 100, with the
entry at reliability 200 and leaves it; it reaches the third, of reliability 250, with the
same entry, and the third retypes it. -/
theorem sweep_reliability_gate_witness :
    (sweep noFormats [gateA] gateEntry = some (gateEntry.setType gateA 255, false) ∧
      sweep noFormats ([gateA] ++ gateB :: [gateC]) gateEntry
        = sweep noFormats [gateC] (gateEntry.setType gateA 255)) ∧
    (sweep noFormats [gateA, gateB] gateEntry = some (gateEntry.setType gateA 255, false) ∧
      ∃ stop, sweepBody noFormats gateC (gateEntry.setType gateA 255)
          = some ((gateEntry.setType gateA 255).setType gateC 255, stop) ∧
        ((gateEntry.setType gateA 255).setType gateC 255).type_ = gateC ∧
        sweep noFormats ([gateA, gateB] ++ gateC :: []) gateEntry
          = if stop = true then some ((gateEntry.setType gateA 255).setType gateC 255, true)
            else sweep noFormats [] ((gateEntry.setType gateA 255).setType gateC 255)) :=
  ⟨⟨by decide,
    ((sweep_reliability_gate noFormats [gateA] [gateC] gateB gateEntry
      (gateEntry.setType gateA 255) (by decide)).1 (by decide)).2⟩,
   ⟨by decide,
    (sweep_reliability_gate noFormats [gateA, gateB] [] gateC gateEntry
      (gateEntry.setType gateA 255) (by decide)).2 255 (by decide) (by decide) (by decide)⟩⟩

theorem typeReliability_setType_full (e : ArchiveEntry) (t : EntryType) :
    (e.setType t 255).typeReliability = t.reliability_.val := by
  simp [ArchiveEntry.typeReliability, ArchiveEntry.setType]

theorem sweepBody_skip (fm : FormatMatcher) (t : EntryType) (e : ArchiveEntry)
    (h : t.reliability_.val ≤ e.typeReliability) : sweepBody fm t e = some (e, false) := by
  simp [sweepBody, h]

theorem sweepBody_nomatch (fm : FormatMatcher) (t : EntryType) (e : ArchiveEntry)
    (h : isThisType fm t (some e) = some MATCH_FALSE) : sweepBody fm t e = some (e, false) := by
  simp [sweepBody, h, MATCH_FALSE]

theorem sweepBody_match (fm : FormatMatcher) (t : EntryType) (e : ArchiveEntry) (r : Nat)
    (hlt : e.typeReliability < t.reliability_.val)
    (h : isThisType fm t (some e) = some r) (hr : 0 < r) :
    sweepBody fm t e
      = some (e.setType t r, decide (255 ≤ (e.setType t r).typeReliability)) := by
  have hnot : ¬ (e.typeReliability ≥ t.reliability_.val) := by omega
  by_cases hfull : 255 ≤ (e.setType t r).typeReliability
  · simp [sweepBody, hnot, h, hr, hfull]
  · simp [sweepBody, hnot, h, hr, hfull]

/-- One turn of the loop changes at most the type and the confidence of the entry. -/
theorem sweepBody_frame (fm : FormatMatcher) (t : EntryType) (e s : ArchiveEntry) (b : Bool)
    (h : sweepBody fm t e = some (s, b)) :
    (∀ u r, s.setType u r = e.setType u r) ∧
    (b = false → e.typeReliability < 255 → s.typeReliability < 255) := by
  unfold sweepBody at h
  split_ifs at h with h1
  · cases h
    exact ⟨fun _ _ => rfl, fun _ hlt => hlt⟩
  · cases hm : isThisType fm t (some e) with
    | none => rw [hm] at h; cases h
    | some r =>
      rw [hm] at h
      simp only [] at h
      split_ifs at h with h2 h3
      · cases h
        exact ⟨fun _ _ => rfl, fun hb => by cases hb⟩
      · cases h
        exact ⟨fun _ _ => rfl, fun _ _ => by omega⟩
      · cases h
        exact ⟨fun _ _ => rfl, fun _ hlt => hlt⟩

/-- The loop changes at most the type and the confidence of the entry, and an entry it
hands on without returning has a type reliability below 255. -/
theorem sweep_frame (fm : FormatMatcher) (reg : List EntryType) (e s : ArchiveEntry) (b : Bool)
    (h : sweep fm reg e = some (s, b)) :
    (∀ u r, s.setType u r = e.setType u r) ∧
    (b = false → e.typeReliability < 255 → s.typeReliability < 255) := by
  induction reg generalizing e with
  | nil =>
    simp only [sweep, Option.some.injEq, Prod.mk.injEq] at h
    obtain ⟨h1, h2⟩ := h
    subst h1
    exact ⟨fun _ _ => rfl, fun _ hlt => hlt⟩
  | cons a reg ih =>
    simp only [sweep] at h
    cases hb : sweepBody fm a e with
    | none => rw [hb] at h; cases h
    | some p =>
      obtain ⟨e1, b1⟩ := p
      rw [hb] at h
      have hf := sweepBody_frame fm a e e1 b1 hb
      cases b1 with
      | true =>
        simp only [Option.some.injEq, Prod.mk.injEq] at h
        obtain ⟨h1, h2⟩ := h
        subst h1; subst h2
        exact ⟨hf.1, fun hb => by cases hb⟩
      | false =>
        simp only [] at h
        have hi := ih e1 h
        exact ⟨fun u r => by rw [hi.1, hf.1], fun hb hlt => hi.2 hb (hf.2 rfl hlt)⟩

/-- The matcher gives the same result on two entries that differ in type and confidence. -/
theorem isThisType_frame (fm : FormatMatcher) (t : EntryType) (e s : ArchiveEntry)
    (h : ∀ u r, s.setType u r = e.setType u r) :
    isThisType fm t (some s) = isThisType fm t (some e) := by
  rw [← isThisType_setType fm t etype_unknown s 0, h, isThisType_setType]

/-- The loop from an entry typed with full confidence, over a registry whose definitions
match the entry definitely or not at all, ends on the most reliable match. -/
theorem sweep_definite (fm : FormatMatcher) (e : ArchiveEntry) (reg : List EntryType)
    (hdef : ∀ t ∈ reg, isThisType fm t (some e) = some MATCH_FALSE ∨
      isThisType fm t (some e) = some MATCH_TRUE) (T : EntryType) :
    ∃ T1 b, sweep fm reg (e.setType T 255) = some (e.setType T1 255, b) ∧
      (b = true → T1.reliability_.val = 255) ∧
      ((T1 = T ∧ ∀ t ∈ reg, isThisType fm t (some e) = some MATCH_TRUE →
          t.reliability_.val ≤ T.reliability_.val) ∨
       (T1 ∈ reg ∧ isThisType fm T1 (some e) = some MATCH_TRUE ∧
          T.reliability_.val < T1.reliability_.val ∧
          ∀ t ∈ reg, isThisType fm t (some e) = some MATCH_TRUE →
            t.reliability_.val ≤ T1.reliability_.val)) := by
  induction reg generalizing T with
  | nil =>
    exact ⟨T, false, rfl, (fun h => by cases h), Or.inl ⟨rfl, fun t ht => by cases ht⟩⟩
  | cons a reg ih =>
    have hdef1 : ∀ t ∈ reg, isThisType fm t (some e) = some MATCH_FALSE ∨
        isThisType fm t (some e) = some MATCH_TRUE := fun t ht => hdef t (List.mem_cons_of_mem a ht)
    have hrelT := typeReliability_setType_full e T
    -- the continuation from the same type `T`, when `a` does not retype the entry
    have keep : (isThisType fm a (some e) = some MATCH_TRUE →
          a.reliability_.val ≤ T.reliability_.val) →
        sweepBody fm a (e.setType T 255) = some (e.setType T 255, false) →
        ∃ T1 b, sweep fm (a :: reg) (e.setType T 255) = some (e.setType T1 255, b) ∧
          (b = true → T1.reliability_.val = 255) ∧
          ((T1 = T ∧ ∀ t ∈ a :: reg, isThisType fm t (some e) = some MATCH_TRUE →
              t.reliability_.val ≤ T.reliability_.val) ∨
           (T1 ∈ a :: reg ∧ isThisType fm T1 (some e) = some MATCH_TRUE ∧
              T.reliability_.val < T1.reliability_.val ∧
              ∀ t ∈ a :: reg, isThisType fm t (some e) = some MATCH_TRUE →
                t.reliability_.val ≤ T1.reliability_.val)) := by
      intro ha hb
      obtain ⟨T1, b, hs, hfull, hw⟩ := ih hdef1 T
      refine ⟨T1, b, by simp [sweep, hb, hs], hfull, ?_⟩
      rcases hw with ⟨h1, h2⟩ | ⟨h1, h2, h3, h4⟩
      · left
        refine ⟨h1, ?_⟩
        intro t ht hm
        rcases List.mem_cons.mp ht with rfl | ht
        · exact ha hm
        · exact h2 t ht hm
      · right
        refine ⟨List.mem_cons_of_mem a h1, h2, h3, ?_⟩
        intro t ht hm
        rcases List.mem_cons.mp ht with rfl | ht
        · have := ha hm
          omega
        · exact h4 t ht hm
    by_cases hle : a.reliability_.val ≤ T.reliability_.val
    · exact keep (fun _ => hle) (sweepBody_skip fm a _ (by rw [hrelT]; exact hle))
    · have hlt : (e.setType T 255).typeReliability < a.reliability_.val := by
        rw [hrelT]; omega
      rcases hdef a (List.mem_cons_self a reg) with hno | hyes
      · refine keep (fun hm => ?_) (sweepBody_nomatch fm a _ (by rw [isThisType_setType]; exact hno))
        rw [hno] at hm
        cases hm
      · have hb := sweepBody_match fm a (e.setType T 255) 255 hlt
          (by rw [isThisType_setType]; exact hyes) (by decide)
        have hset : (e.setType T 255).setType a 255 = e.setType a 255 := rfl
        rw [hset, typeReliability_setType_full] at hb
        have hbound : ∀ t : EntryType, t.reliability_.val ≤ 255 := fun t => by
          have := t.reliability_.isLt
          omega
        by_cases hfull : 255 ≤ a.reliability_.val
        · have ha255 : a.reliability_.val = 255 := le_antisymm (hbound a) hfull
          refine ⟨a, true, by simp [sweep, hb, hfull], fun _ => ha255, Or.inr ⟨List.mem_cons_self a reg, hyes, by omega, ?_⟩⟩
          intro t _ _
          rw [ha255]
          exact hbound t
        · obtain ⟨T1, b, hs, hfl, hw⟩ := ih hdef1 a
          refine ⟨T1, b, by simp [sweep, hb, hfull, hs], hfl, Or.inr ?_⟩
          rcases hw with ⟨h1, h2⟩ | ⟨h1, h2, h3, h4⟩
          · subst h1
            refine ⟨List.mem_cons_self _ reg, hyes, by omega, ?_⟩
            intro t ht hm
            rcases List.mem_cons.mp ht with rfl | ht
            · exact le_refl _
            · exact h2 t ht hm
          · refine ⟨List.mem_cons_of_mem a h1, h2, by omega, ?_⟩
            intro t ht hm
            rcases List.mem_cons.mp ht with rfl | ht
            · omega
            · exact h4 t ht hm

theorem isThisType_not_detectable (fm : FormatMatcher) (t : EntryType) (e : ArchiveEntry)
    (h : t.detectable_ = false) : isThisType fm t (some e) = some MATCH_FALSE := by
  simp [isThisType, h]

/-- On a non-empty entry that is no folder and no map marker, over a registry whose
definitions match the entry definitely or not at all, `detectEntryType` types the entry
with the winner of the registry and returns whether that is a definition. -/
theorem detect_definite (fm : FormatMatcher) (reg : List EntryType) (e : ArchiveEntry)
    (hsize : e.size ≠ 0) (hfolder : e.type_ ≠ etype_folder) (hmap : e.type_ ≠ etype_map)
    (hdef : ∀ t ∈ reg, isThisType fm t (some e) = some MATCH_FALSE ∨
      isThisType fm t (some e) = some MATCH_TRUE) :
    ∃ T, detectEntryType fm reg (some e)
        = some (some (e.setType T 255), decide (T ≠ etype_unknown)) ∧ Winner fm e reg T := by
  obtain ⟨T, b, hs, hfull, hw⟩ := sweep_definite fm e reg hdef etype_unknown
  have h0 : etype_unknown.reliability_.val = 0 := by decide
  refine ⟨T, ?_, ?_⟩
  · have hty : (e.setType T 255).type_ = T := rfl
    cases b with
    | true =>
      have hne : T ≠ etype_unknown := by
        intro heq
        have := hfull rfl
        rw [heq, h0] at this
        cases this
      simp [detectEntryType, hsize, hfolder, hmap, hs, hne]
    | false =>
      by_cases hne : T = etype_unknown
      · subst hne
        simp [detectEntryType, hsize, hfolder, hmap, hs, hty]
      · simp [detectEntryType, hsize, hfolder, hmap, hs, hty, hne]
  · rcases hw with ⟨h1, h2⟩ | ⟨h1, h2, h3, h4⟩
    · left
      refine ⟨h1, ?_⟩
      intro u hu hm
      have := h2 u hu hm
      omega
    · right
      exact ⟨h1, h2, by omega, h4⟩

/-- The winner does not depend on the order of the registry when the definitions that match
the entry have pairwise distinct reliabilities. -/
theorem winner_unique (fm : FormatMatcher) (e : ArchiveEntry) (reg1 reg2 : List EntryType)
    (hperm : reg1.Perm reg2) (hdistinct : DistinctMatches fm e reg1)
    (T1 T2 : EntryType) (h1 : Winner fm e reg1 T1) (h2 : Winner fm e reg2 T2) : T1 = T2 := by
  rcases h1 with ⟨a1, a2⟩ | ⟨a1, a2, a3, a4⟩ <;> rcases h2 with ⟨b1, b2⟩ | ⟨b1, b2, b3, b4⟩
  · rw [a1, b1]
  · have := a2 T2 (hperm.mem_iff.mpr b1) b2
    omega
  · have := b2 T1 (hperm.mem_iff.mp a1) a2
    omega
  · have hle1 := a4 T2 (hperm.mem_iff.mpr b1) b2
    have hle2 := b4 T1 (hperm.mem_iff.mp a1) a2
    have heq : T1.reliability_ = T2.reliability_ := Fin.ext (le_antisymm hle2 hle1)
    have hm1 : isThisType fm T1 (some e) ≠ some MATCH_FALSE := by rw [a2]; decide
    have hm2 : isThisType fm T2 (some e) ≠ some MATCH_FALSE := by rw [b2]; decide
    exact hdistinct T1 a1 T2 (hperm.mem_iff.mpr b1) hm1 hm2 heq

/-- C1, as the code has it: for an entry of non-zero size that is no folder and no map
marker, and two registries with the same definitions in a different order, the definitions
that match the entry having pairwise distinct reliabilities and every definition matching
the entry definitely or not at all, `detectEntryType` is defined on both registries and
leaves the same entry and flag. The definitions that do not match the entry, such as the
special types every registry of the program starts with, may share a reliability. -/
theorem detect_order_independent (fm : FormatMatcher) (reg1 reg2 : List EntryType)
    (e : ArchiveEntry)
    (hsize : e.size ≠ 0) (hfolder : e.type_ ≠ etype_folder) (hmap : e.type_ ≠ etype_map)
    (hperm : reg1.Perm reg2) (hdistinct : DistinctMatches fm e reg1)
    (hdef : ∀ t ∈ reg1, isThisType fm t (some e) = some MATCH_FALSE ∨
      isThisType fm t (some e) = some MATCH_TRUE) :
    ∃ T, detectEntryType fm reg1 (some e)
          = some (some (e.setType T 255), decide (T ≠ etype_unknown)) ∧
      detectEntryType fm reg2 (some e)
          = some (some (e.setType T 255), decide (T ≠ etype_unknown)) := by
  have hdef2 : ∀ t ∈ reg2, isThisType fm t (some e) = some MATCH_FALSE ∨
      isThisType fm t (some e) = some MATCH_TRUE := fun t ht => hdef t (hperm.mem_iff.mpr ht)
  obtain ⟨T1, hd1, hw1⟩ := detect_definite fm reg1 e hsize hfolder hmap hdef
  obtain ⟨T2, hd2, hw2⟩ := detect_definite fm reg2 e hsize hfolder hmap hdef2
  have heq := winner_unique fm e reg1 reg2 hperm hdistinct T1 T2 hw1 hw2
  subst heq
  exact ⟨T1, hd1, hd2⟩

/-- Witness of C1 as amended: the four special types the program registers first, three of
them with the reliability 255, and two definitions of reliability 100 and 250 that match
every entry, registered in both orders; the entry ends typed with the definition of
reliability 250. -/
theorem detect_order_independent_witness :
    (∃ T, detectEntryType noFormats
            (seedRegistry.entry_types ++ [anyType (str "b") 100, anyType (str "c") 250])
            (some smallEntry)
          = some (some (smallEntry.setType T 255), decide (T ≠ etype_unknown)) ∧
      detectEntryType noFormats
            (seedRegistry.entry_types ++ [anyType (str "c") 250, anyType (str "b") 100])
            (some smallEntry)
          = some (some (smallEntry.setType T 255), decide (T ≠ etype_unknown))) ∧
    detectEntryType noFormats
        (seedRegistry.entry_types ++ [anyType (str "b") 100, anyType (str "c") 250])
        (some smallEntry)
      = some (some (smallEntry.setType (anyType (str "c") 250) 255), true) ∧
    etype_folder.reliability_ = etype_marker.reliability_ :=
  ⟨detect_order_independent noFormats
    (seedRegistry.entry_types ++ [anyType (str "b") 100, anyType (str "c") 250])
    (seedRegistry.entry_types ++ [anyType (str "c") 250, anyType (str "b") 100]) smallEntry
    (by decide) (by decide) (by decide) (by decide) (by decide) (by decide),
   by decide, by decide⟩

/-- C1 fails as stated: the definition `graphic` (reliability 200) matches the three-byte
entry with confidence 128, the definition `lump` (reliability 150) matches it definitely, and
no other definition of the registry matches it; the two registries hold the four special
types and these two definitions, the matching definitions with distinct reliabilities; with
`graphic` registered before `lump` the entry ends typed `lump`, with `lump` registered before
`graphic` it ends typed `graphic`. -/
theorem detect_order_independent_counterexample :
    smallEntry.size ≠ 0 ∧ smallEntry.type_ ≠ etype_folder ∧ smallEntry.type_ ≠ etype_map ∧
    List.Perm (seedRegistry.entry_types ++ [maybe200, anyType (str "lump") 150])
      (seedRegistry.entry_types ++ [anyType (str "lump") 150, maybe200]) ∧
    DistinctMatches maybeFormats smallEntry
      (seedRegistry.entry_types ++ [maybe200, anyType (str "lump") 150]) ∧
    isThisType maybeFormats maybe200 (some smallEntry) = some 128 ∧
    isThisType maybeFormats (anyType (str "lump") 150) (some smallEntry) = some MATCH_TRUE ∧
    detectEntryType maybeFormats
        (seedRegistry.entry_types ++ [maybe200, anyType (str "lump") 150]) (some smallEntry)
      = some (some (smallEntry.setType (anyType (str "lump") 150) 255), true) ∧
    detectEntryType maybeFormats
        (seedRegistry.entry_types ++ [anyType (str "lump") 150, maybe200]) (some smallEntry)
      = some (some (smallEntry.setType maybe200 128), true) ∧
    anyType (str "lump") 150 ≠ maybe200 := by
  refine ⟨?_, ?_, ?_, ?_, ?_, ?_, ?_, ?_, ?_, ?_⟩ <;> decide

/-- C3, as the code has it: for a non-empty entry that is no folder and no map marker, when
the sweep over the definitions registered before `A` hands the entry on without returning,
and `A` has reliability 255 and matches the entry definitely, `detectEntryType` returns
true with the entry typed `A`, whatever definitions follow `A` in the registry. -/
theorem sweep_stops_at_full (fm : FormatMatcher) (pre post : List EntryType) (A : EntryType)
    (e s : ArchiveEntry)
    (hsize : e.size ≠ 0) (hfolder : e.type_ ≠ etype_folder) (hmap : e.type_ ≠ etype_map)
    (hrel : A.reliability_ = 255) (hmatch : isThisType fm A (some e) = some MATCH_TRUE)
    (hreach : sweep fm pre (e.setType etype_unknown 255) = some (s, false)) :
    detectEntryType fm (pre ++ A :: post) (some e) = some (some (e.setType A 255), true) := by
  obtain ⟨hframe, hlow⟩ := sweep_frame fm pre _ s false hreach
  have hs255 : s.typeReliability < 255 :=
    hlow rfl (by rw [typeReliability_setType_full]; decide)
  have hA : A.reliability_.val = 255 := by rw [hrel]; rfl
  have hm : isThisType fm A (some s) = some 255 := by
    rw [isThisType_frame fm A (e.setType etype_unknown 255) s hframe, isThisType_setType]
    exact hmatch
  have hb := sweepBody_match fm A s 255 (by omega) hm (by decide)
  have hset : s.setType A 255 = e.setType A 255 := by
    rw [hframe]; rfl
  rw [hset, typeReliability_setType_full, hA] at hb
  have hsw : sweep fm (pre ++ A :: post) (e.setType etype_unknown 255)
      = some (e.setType A 255, true) := by
    rw [sweep_append fm pre (A :: post) _ s hreach]
    simp [sweep, hb]
  simp [detectEntryType, hsize, hfolder, hmap, hsw]

/-- Witness of C3 as amended: a definition of reliability 255 after one of reliability 200,
followed by one of reliability 100; all three match the entry. -/
theorem sweep_stops_at_full_witness :
    detectEntryType noFormats
        ([etype_unknown, anyType (str "c") 200] ++ anyType (str "a") 255 :: [anyType (str "b") 100])
        (some smallEntry)
      = some (some (smallEntry.setType (anyType (str "a") 255) 255), true) :=
  sweep_stops_at_full noFormats [etype_unknown, anyType (str "c") 200] [anyType (str "b") 100]
    (anyType (str "a") 255) smallEntry (smallEntry.setType (anyType (str "c") 200) 255)
    (by decide) (by decide) (by decide) (by decide) (by decide) (by decide)

/-- C3 fails as stated: the registry holds `a` of reliability 255 and, after it, `b` of
reliability 100, both matching the entry, and before `a` the definition `c`, also of
reliability 255 and matching; the sweep stops at `c`, and the entry is typed `c`, not `a`. -/
theorem sweep_stops_at_full_counterexample :
    (anyType (str "a") 255).reliability_ = 255 ∧
    isThisType noFormats (anyType (str "a") 255) (some smallEntry) = some MATCH_TRUE ∧
    (anyType (str "b") 100).reliability_ = 100 ∧
    isThisType noFormats (anyType (str "b") 100) (some smallEntry) = some MATCH_TRUE ∧
    detectEntryType noFormats
        [anyType (str "c") 255, anyType (str "a") 255, anyType (str "b") 100] (some smallEntry)
      = some (some (smallEntry.setType (anyType (str "c") 255) 255), true) ∧
    anyType (str "c") 255 ≠ anyType (str "a") 255 := by
  refine ⟨?_, ?_, ?_, ?_, ?_, ?_⟩ <;> decide

/-- The sample palette definition accepts exactly the entries of 768 bytes. -/
theorem palette_accepts (fm : FormatMatcher) : Accepts768 fm palette := by
  intro e
  have hfc : formatCheck fm palette e = some MATCH_TRUE := by
    simp [formatCheck, palette, EntryType.new, EntryDataFormat.textFormat,
      EntryDataFormat.anyFormat, str]
  constructor
  · intro h
    refine ⟨MATCH_TRUE, by decide, ?_⟩
    simp only [isThisType, hfc]
    simp [palette, EntryType.new, sizeMatch, toU32, h, nameExtCheck, sectionCheck]
  · intro h
    simp only [isThisType, hfc]
    simp [palette, EntryType.new, sizeMatch, toU32, h, nameExtCheck, sectionCheck]

/-- C5, as the code has it: over the registry of the four special types and a definition
`pal` of reliability 200 that accepts exactly the entries of 768 bytes, `detectEntryType`
types an entry of 768 bytes that is no folder and no map marker as `pal` and returns true,
and leaves a non-empty entry of another size that is no folder and no map marker typed
`unknown` and returns false. -/
theorem detect_palette_scenario (fm : FormatMatcher) (pal : EntryType) (e : ArchiveEntry)
    (hrel : pal.reliability_ = 200) (hacc : Accepts768 fm pal)
    (hfolder : e.type_ ≠ etype_folder) (hmap : e.type_ ≠ etype_map) :
    (e.size = 768 → ∃ r, 0 < r ∧
      detectEntryType fm (paletteRegistry pal) (some e) = some (some (e.setType pal r), true)) ∧
    (e.size ≠ 0 → e.size ≠ 768 →
      detectEntryType fm (paletteRegistry pal) (some e)
        = some (some (e.setType etype_unknown 255), false)) := by
  have hpal : pal.reliability_.val = 200 := by rw [hrel]; rfl
  have s0 : (e.setType etype_unknown 255).typeReliability = 0 := by
    rw [typeReliability_setType_full]; decide
  have b0 : sweepBody fm etype_unknown (e.setType etype_unknown 255)
      = some (e.setType etype_unknown 255, false) :=
    sweepBody_skip fm _ _ (by rw [s0]; decide)
  have b1 : sweepBody fm etype_folder (e.setType etype_unknown 255)
      = some (e.setType etype_unknown 255, false) :=
    sweepBody_nomatch fm _ _ (isThisType_not_detectable fm _ _ (by decide))
  have b2 : sweepBody fm etype_marker (e.setType etype_unknown 255)
      = some (e.setType etype_unknown 255, false) :=
    sweepBody_nomatch fm _ _ (isThisType_not_detectable fm _ _ (by decide))
  have b3 : sweepBody fm etype_map (e.setType etype_unknown 255)
      = some (e.setType etype_unknown 255, false) :=
    sweepBody_nomatch fm _ _ (isThisType_not_detectable fm _ _ (by decide))
  constructor
  · intro h768
    obtain ⟨r, hr, hm⟩ := (hacc e).1 h768
    have hdet : pal ≠ etype_unknown := by
      intro heq
      rw [heq, isThisType_not_detectable fm etype_unknown e (by decide)] at hm
      cases hm
      exact absurd hr (by decide)
    have b4 := sweepBody_match fm pal (e.setType etype_unknown 255) r (by rw [s0, hpal]; decide)
      (by rw [isThisType_setType]; exact hm) hr
    have hset : (e.setType etype_unknown 255).setType pal r = e.setType pal r := rfl
    rw [hset] at b4
    have hsz : e.size ≠ 0 := by omega
    have hty : (e.setType pal r).type_ = pal := rfl
    refine ⟨r, hr, ?_⟩
    by_cases hfull : 255 ≤ (e.setType pal r).typeReliability
    · simp [detectEntryType, paletteRegistry, hsz, hfolder, hmap, sweep, b0, b1, b2, b3, b4, hfull]
    · simp [detectEntryType, paletteRegistry, hsz, hfolder, hmap, sweep, b0, b1, b2, b3, b4, hfull,
        hty, hdet]
  · intro hsz hne
    have hm := (hacc e).2 hne
    have b4 : sweepBody fm pal (e.setType etype_unknown 255)
        = some (e.setType etype_unknown 255, false) :=
      sweepBody_nomatch fm _ _ (by rw [isThisType_setType]; exact hm)
    have hty : (e.setType etype_unknown 255).type_ = etype_unknown := rfl
    simp [detectEntryType, paletteRegistry, hsz, hfolder, hmap, sweep, b0, b1, b2, b3, b4, hty]

/-- Witness of C5 as amended: the sample palette definition on an entry of 768 bytes and on
one of ten bytes. -/
theorem detect_palette_scenario_witness :
    (∃ r, 0 < r ∧ detectEntryType noFormats (paletteRegistry palette) (some paletteEntry)
        = some (some (paletteEntry.setType palette r), true)) ∧
    detectEntryType noFormats (paletteRegistry palette) (some tenBytes)
        = some (some (tenBytes.setType etype_unknown 255), false) :=
  ⟨(detect_palette_scenario noFormats palette paletteEntry (by decide)
      (palette_accepts noFormats) (by decide) (by decide)).1
      (by simp only [ArchiveEntry.size, paletteEntry, mkEntry, List.length_replicate]),
   (detect_palette_scenario noFormats palette tenBytes (by decide)
      (palette_accepts noFormats) (by decide) (by decide)).2
      (by simp only [ArchiveEntry.size, tenBytes, mkEntry, List.length_replicate]; decide)
      (by simp only [ArchiveEntry.size, tenBytes, mkEntry, List.length_replicate]; decide)⟩

/-- C5 fails as stated: an entry of 768 bytes that is typed as a map marker is left as it
is, and `detectEntryType` returns false, over the registry of the four special types and
the palette definition of reliability 200 that accepts exactly the entries of 768 bytes. -/
theorem detect_palette_scenario_counterexample :
    palette.reliability_ = 200 ∧ Accepts768 noFormats palette ∧
    mapMarkerEntry.size = 768 ∧
    detectEntryType noFormats (paletteRegistry palette) (some mapMarkerEntry)
      = some (some mapMarkerEntry, false) ∧
    mapMarkerEntry.type_ ≠ palette := by
  refine ⟨by decide, palette_accepts noFormats, ?_, ?_, by decide⟩
  · simp only [ArchiveEntry.size, mapMarkerEntry, mkEntry, List.length_replicate]
  · have ht : mapMarkerEntry.type_ = etype_folder ∨ mapMarkerEntry.type_ = etype_map :=
      Or.inr rfl
    simp only [detectEntryType, ht, if_true]

/-! ## Properties of the matcher -/

theorem formatCheck_ne_false (fm : FormatMatcher) (t : EntryType) (e : ArchiveEntry) (r : Nat)
    (h : formatCheck fm t e = some r) : r ≠ MATCH_FALSE := by
  unfold formatCheck at h
  simp only [] at h
  split_ifs at h <;> cases h <;> first | decide | assumption

theorem sectionCheck_nil (t : EntryType) (e : ArchiveEntry) (r : Nat) (h : t.section_ = []) :
    sectionCheck t e r = r := by
  simp [sectionCheck, h]

/-- The matcher runs the checks of the definition without its section list and then the
section stage. -/
theorem isThisType_section_split (fm : FormatMatcher) (t : EntryType) (e : ArchiveEntry) :
    isThisType fm t (some e) =
      match isThisType fm { t with section_ := [] } (some e) with
      | none => none
      | some r => if r = MATCH_FALSE then some MATCH_FALSE else some (sectionCheck t e r) := by
  have hf : formatCheck fm { t with section_ := [] } e = formatCheck fm t e := rfl
  have hn : nameExtCheck { t with section_ := [] } e.upperName = nameExtCheck t e.upperName := rfl
  have ha : archiveMatch { t with section_ := [] } e = archiveMatch t e := rfl
  have hs : sizeMatch { t with section_ := [] } e = sizeMatch t e := rfl
  have hfc := formatCheck_ne_false fm t e
  simp only [isThisType, hf, hn, ha, hs]
  generalize formatCheck fm t e = F at hfc ⊢
  generalize (if t.size_multiple_ ≠ [] then sizeMultipleMatch e.size t.size_multiple_
               else some true) = M
  generalize nameExtCheck t e.upperName = NE
  by_cases h1 : t.detectable_ = false
  · simp [h1]
  by_cases h2 : 0 ≤ t.size_limit_.1 ∧ e.size < toU32 t.size_limit_.1
  · simp [h1, h2]
  by_cases h3 : 0 ≤ t.size_limit_.2 ∧ e.size > toU32 t.size_limit_.2
  · simp [h1, h2, h3]
  by_cases h4 : t.match_archive_ ≠ [] ∧ archiveMatch t e = false
  · simp [h1, h2, h3, h4]
  by_cases h5 : t.match_size_ ≠ [] ∧ sizeMatch t e = false
  · simp [h1, h2, h3, h4, h5]
  simp only [h1, h2, h3, h4, h5, if_false]
  cases F with
  | none => simp
  | some r =>
    have hr := hfc r rfl
    cases M with
    | none => simp
    | some b =>
      cases b <;> cases NE <;> simp [sectionCheck, hr]

theorem split_base (fn : Str) :
    (match find_first_of fn '.' with
      | some i => Left fn i
      | none => fn) = baseName fn := by
  induction fn with
  | nil => simp [find_first_of, baseName]
  | cons c cs ih =>
    by_cases hc : c = '.'
    · subst hc
      simp [find_first_of, baseName, Left, List.indexOf_cons]
    · have hne : (c != '.') = true := by simpa using hc
      have hne2 : (c == '.') = false := by simpa using hc
      simp only [find_first_of, Left, baseName, List.indexOf_cons, hne2, List.length_cons,
        List.takeWhile_cons, hne, if_true, cond_false, Nat.add_lt_add_iff_right] at ih ⊢
      by_cases hlt : List.indexOf '.' cs < cs.length
      · simp only [hlt, if_true] at ih ⊢
        simp [List.take_succ_cons, ih]
      · simp only [hlt, if_false] at ih ⊢
        rw [← ih]

theorem split_ext (fn : Str) :
    (match find_first_of fn '.' with
      | some i => some (Mid fn (i + 1))
      | none => none) = extension fn := by
  induction fn with
  | nil => simp [find_first_of, extension]
  | cons c cs ih =>
    by_cases hc : c = '.'
    · subst hc
      simp [find_first_of, extension, Mid, List.indexOf_cons]
    · have hne : (c != '.') = true := by simpa using hc
      have hne2 : (c == '.') = false := by simpa using hc
      simp only [find_first_of, Mid, extension, List.indexOf_cons, hne2, List.length_cons,
        List.dropWhile_cons, hne, if_true, cond_false, Nat.add_lt_add_iff_right] at ih ⊢
      by_cases hlt : List.indexOf '.' cs < cs.length
      · simp only [hlt, if_true] at ih ⊢
        simpa using ih
      · simp only [hlt, if_false] at ih ⊢
        exact ih

theorem nameLoop_iff (t : EntryType) (fn : Str) :
    nameLoop t fn (find_first_of fn '.') = true ↔ nameGlobOk t fn := by
  unfold nameLoop
  simp only []
  rw [split_base]
  simp [nameGlobOk, List.any_eq_true]

theorem extLoop_iff (t : EntryType) (fn : Str) :
    extLoop t fn (find_first_of fn '.') = true ↔ extListedOk t fn := by
  have h := split_ext fn
  unfold extListedOk extLoop
  rw [← h]
  cases find_first_of fn '.' with
  | none => simp
  | some i => simp only [List.any_eq_true, beq_iff_eq, Option.some.injEq]

theorem nameExtCheck_iff (t : EntryType) (fn : Str) :
    nameExtCheck t fn = true ↔ nameExtSpec t fn := by
  have hN := nameLoop_iff t fn
  have hE := extLoop_iff t fn
  unfold nameExtSpec
  rw [← hN, ← hE]
  simp only [nameExtCheck]
  generalize nameLoop t fn (find_first_of fn '.') = N
  generalize extLoop t fn (find_first_of fn '.') = E
  by_cases hn : t.match_name_ = [] <;> by_cases he : t.match_extension_ = [] <;>
    cases hf : t.match_ext_or_name_ <;> cases N <;> cases E <;> simp [hn, he, hf]


/-- C6: the name and extension stage of `isThisType` passes exactly when the criterion of
the specification holds (either set suffices when `match_ext_or_name` is set and both sets
are non-empty, otherwise every non-empty set must be matched); with the name mask `MAP*`,
the extension `WAD` and `match_ext_or_name` set, `MAPINFO.TXT` and `LEVEL1.WAD` match and
`LEVEL1.TXT` does not. -/
theorem nameExt_stage_spec :
    (∀ (t : EntryType) (fn : Str), nameExtCheck t fn = true ↔ nameExtSpec t fn) ∧
    isThisType noFormats mapOrWad (some (mkEntry (str "MAPINFO.TXT") [1])) = some MATCH_TRUE ∧
    isThisType noFormats mapOrWad (some (mkEntry (str "LEVEL1.WAD") [1])) = some MATCH_TRUE ∧
    isThisType noFormats mapOrWad (some (mkEntry (str "LEVEL1.TXT") [1])) = some MATCH_FALSE :=
  ⟨nameExtCheck_iff, by decide, by decide, by decide⟩

/-- C9: a definition with a non-empty section list returns only definite-match or
definite-non-match; it returns definite-match exactly when the earlier checks pass (the
definition without its section list matches, with whatever confidence), the entry has a
containing archive and the namespace detected for the entry equals a listed section ignoring
case; and its evaluation is defined whenever that of the earlier checks is. -/
theorem section_stage_definite (fm : FormatMatcher) (t : EntryType) (e : ArchiveEntry)
    (hsec : t.section_ ≠ []) :
    (∀ r, isThisType fm t (some e) = some r → r = MATCH_TRUE ∨ r = MATCH_FALSE) ∧
    (isThisType fm t (some e) = some MATCH_TRUE ↔
      (∃ r, r ≠ MATCH_FALSE ∧ isThisType fm { t with section_ := [] } (some e) = some r) ∧
      e.parent ≠ none ∧ ∃ ns ∈ t.section_, S_CMPNOCASE ns e.detectNamespace = true) ∧
    (isThisType fm t (some e) = none ↔
      isThisType fm { t with section_ := [] } (some e) = none) := by
  rw [isThisType_section_split]
  cases hb : isThisType fm { t with section_ := [] } (some e) with
  | none => simp
  | some r0 =>
    by_cases hr0 : r0 = MATCH_FALSE
    · subst hr0
      simp [MATCH_FALSE, MATCH_TRUE]
    · cases hp : e.parent with
      | none => simp [hr0, sectionCheck, hsec, hp, MATCH_FALSE, MATCH_TRUE]
      | some p =>
        by_cases hany : (t.section_.any fun ns => S_CMPNOCASE ns e.detectNamespace) = true
        · have hex : ∃ ns ∈ t.section_, S_CMPNOCASE ns e.detectNamespace = true := by
            simpa [List.any_eq_true] using hany
          simp [hr0, sectionCheck, hsec, hp, hany, hex]
        · have hex : ¬ ∃ ns ∈ t.section_, S_CMPNOCASE ns e.detectNamespace = true := by
            simpa [List.any_eq_true] using hany
          simp only [Bool.not_eq_true] at hany
          simp [hr0, sectionCheck, hsec, hp, hany, hex, MATCH_FALSE, MATCH_TRUE]

/-- Witness of C9: the format `maybe` matches the entry with confidence 128, and the
definition that lists the section `flats` returns definite-match for the entry of the
namespace `FLATS`. -/
theorem section_stage_definite_witness :
    isThisType maybeFormats { flatType with section_ := [] } (some flatEntry) = some 128 ∧
    isThisType maybeFormats flatType (some flatEntry) = some MATCH_TRUE :=
  ⟨by decide,
   (section_stage_definite maybeFormats flatType flatEntry (by decide)).2.1.mpr
     ⟨⟨128, by decide, by decide⟩, by decide, str "flats", by decide, by decide⟩⟩

/-- C10: when the size list of a definition is non-empty and no listed size (read as
unsigned, as the size loop does) is the size of the entry, `isThisType` returns
definite-non-match for every size-multiple list, so the size-multiple loop, whose evaluation
is undefined on a divisor 0, is not evaluated. -/
theorem size_gate_before_multiples (fm : FormatMatcher) (t : EntryType) (e : ArchiveEntry)
    (hne : t.match_size_ ≠ []) (hnot : ∀ a ∈ t.match_size_, toU32 a ≠ e.size) :
    ∀ ms : List Int, isThisType fm { t with size_multiple_ := ms } (some e) = some MATCH_FALSE := by
  intro ms
  have hs : sizeMatch { t with size_multiple_ := ms } e = false := by
    simp only [sizeMatch, List.any_eq_false, beq_iff_eq]
    intro a ha heq
    exact hnot a ha heq.symm
  simp only [isThisType, hs]
  split_ifs <;> first | rfl | simp_all

/-- Witness of C10: the palette definition with the size-multiple list `[0]` on a 3-byte
entry. -/
theorem size_gate_before_multiples_witness :
    isThisType noFormats { palette with size_multiple_ := [0] } (some (mkEntry (str "PLAYPAL") [1, 2, 3]))
      = some MATCH_FALSE ∧
    sizeMultipleMatch 3 [0] = none :=
  ⟨size_gate_before_multiples noFormats palette (mkEntry (str "PLAYPAL") [1, 2, 3])
     (by decide) (by decide) [0], by decide⟩

/-- The text check of a pure text definition rejects the entry when `memchr` finds a NUL
byte in the window it scans. -/
theorem formatCheck_text (fm : FormatMatcher) (t : EntryType) (e : ArchiveEntry)
    (htext : t.format_ = EntryDataFormat.textFormat) :
    formatCheck fm t e =
      if e.size > 0 ∧ memchr e.data 0 (if 4 < e.size then e.size - 3 else e.size - 1) = true
      then none else some MATCH_TRUE := by
  unfold formatCheck
  simp only [htext, if_true]
  by_cases h0 : e.size = 0
  · simp [h0]
  · by_cases h4 : 4 < e.size
    · have h3 : e.size - 1 > 3 := by omega
      have heq : e.size - 1 - 2 = e.size - 3 := by omega
      simp only [h0, if_false, h3, if_true, h4, heq]
    · have h3 : ¬ (e.size - 1 > 3) := by omega
      simp only [h0, if_false, h3, h4]

/-- C7, as the code has it: for a pure text definition, an entry with a NUL byte at any
position before its final three bytes gets definite-non-match from `isThisType`. -/
theorem text_nul_rejected (fm : FormatMatcher) (t : EntryType) (e : ArchiveEntry) (i : Nat)
    (htext : t.format_ = EntryDataFormat.textFormat)
    (hpos : i + 3 < e.size) (hnul : e.data[i]? = some 0) :
    isThisType fm t (some e) = some MATCH_FALSE := by
  have hmem : memchr e.data 0 (if 4 < e.size then e.size - 3 else e.size - 1) = true := by
    simp only [memchr, decide_eq_true_eq]
    apply List.getElem?_mem (n := i)
    rw [List.getElem?_take_of_lt]
    · exact hnul
    · split_ifs <;> omega
  have hfc : formatCheck fm t e = none := by
    rw [formatCheck_text fm t e htext]
    have : e.size > 0 := by omega
    simp [this, hmem]
  simp only [isThisType, hfc]
  split_ifs <;> rfl

/-- Witness of C7 as amended: a NUL byte in the second of six bytes. -/
theorem text_nul_rejected_witness :
    isThisType noFormats textType (some nulEarly) = some MATCH_FALSE :=
  text_nul_rejected noFormats textType nulEarly 1 (by decide) (by decide) (by decide)

/-- C7 fails as stated: the six-byte entry `A B C NUL D E` has a NUL byte at position 3,
before its final two bytes, and the detectable pure text definition matches it: the scan
stops three bytes before the end. -/
theorem text_nul_rejected_counterexample :
    textType.detectable_ = true ∧ textType.format_ = EntryDataFormat.textFormat ∧
    nulThirdFromEnd.size = 6 ∧ 3 + 2 < nulThirdFromEnd.size ∧
    nulThirdFromEnd.data[3]? = some 0 ∧
    isThisType noFormats textType (some nulThirdFromEnd) = some MATCH_TRUE := by
  refine ⟨?_, ?_, ?_, ?_, ?_, ?_⟩ <;> decide

/-- C8, as the code has it: for a pure text definition with no other criterion and an entry
of more than four bytes whose NUL bytes all lie in its final two bytes, `isThisType` returns
definite-match. -/
theorem text_padding_tolerated (fm : FormatMatcher) (t : EntryType) (e : ArchiveEntry)
    (htext : t.format_ = EntryDataFormat.textFormat) (hcrit : NoOtherCriterion t)
    (hlen : 4 < e.size) (hnul : ∀ i, e.data[i]? = some 0 → e.size ≤ i + 2) :
    isThisType fm t (some e) = some MATCH_TRUE := by
  obtain ⟨hd, hlo, hhi, harch, hsz, hmul, hname, hext, hsec⟩ := hcrit
  have hmem : memchr e.data 0 (if 4 < e.size then e.size - 3 else e.size - 1) = false := by
    simp only [memchr, hlen, if_true, decide_eq_false_iff_not]
    intro hin
    obtain ⟨n, hn⟩ := List.mem_iff_getElem?.mp hin
    have hlt : n < e.size - 3 := by
      by_contra hge
      rw [List.getElem?_take_eq_none (by omega)] at hn
      cases hn
    rw [List.getElem?_take_of_lt hlt] at hn
    have := hnul n hn
    omega
  have hfc : formatCheck fm t e = some MATCH_TRUE := by
    rw [formatCheck_text fm t e htext]
    simp [hmem]
  have hlo2 : ¬ (0 ≤ t.size_limit_.1) := by omega
  have hhi2 : ¬ (0 ≤ t.size_limit_.2) := by omega
  simp [isThisType, hfc, hd, hlo2, hhi2, harch, hsz, hmul, nameExtCheck, hname, hext,
    sectionCheck, hsec]

/-- Witness of C8 as amended: six bytes that end in the two-byte null padding. -/
theorem text_padding_tolerated_witness :
    isThisType noFormats textType (some paddedLong) = some MATCH_TRUE :=
  text_padding_tolerated noFormats textType paddedLong (by decide) (by decide) (by decide)
    (by
      intro i hi
      have hsz : paddedLong.size = 6 := by decide
      rw [hsz]
      by_contra hlt
      have hi2 : i < 4 := by omega
      interval_cases i <;> revert hi <;> decide)

/-- C8 fails as stated: the four-byte entry `A B NUL NUL` has NUL bytes only in its final
two bytes, and the pure text definition with no other criterion returns definite-non-match:
up to four bytes the scan leaves out the last byte only. -/
theorem text_padding_tolerated_counterexample :
    textType.format_ = EntryDataFormat.textFormat ∧ NoOtherCriterion textType ∧
    paddedShort.size = 4 ∧
    (∀ i, paddedShort.data[i]? = some 0 → paddedShort.size ≤ i + 2) ∧
    isThisType noFormats textType (some paddedShort) = some MATCH_FALSE := by
  refine ⟨by decide, by decide, by decide, ?_, by decide⟩
  intro i hi
  have hsz : paddedShort.size = 4 := by decide
  rw [hsz]
  by_contra hlt
  have hi2 : i < 2 := by omega
  interval_cases i <;> revert hi <;> decide

/-! ## Properties of the registry -/

theorem char_toLower_ne_U (c : Char) : Char.toLower c ≠ 'U' := by
  unfold Char.toLower
  simp only []
  split_ifs with h
  · obtain ⟨h1, h2⟩ := h
    generalize c.toNat = n at h1 h2
    interval_cases n <;> decide
  · intro hc
    subst hc
    exact h (by decide)

theorem lower_ne_Unknown (s : Str) : Lower s ≠ str "Unknown" := by
  intro h
  cases s with
  | nil => revert h; decide
  | cons c cs =>
    have h1 : Lower (c :: cs) = Char.toLower c :: Lower cs := rfl
    have h2 : str "Unknown" = 'U' :: str "nknown" := by decide
    rw [h1, h2] at h
    exact char_toLower_ne_U c (List.cons.inj h).1

theorem fromId_id (entry_types : List EntryType) (D : EntryType) (hD : D ∈ entry_types) :
    (fromId entry_types D.id_).id_ = D.id_ ∧ fromId entry_types D.id_ ∈ entry_types := by
  unfold fromId
  cases hf : entry_types.find? (fun type => type.id_ == D.id_) with
  | none =>
    have := List.find?_eq_none.mp hf D hD
    simp at this
  | some x =>
    have h1 := List.find?_some hf
    have h2 := List.mem_of_find?_eq_some hf
    exact ⟨by simpa using h1, h2⟩

theorem readField_id (formats : List Str) (st : EntryType × List Str) (f : FieldNode) :
    (readField formats st f).1.id_ = st.1.id_ := by
  unfold readField processField
  cases fieldKind f.name <;> first | rfl | (simp only []; split_ifs <;> rfl)

theorem foldl_readField_id (formats : List Str) (fs : List FieldNode)
    (st : EntryType × List Str) :
    (fs.foldl (readField formats) st).1.id_ = st.1.id_ := by
  induction fs generalizing st with
  | nil => rfl
  | cons f fs ih => rw [List.foldl_cons, ih, readField_id]

theorem newType_id (entry_types : List EntryType) (typenode : TypeNode) :
    (newType entry_types typenode).id_ = Lower typenode.name := by
  unfold newType
  split_ifs <;> rfl

/-- Reading one block appends one type, whose id is the lower-case block name. -/
theorem readType_appends (formats : List Str) (reg : Registry) (typenode : TypeNode) :
    ∃ D, (readType formats reg typenode).entry_types = reg.entry_types ++ [D] ∧
      D.id_ = Lower typenode.name := by
  refine ⟨_, rfl, ?_⟩
  rw [foldl_readField_id, newType_id]

/-- Reading a list of blocks appends one type per block, in block order. -/
theorem foldl_readType_appends (formats : List Str) (typenodes : List TypeNode) (reg : Registry) :
    ∃ new, (typenodes.foldl (readType formats) reg).entry_types = reg.entry_types ++ new ∧
      new.length = typenodes.length ∧
      new.map (fun D => D.id_) = typenodes.map (fun n => Lower n.name) := by
  induction typenodes generalizing reg with
  | nil => exact ⟨[], by simp, rfl, rfl⟩
  | cons n ns ih =>
    obtain ⟨D, hD, hid⟩ := readType_appends formats reg n
    obtain ⟨new, h1, h2, h3⟩ := ih (readType formats reg n)
    refine ⟨D :: new, ?_, ?_, ?_⟩
    · rw [List.foldl_cons, h1, hD]
      simp
    · simp [h2]
    · simp [h3, hid]

theorem cmp_upper (a b : Str) : S_CMPNOCASE a b = true ↔
    a.map Char.toUpper = b.map Char.toUpper := by
  simp [S_CMPNOCASE]

theorem fieldTable_keys :
    ∀ p ∈ fieldTable, ∀ q ∈ fieldTable,
      p.1.map Char.toUpper = q.1.map Char.toUpper → p = q := by
  decide

theorem fieldTable_kinds :
    ∀ p ∈ fieldTable, ∀ q ∈ fieldTable, p.2 = q.2 → p = q := by
  decide

/-- A field is processed by the branch `k` of the chain exactly when its name equals,
ignoring case, the name `c` the chain compares with for that branch. -/
theorem fieldKind_iff (n c : Str) (k : FieldKind) (hck : (c, k) ∈ fieldTable) :
    fieldKind n = k ↔ S_CMPNOCASE n c = true := by
  unfold fieldKind
  constructor
  · intro h
    cases hf : fieldTable.find? (fun p => S_CMPNOCASE n p.1) with
    | none =>
      rw [hf] at h
      simp only [] at h
      subst h
      revert hck
      have : ∀ c, (c, FieldKind.other) ∉ fieldTable := by
        intro c hc
        have hall : ∀ p ∈ fieldTable, p.2 ≠ FieldKind.other := by decide
        exact hall _ hc rfl
      exact fun hck => absurd hck (this c)
    | some p =>
      rw [hf] at h
      simp only [] at h
      have hp := List.find?_some hf
      have hm := List.mem_of_find?_eq_some hf
      have heq := fieldTable_kinds p hm (c, k) hck h
      rw [heq] at hp
      exact hp
  · intro h
    cases hf : fieldTable.find? (fun p => S_CMPNOCASE n p.1) with
    | none =>
      have := List.find?_eq_none.mp hf (c, k) hck
      simp [h] at this
    | some p =>
      simp only []
      have hp := List.find?_some hf
      have hm := List.mem_of_find?_eq_some hf
      have hu : p.1.map Char.toUpper = c.map Char.toUpper := by
        rw [← (cmp_upper n p.1).mp hp, (cmp_upper n c).mp h]
      have heq := fieldTable_keys p hm (c, k) hck hu
      rw [heq]

theorem readField_section (formats : List Str) (st : EntryType × List Str) (f : FieldNode) :
    (readField formats st f).1.section_ = st.1.section_ ++
      (if S_CMPNOCASE f.name (str "section") = true then f.values.map (fun x => Lower x.stringValue) else []) := by
  have hiff := fieldKind_iff f.name (str "section") FieldKind.section (by decide)
  unfold readField
  by_cases h : S_CMPNOCASE f.name (str "section") = true
  · rw [hiff.mpr h, if_pos h]
    rfl
  · rw [if_neg h, List.append_nil]
    have hk : fieldKind f.name ≠ FieldKind.section := fun hk => h (hiff.mp hk)
    cases hc : fieldKind f.name <;>
      first
      | rfl
      | exact absurd hc hk
      | (simp only [processField]; split_ifs <;> rfl)

theorem foldl_readField_section (formats : List Str) (fs : List FieldNode)
    (st : EntryType × List Str) :
    (fs.foldl (readField formats) st).1.section_ = st.1.section_ ++
      (givenValues (str "section") fs).map (fun x => Lower x.stringValue) := by
  induction fs generalizing st with
  | nil => simp [givenValues]
  | cons f fs ih =>
    rw [List.foldl_cons, ih, readField_section]
    by_cases h : S_CMPNOCASE f.name (str "section") = true
    · simp [givenValues, h]
    · simp [givenValues, h]

theorem readField_match_ext (formats : List Str) (st : EntryType × List Str) (f : FieldNode) :
    (readField formats st f).1.match_extension_ = st.1.match_extension_ ++
      (if S_CMPNOCASE f.name (str "match_ext") = true then f.values.map (fun x => Upper x.stringValue) else []) := by
  have hiff := fieldKind_iff f.name (str "match_ext") FieldKind.match_ext (by decide)
  unfold readField
  by_cases h : S_CMPNOCASE f.name (str "match_ext") = true
  · rw [hiff.mpr h, if_pos h]
    rfl
  · rw [if_neg h, List.append_nil]
    have hk : fieldKind f.name ≠ FieldKind.match_ext := fun hk => h (hiff.mp hk)
    cases hc : fieldKind f.name <;>
      first
      | rfl
      | exact absurd hc hk
      | (simp only [processField]; split_ifs <;> rfl)

theorem foldl_readField_match_ext (formats : List Str) (fs : List FieldNode)
    (st : EntryType × List Str) :
    (fs.foldl (readField formats) st).1.match_extension_ = st.1.match_extension_ ++
      (givenValues (str "match_ext") fs).map (fun x => Upper x.stringValue) := by
  induction fs generalizing st with
  | nil => simp [givenValues]
  | cons f fs ih =>
    rw [List.foldl_cons, ih, readField_match_ext]
    by_cases h : S_CMPNOCASE f.name (str "match_ext") = true
    · simp [givenValues, h]
    · simp [givenValues, h]

theorem readField_match_name (formats : List Str) (st : EntryType × List Str) (f : FieldNode) :
    (readField formats st f).1.match_name_ = st.1.match_name_ ++
      (if S_CMPNOCASE f.name (str "match_name") = true then f.values.map (fun x => Upper x.stringValue) else []) := by
  have hiff := fieldKind_iff f.name (str "match_name") FieldKind.match_name (by decide)
  unfold readField
  by_cases h : S_CMPNOCASE f.name (str "match_name") = true
  · rw [hiff.mpr h, if_pos h]
    rfl
  · rw [if_neg h, List.append_nil]
    have hk : fieldKind f.name ≠ FieldKind.match_name := fun hk => h (hiff.mp hk)
    cases hc : fieldKind f.name <;>
      first
      | rfl
      | exact absurd hc hk
      | (simp only [processField]; split_ifs <;> rfl)

theorem foldl_readField_match_name (formats : List Str) (fs : List FieldNode)
    (st : EntryType × List Str) :
    (fs.foldl (readField formats) st).1.match_name_ = st.1.match_name_ ++
      (givenValues (str "match_name") fs).map (fun x => Upper x.stringValue) := by
  induction fs generalizing st with
  | nil => simp [givenValues]
  | cons f fs ih =>
    rw [List.foldl_cons, ih, readField_match_name]
    by_cases h : S_CMPNOCASE f.name (str "match_name") = true
    · simp [givenValues, h]
    · simp [givenValues, h]

theorem readField_size (formats : List Str) (st : EntryType × List Str) (f : FieldNode) :
    (readField formats st f).1.match_size_ = st.1.match_size_ ++
      (if S_CMPNOCASE f.name (str "size") = true then f.values.map (fun x => x.intValue) else []) := by
  have hiff := fieldKind_iff f.name (str "size") FieldKind.size (by decide)
  unfold readField
  by_cases h : S_CMPNOCASE f.name (str "size") = true
  · rw [hiff.mpr h, if_pos h]
    rfl
  · rw [if_neg h, List.append_nil]
    have hk : fieldKind f.name ≠ FieldKind.size := fun hk => h (hiff.mp hk)
    cases hc : fieldKind f.name <;>
      first
      | rfl
      | exact absurd hc hk
      | (simp only [processField]; split_ifs <;> rfl)

theorem foldl_readField_size (formats : List Str) (fs : List FieldNode)
    (st : EntryType × List Str) :
    (fs.foldl (readField formats) st).1.match_size_ = st.1.match_size_ ++
      (givenValues (str "size") fs).map (fun x => x.intValue) := by
  induction fs generalizing st with
  | nil => simp [givenValues]
  | cons f fs ih =>
    rw [List.foldl_cons, ih, readField_size]
    by_cases h : S_CMPNOCASE f.name (str "size") = true
    · simp [givenValues, h]
    · simp [givenValues, h]

theorem readField_match_archive (formats : List Str) (st : EntryType × List Str) (f : FieldNode) :
    (readField formats st f).1.match_archive_ = st.1.match_archive_ ++
      (if S_CMPNOCASE f.name (str "match_archive") = true then f.values.map (fun x => Lower x.stringValue) else []) := by
  have hiff := fieldKind_iff f.name (str "match_archive") FieldKind.match_archive (by decide)
  unfold readField
  by_cases h : S_CMPNOCASE f.name (str "match_archive") = true
  · rw [hiff.mpr h, if_pos h]
    rfl
  · rw [if_neg h, List.append_nil]
    have hk : fieldKind f.name ≠ FieldKind.match_archive := fun hk => h (hiff.mp hk)
    cases hc : fieldKind f.name <;>
      first
      | rfl
      | exact absurd hc hk
      | (simp only [processField]; split_ifs <;> rfl)

theorem foldl_readField_match_archive (formats : List Str) (fs : List FieldNode)
    (st : EntryType × List Str) :
    (fs.foldl (readField formats) st).1.match_archive_ = st.1.match_archive_ ++
      (givenValues (str "match_archive") fs).map (fun x => Lower x.stringValue) := by
  induction fs generalizing st with
  | nil => simp [givenValues]
  | cons f fs ih =>
    rw [List.foldl_cons, ih, readField_match_archive]
    by_cases h : S_CMPNOCASE f.name (str "match_archive") = true
    · simp [givenValues, h]
    · simp [givenValues, h]

/-- C11, as the code has it: for every definition `D` registered by
`readEntryTypeDefinition`, `fromId` on the id of `D` (the lower-case block name, compared
exactly) returns a registered definition whose id is that of `D`, not the unknown type. -/
theorem fromId_registered (formats : List Str) (typenodes : List TypeNode) (reg : Registry)
    (D : EntryType)
    (hD : D ∈ (readEntryTypeDefinition formats (some typenodes) reg).2.entry_types.drop
      reg.entry_types.length) :
    (fromId (readEntryTypeDefinition formats (some typenodes) reg).2.entry_types D.id_).id_
        = D.id_ ∧
    fromId (readEntryTypeDefinition formats (some typenodes) reg).2.entry_types D.id_
        ∈ (readEntryTypeDefinition formats (some typenodes) reg).2.entry_types ∧
    fromId (readEntryTypeDefinition formats (some typenodes) reg).2.entry_types D.id_
        ≠ etype_unknown := by
  obtain ⟨new, h1, _, h3⟩ := foldl_readType_appends formats typenodes reg
  have hrd : (readEntryTypeDefinition formats (some typenodes) reg).2.entry_types
      = reg.entry_types ++ new := h1
  rw [hrd] at hD ⊢
  rw [List.drop_left] at hD
  have hmem : D ∈ reg.entry_types ++ new := List.mem_append_right _ hD
  obtain ⟨hid, hin⟩ := fromId_id (reg.entry_types ++ new) D hmem
  refine ⟨hid, hin, ?_⟩
  intro heq
  have hidm : D.id_ ∈ new.map (fun D => D.id_) := List.mem_map_of_mem _ hD
  rw [h3] at hidm
  obtain ⟨n, _, hn⟩ := List.mem_map.mp hidm
  rw [heq] at hid
  have hunk : etype_unknown.id_ = str "Unknown" := rfl
  rw [hunk, ← hn] at hid
  exact lower_ne_Unknown n.name hid.symm

/-- Witness of C11 as amended: the definition read from the block `Palette` is found under
the id `palette`. -/
theorem fromId_registered_witness :
    (fromId paletteRead.entry_types (str "palette")).id_ = str "palette" ∧
    fromId paletteRead.entry_types (str "palette") ∈ paletteRead.entry_types ∧
    fromId paletteRead.entry_types (str "palette") ≠ etype_unknown :=
  fromId_registered sampleFormats [paletteBlock] seedRegistry
    { EntryType.new (str "palette") with match_size_ := [768], reliability_ := 200 } (by decide)

/-- C11 fails as stated: the definition read from the block `Palette` has the id `palette`;
the string `PALETTE` equals that id ignoring letter case, and `fromId` returns the unknown
type for it. -/
theorem fromId_registered_counterexample :
    fromId paletteRead.entry_types (str "palette")
      ∈ paletteRead.entry_types.drop seedRegistry.entry_types.length ∧
    (fromId paletteRead.entry_types (str "palette")).id_ = str "palette" ∧
    S_CMPNOCASE (str "PALETTE") (str "palette") = true ∧
    fromId paletteRead.entry_types (str "PALETTE") = etype_unknown := by
  refine ⟨?_, ?_, ?_, ?_⟩ <;> decide

/-- C12: `readEntryTypeDefinition` returns false exactly when the parsed text has no
`entry_types` root, and then leaves the type list and the category list as they are;
otherwise it returns true and appends one definition per block, in block order, whatever
the fields hold: the block `Odd`, with an unknown inheritance parent, an undefined format
and two colour components, is registered as an unconfigured definition. -/
theorem readEntryTypeDefinition_total (formats : List Str) (reg : Registry) :
    readEntryTypeDefinition formats none reg = (false, reg) ∧
    (∀ pt_etypes, (readEntryTypeDefinition formats pt_etypes reg).1 = false ↔ pt_etypes = none) ∧
    (∀ typenodes, (readEntryTypeDefinition formats (some typenodes) reg).1 = true ∧
      ∃ new, (readEntryTypeDefinition formats (some typenodes) reg).2.entry_types
          = reg.entry_types ++ new ∧
        new.length = typenodes.length ∧
        new.map (fun D => D.id_) = typenodes.map (fun n => Lower n.name)) ∧
    readEntryTypeDefinition sampleFormats (some [oddBlock]) seedRegistry
      = (true, { seedRegistry with
                 entry_types := seedRegistry.entry_types ++ [EntryType.new (str "odd")] }) := by
  refine ⟨rfl, ?_, ?_, by decide⟩
  · intro pt
    cases pt with
    | none => simp [readEntryTypeDefinition]
    | some ns => simp [readEntryTypeDefinition]
  · intro typenodes
    exact ⟨rfl, foldl_readType_appends formats typenodes reg⟩

/-- C13, the code at the failing input: `copyToType` leaves the size multiples, the
`match_ext_or_name` flag and the detectable flag of the target as they are; the definition
`heir`, which inherits from `grid` (size multiple 4) and gives no field, has no size
multiple and matches a three-byte entry that `grid` does not match. -/
theorem copyToType_misses_criteria :
    (∀ this target : EntryType,
      (this.copyToType target).size_multiple_ = target.size_multiple_ ∧
      (this.copyToType target).match_ext_or_name_ = target.match_ext_or_name_ ∧
      (this.copyToType target).detectable_ = target.detectable_) ∧
    gridRead.entry_types.map (fun D => D.id_)
      = seedRegistry.entry_types.map (fun D => D.id_) ++ [str "grid", str "heir"] ∧
    (fromId gridRead.entry_types (str "grid")).size_multiple_ = [4] ∧
    (fromId gridRead.entry_types (str "heir")).size_multiple_ = [] ∧
    isThisType noFormats (fromId gridRead.entry_types (str "grid")) (some smallEntry)
      = some MATCH_FALSE ∧
    isThisType noFormats (fromId gridRead.entry_types (str "heir")) (some smallEntry)
      = some MATCH_TRUE := by
  refine ⟨fun _ _ => ⟨rfl, rfl, rfl⟩, ?_, ?_, ?_, ?_, ?_⟩ <;> decide

/-- C14, as the code has it: when a block inherits from a registered definition, each
list-valued criterion (name masks, extensions, sizes, sections, archives) of the new
definition holds the values of the inherited definition followed by the values the block
gives for that field, in block order. -/
theorem inherited_lists_appended (formats : List Str) (reg : Registry) (typenode : TypeNode)
    (hinh : typenode.inherit ≠ [])
    (hreg : fromId reg.entry_types (Lower typenode.inherit) ≠ etype_unknown) :
    ∃ D cats, readEntryTypeDefinition formats (some [typenode]) reg
        = (true, { entry_types := reg.entry_types ++ [D], entry_categories := cats }) ∧
      D.match_name_ = (fromId reg.entry_types (Lower typenode.inherit)).match_name_ ++
        (givenValues (str "match_name") typenode.children).map (fun x => Upper x.stringValue) ∧
      D.match_extension_ = (fromId reg.entry_types (Lower typenode.inherit)).match_extension_ ++
        (givenValues (str "match_ext") typenode.children).map (fun x => Upper x.stringValue) ∧
      D.match_size_ = (fromId reg.entry_types (Lower typenode.inherit)).match_size_ ++
        (givenValues (str "size") typenode.children).map (fun x => x.intValue) ∧
      D.section_ = (fromId reg.entry_types (Lower typenode.inherit)).section_ ++
        (givenValues (str "section") typenode.children).map (fun x => Lower x.stringValue) ∧
      D.match_archive_ = (fromId reg.entry_types (Lower typenode.inherit)).match_archive_ ++
        (givenValues (str "match_archive") typenode.children).map
          (fun x => Lower x.stringValue) := by
  have hnew : newType reg.entry_types typenode
      = (fromId reg.entry_types (Lower typenode.inherit)).copyToType
          (EntryType.new (Lower typenode.name)) := by
    simp [newType, hinh, hreg]
  refine ⟨_, _, rfl, ?_, ?_, ?_, ?_, ?_⟩
  · rw [foldl_readField_match_name, hnew]; rfl
  · rw [foldl_readField_match_ext, hnew]; rfl
  · rw [foldl_readField_size, hnew]; rfl
  · rw [foldl_readField_section, hnew]; rfl
  · rw [foldl_readField_match_archive, hnew]; rfl

/-- Witness of C14 as amended: the block `Episode` inherits the mask `MAP*` from `Maps` and
adds the mask `E?M?`. -/
theorem inherited_lists_appended_witness :
    (fromId mapsOnly.entry_types (Lower episodeBlock.inherit)).match_name_ = [str "MAP*"] ∧
    ∃ D cats, readEntryTypeDefinition sampleFormats (some [episodeBlock]) mapsOnly
        = (true, { entry_types := mapsOnly.entry_types ++ [D], entry_categories := cats }) ∧
      D.match_name_ = (fromId mapsOnly.entry_types (Lower episodeBlock.inherit)).match_name_ ++
        (givenValues (str "match_name") episodeBlock.children).map
          (fun x => Upper x.stringValue) :=
  ⟨by decide,
   (inherited_lists_appended sampleFormats mapsOnly episodeBlock (by decide) (by decide)).imp
     (fun _ h => h.imp (fun _ h2 => ⟨h2.1, h2.2.1⟩))⟩

/-- C14 fails as stated: the block `Episode` inherits from `Maps`, whose name mask is
`MAP*`, and gives the name mask `E?M?`; after `readEntryTypeDefinition` the name masks of
`episode` are `MAP*` and `E?M?`: the value of the parent is kept. -/
theorem inherited_lists_appended_counterexample :
    mapsRead.entry_types.map (fun D => D.id_)
      = seedRegistry.entry_types.map (fun D => D.id_) ++ [str "maps", str "episode"] ∧
    (fromId mapsRead.entry_types (str "maps")).match_name_ = [str "MAP*"] ∧
    (givenValues (str "match_name") episodeBlock.children).map (fun x => Upper x.stringValue)
      = [str "E?M?"] ∧
    (fromId mapsRead.entry_types (str "episode")).match_name_ = [str "MAP*", str "E?M?"] := by
  refine ⟨?_, ?_, ?_, ?_⟩ <;> decide

/-! ## Properties of the resource manager -/

/-- The running best after one turn is the entry of the turn or the running best before
it, and is the entry of the turn when there was none before. -/
theorem getEntryBody_best (archiveIndex : Option Nat → Int)
    (isInNamespace : ArchiveEntry → Str → Bool) (priority : Option Nat) (nspace : Str)
    (ns_required : Bool) (entry : ArchiveEntry) (best : Option ArchiveEntry)
    (nb : ArchiveEntry) (brk : Bool)
    (h : getEntryBody archiveIndex isInNamespace priority nspace ns_required entry best
      = some (nb, brk)) :
    nb = entry ∨ best = some nb := by
  unfold getEntryBody at h
  cases hp : inPriority priority entry with
  | none =>
    simp only [hp] at h
    cases best <;> simp only [] at h <;> split_ifs at h <;> cases h <;>
      first | exact Or.inl rfl | exact Or.inr rfl
  | some t =>
    simp only [hp] at h
    cases t <;> cases best <;> simp only [] at h <;> split_ifs at h <;> cases h <;>
      first | exact Or.inl rfl | exact Or.inr rfl

/-- One turn is defined when no priority archive is given or the entry has a containing
archive. -/
theorem getEntryBody_defined (archiveIndex : Option Nat → Int)
    (isInNamespace : ArchiveEntry → Str → Bool) (priority : Option Nat) (nspace : Str)
    (ns_required : Bool) (entry : ArchiveEntry) (best : Option ArchiveEntry)
    (hwf : priority ≠ none → entry.parent ≠ none) :
    ∃ r, getEntryBody archiveIndex isInNamespace priority nspace ns_required entry best
      = some r := by
  have hdef : ∃ t, inPriority priority entry = some t := by
    unfold inPriority
    cases hpr : priority with
    | none => exact ⟨false, rfl⟩
    | some p =>
      have hpar := hwf (by rw [hpr]; simp)
      cases hpa : entry.parent with
      | none => exact absurd hpa hpar
      | some a => exact ⟨_, rfl⟩
  obtain ⟨t, ht⟩ := hdef
  unfold getEntryBody
  simp only [ht]
  cases t <;> simp only [] <;> split_ifs <;> exact ⟨_, rfl⟩

/-- The references after the scan: the references scanned are kept when live and erased when
expired, the references not scanned are left as they are. -/
theorem getEntryLoop_list (archiveIndex : Option Nat → Int)
    (isInNamespace : ArchiveEntry → Str → Bool) (priority : Option Nat) (nspace : Str)
    (ns_required : Bool) (todo : List (Option ArchiveEntry)) (best b : Option ArchiveEntry)
    (kept l : List (Option ArchiveEntry))
    (h : getEntryLoop archiveIndex isInNamespace priority nspace ns_required todo best kept
      = some (b, l)) :
    ∃ unscanned scanned, todo.reverse = unscanned ++ scanned ∧
      l = unscanned ++ scanned.filter (fun w => w.isSome) ++ kept := by
  induction todo generalizing best kept with
  | nil =>
    simp only [getEntryLoop, Option.some.injEq, Prod.mk.injEq] at h
    exact ⟨[], [], rfl, by simp [h.2]⟩
  | cons w todo ih =>
    cases w with
    | none =>
      simp only [getEntryLoop] at h
      obtain ⟨u, s, h1, h2⟩ := ih best kept h
      exact ⟨u, s ++ [none], by simp [h1], by simp [h2]⟩
    | some entry =>
      simp only [getEntryLoop] at h
      cases hb : getEntryBody archiveIndex isInNamespace priority nspace ns_required entry best with
      | none => rw [hb] at h; cases h
      | some r =>
        obtain ⟨nb, brk⟩ := r
        rw [hb] at h
        cases brk with
        | true =>
          simp only [Option.some.injEq, Prod.mk.injEq] at h
          exact ⟨todo.reverse, [some entry], by simp, by simp [← h.2]⟩
        | false =>
          simp only [] at h
          obtain ⟨u, s, h1, h2⟩ := ih _ _ h
          exact ⟨u, s ++ [some entry], by simp [h1], by simp [h2]⟩

/-- The entry returned by the scan is the running best it started with or a live reference
it scanned. -/
theorem getEntryLoop_live (archiveIndex : Option Nat → Int)
    (isInNamespace : ArchiveEntry → Str → Bool) (priority : Option Nat) (nspace : Str)
    (ns_required : Bool) (todo : List (Option ArchiveEntry)) (best : Option ArchiveEntry)
    (b : ArchiveEntry) (kept l : List (Option ArchiveEntry))
    (h : getEntryLoop archiveIndex isInNamespace priority nspace ns_required todo best kept
      = some (some b, l)) :
    best = some b ∨ some b ∈ todo := by
  induction todo generalizing best kept with
  | nil =>
    simp only [getEntryLoop, Option.some.injEq, Prod.mk.injEq] at h
    exact Or.inl h.1
  | cons w todo ih =>
    cases w with
    | none =>
      simp only [getEntryLoop] at h
      rcases ih best kept h with h1 | h1
      · exact Or.inl h1
      · exact Or.inr (List.mem_cons_of_mem _ h1)
    | some entry =>
      simp only [getEntryLoop] at h
      cases hb : getEntryBody archiveIndex isInNamespace priority nspace ns_required entry best with
      | none => rw [hb] at h; cases h
      | some r =>
        obtain ⟨nb, brk⟩ := r
        rw [hb] at h
        have hnb := getEntryBody_best _ _ _ _ _ _ _ _ _ hb
        cases brk with
        | true =>
          simp only [Option.some.injEq, Prod.mk.injEq] at h
          rcases hnb with h1 | h1
          · exact Or.inr (by rw [← h.1, h1]; exact List.mem_cons_self _ _)
          · exact Or.inl (by rw [h1, h.1])
        | false =>
          simp only [] at h
          rcases ih _ _ h with h2 | h2
          · simp only [Option.some.injEq] at h2
            rcases hnb with h1 | h1
            · exact Or.inr (by rw [← h2, h1]; exact List.mem_cons_self _ _)
            · exact Or.inl (by rw [h1, h2])
          · exact Or.inr (List.mem_cons_of_mem _ h2)

/-- The scan returns no entry exactly when it starts without a best and scans expired
references only. -/
theorem getEntryLoop_none (archiveIndex : Option Nat → Int)
    (isInNamespace : ArchiveEntry → Str → Bool) (priority : Option Nat) (nspace : Str)
    (ns_required : Bool) (todo : List (Option ArchiveEntry)) (best b : Option ArchiveEntry)
    (kept l : List (Option ArchiveEntry))
    (h : getEntryLoop archiveIndex isInNamespace priority nspace ns_required todo best kept
      = some (b, l)) :
    b = none ↔ (best = none ∧ ∀ w ∈ todo, w = none) := by
  induction todo generalizing best kept with
  | nil =>
    simp only [getEntryLoop, Option.some.injEq, Prod.mk.injEq] at h
    simp [h.1]
  | cons w todo ih =>
    cases w with
    | none =>
      simp only [getEntryLoop] at h
      rw [ih best kept h]
      simp
    | some entry =>
      have hno : ¬ (best = none ∧ ∀ w ∈ some entry :: todo, w = none) := by
        intro hb
        have := hb.2 (some entry) (List.mem_cons_self _ _)
        cases this
      simp only [getEntryLoop] at h
      cases hb : getEntryBody archiveIndex isInNamespace priority nspace ns_required entry best with
      | none => rw [hb] at h; cases h
      | some r =>
        obtain ⟨nb, brk⟩ := r
        rw [hb] at h
        cases brk with
        | true =>
          simp only [Option.some.injEq, Prod.mk.injEq] at h
          constructor
          · intro hbn
            rw [hbn] at h
            cases h.1
          · intro hbn
            exact absurd hbn hno
        | false =>
          simp only [] at h
          have := ih _ _ h
          constructor
          · intro hbn
            have := this.mp hbn
            cases this.1
          · intro hbn
            exact absurd hbn hno

/-- The scan is defined when no priority archive is given or every live reference scanned
is to an entry with a containing archive. -/
theorem getEntryLoop_defined (archiveIndex : Option Nat → Int)
    (isInNamespace : ArchiveEntry → Str → Bool) (priority : Option Nat) (nspace : Str)
    (ns_required : Bool) (todo : List (Option ArchiveEntry)) (best : Option ArchiveEntry)
    (kept : List (Option ArchiveEntry))
    (hwf : priority ≠ none → ∀ e, some e ∈ todo → e.parent ≠ none) :
    ∃ r, getEntryLoop archiveIndex isInNamespace priority nspace ns_required todo best kept
      = some r := by
  induction todo generalizing best kept with
  | nil => exact ⟨_, rfl⟩
  | cons w todo ih =>
    have hwf1 : priority ≠ none → ∀ e, some e ∈ todo → e.parent ≠ none :=
      fun hp e he => hwf hp e (List.mem_cons_of_mem _ he)
    cases w with
    | none =>
      simp only [getEntryLoop]
      exact ih best kept hwf1
    | some entry =>
      obtain ⟨r, hr⟩ := getEntryBody_defined archiveIndex isInNamespace priority nspace
        ns_required entry best (fun hp => hwf hp entry (List.mem_cons_self _ _))
      obtain ⟨nb, brk⟩ := r
      simp only [getEntryLoop, hr]
      cases brk with
      | true => exact ⟨_, rfl⟩
      | false => exact ih _ _ hwf1

/-- One turn without priority archive and with an empty namespace keeps the later of the
running best and the entry of the turn. -/
theorem getEntryBody_latest (archiveIndex : Option Nat → Int)
    (isInNamespace : ArchiveEntry → Str → Bool) (ns_required : Bool)
    (entry : ArchiveEntry) (best : Option ArchiveEntry) :
    ∃ nb, getEntryBody archiveIndex isInNamespace none [] ns_required entry best
        = some (nb, false) ∧
      archiveIndex entry.parentPtr ≤ archiveIndex nb.parentPtr ∧
      ∀ b0, best = some b0 → archiveIndex b0.parentPtr ≤ archiveIndex nb.parentPtr := by
  unfold getEntryBody inPriority
  cases best with
  | none =>
    refine ⟨entry, by simp, le_refl _, fun b0 h => by cases h⟩
  | some b0 =>
    by_cases hle : archiveIndex b0.parentPtr ≤ archiveIndex entry.parentPtr
    · refine ⟨entry, by simp [hle], le_refl _, fun b1 h => ?_⟩
      cases h
      exact hle
    · refine ⟨b0, by simp [hle], by omega, fun b1 h => ?_⟩
      cases h
      exact le_refl _

/-- The scan without priority archive and with an empty namespace ends on an entry whose
archive has the greatest index among the running best and the live references scanned. -/
theorem getEntryLoop_latest (archiveIndex : Option Nat → Int)
    (isInNamespace : ArchiveEntry → Str → Bool) (ns_required : Bool)
    (todo : List (Option ArchiveEntry)) (best : Option ArchiveEntry)
    (kept : List (Option ArchiveEntry)) :
    ∃ b l, getEntryLoop archiveIndex isInNamespace none [] ns_required todo best kept
        = some (b, l) ∧
      (∀ b0, best = some b0 →
        ∃ b1, b = some b1 ∧ archiveIndex b0.parentPtr ≤ archiveIndex b1.parentPtr) ∧
      (∀ e, some e ∈ todo →
        ∃ b1, b = some b1 ∧ archiveIndex e.parentPtr ≤ archiveIndex b1.parentPtr) := by
  induction todo generalizing best kept with
  | nil =>
    exact ⟨best, kept, rfl, fun b0 h => ⟨b0, h, le_refl _⟩, fun e he => by cases he⟩
  | cons w todo ih =>
    cases w with
    | none =>
      obtain ⟨b, l, h1, h2, h3⟩ := ih best kept
      refine ⟨b, l, by simp only [getEntryLoop, h1], h2, fun e he => ?_⟩
      rcases List.mem_cons.mp he with h | h
      · cases h
      · exact h3 e h
    | some entry =>
      obtain ⟨nb, hb, hle1, hle2⟩ := getEntryBody_latest archiveIndex isInNamespace ns_required
        entry best
      obtain ⟨b, l, h1, h2, h3⟩ := ih (some nb) (some entry :: kept)
      obtain ⟨b1, hb1, hnb⟩ := h2 nb rfl
      refine ⟨b, l, by simp only [getEntryLoop, hb, h1], fun b0 h0 => ?_, fun e he => ?_⟩
      · exact ⟨b1, hb1, le_trans (hle2 b0 h0) hnb⟩
      · rcases List.mem_cons.mp he with h | h
        · simp only [Option.some.injEq] at h
          subst h
          exact ⟨b1, hb1, le_trans hle1 hnb⟩
        · exact h3 e h

/-- With live references only, no priority archive and an empty namespace, `getEntry`
returns a candidate whose archive has the greatest open-order index, and leaves the list of
references as it is. -/
theorem getEntry_latest (archiveIndex : Option Nat → Int)
    (isInNamespace : ArchiveEntry → Str → Bool) (ns_required : Bool)
    (cands : List ArchiveEntry) (hne : cands ≠ []) :
    ∃ b, EntryResource.getEntry archiveIndex isInNamespace { entries_ := cands.map some }
        none [] ns_required = some (some b, { entries_ := cands.map some }) ∧
      b ∈ cands ∧ ∀ e ∈ cands, archiveIndex e.parentPtr ≤ archiveIndex b.parentPtr := by
  obtain ⟨b, l, h1, _, h3⟩ := getEntryLoop_latest archiveIndex isInNamespace ns_required
    (cands.map some).reverse none []
  have hne1 : cands.map some ≠ [] := by simpa using hne
  obtain ⟨e0, he0⟩ := List.exists_mem_of_ne_nil cands hne
  obtain ⟨b1, hb1, _⟩ := h3 e0 (by simp [he0])
  subst hb1
  have hlive := getEntryLoop_live _ _ _ _ _ _ _ _ _ _ h1
  have hmem : b1 ∈ cands := by
    rcases hlive with h | h
    · cases h
    · simpa using h
  obtain ⟨u, s, hs1, hs2⟩ := getEntryLoop_list _ _ _ _ _ _ _ _ _ _ h1
  have hall : s.filter (fun w => w.isSome) = s := by
    apply List.filter_eq_self.mpr
    intro w hw
    have : w ∈ cands.map some := by
      have : w ∈ (cands.map some).reverse.reverse := by rw [hs1]; simp [hw]
      simpa using this
    obtain ⟨x, _, hx⟩ := List.mem_map.mp this
    rw [← hx]
    rfl
  have hl : l = cands.map some := by
    rw [hs2, hall, List.append_nil, ← hs1, List.reverse_reverse]
  refine ⟨b1, ?_, hmem, fun e he => ?_⟩
  · simp only [EntryResource.getEntry, hne1, if_false, h1, hl]
  · obtain ⟨b2, hb2, hle⟩ := h3 e (by simp [he])
    cases hb2
    exact hle

/-- C15: for a resource whose references are all live, with no priority archive and an
empty namespace, `getEntry` returns a candidate whose archive has the greatest open-order
index among all candidates; so for an entry of `A1` and an entry of `A2`, where `A2` has
the greater index, it returns the entry of `A2` in both orders of addition. -/
theorem getEntry_latest_archive (archiveIndex : Option Nat → Int)
    (isInNamespace : ArchiveEntry → Str → Bool) (ns_required : Bool)
    (cands : List ArchiveEntry) (e1 e2 : ArchiveEntry) (hne : cands ≠ [])
    (hlt : archiveIndex e1.parentPtr < archiveIndex e2.parentPtr) :
    (∃ b, EntryResource.getEntry archiveIndex isInNamespace { entries_ := cands.map some }
        none [] ns_required = some (some b, { entries_ := cands.map some }) ∧
      b ∈ cands ∧ ∀ e ∈ cands, archiveIndex e.parentPtr ≤ archiveIndex b.parentPtr) ∧
    EntryResource.getEntry archiveIndex isInNamespace { entries_ := [some e1, some e2] }
        none [] ns_required = some (some e2, { entries_ := [some e1, some e2] }) ∧
    EntryResource.getEntry archiveIndex isInNamespace { entries_ := [some e2, some e1] }
        none [] ns_required = some (some e2, { entries_ := [some e2, some e1] }) := by
  refine ⟨getEntry_latest archiveIndex isInNamespace ns_required cands hne, ?_, ?_⟩
  · obtain ⟨b, h1, h2, h3⟩ := getEntry_latest archiveIndex isInNamespace ns_required [e1, e2]
      (by simp)
    have hb : b = e2 := by
      simp only [List.mem_cons, List.mem_singleton, List.not_mem_nil, or_false] at h2
      rcases h2 with h | h
      · have := h3 e2 (by simp)
        rw [h] at this
        omega
      · exact h
    rw [hb] at h1
    exact h1
  · obtain ⟨b, h1, h2, h3⟩ := getEntry_latest archiveIndex isInNamespace ns_required [e2, e1]
      (by simp)
    have hb : b = e2 := by
      simp only [List.mem_cons, List.mem_singleton, List.not_mem_nil, or_false] at h2
      rcases h2 with h | h
      · exact h
      · have := h3 e2 (by simp)
        rw [h] at this
        omega
    rw [hb] at h1
    exact h1

/-- Witness of C15: the entries of `A1` (index 0) and `A2` (index 1). -/
theorem getEntry_latest_archive_witness :
    EntryResource.getEntry sampleIndex sampleInNamespace { entries_ := [some floorA1, some floorA2] }
        none [] false = some (some floorA2, { entries_ := [some floorA1, some floorA2] }) ∧
    EntryResource.getEntry sampleIndex sampleInNamespace { entries_ := [some floorA2, some floorA1] }
        none [] false = some (some floorA2, { entries_ := [some floorA2, some floorA1] }) :=
  (getEntry_latest_archive sampleIndex sampleInNamespace false [floorA1] floorA1 floorA2
    (by decide) (by decide)).2

/-- The priority test is true exactly for the entries of the priority archive and of the
archives embedded in it. -/
theorem inPriority_family (p : Nat) (entry : ArchiveEntry) (a : Archive)
    (ha : entry.parent = some a) :
    ∃ t, inPriority (some p) entry = some t ∧ (t = true ↔ InFamily p entry) := by
  refine ⟨a.ptr == p || a.parentArchive == some p, by simp [inPriority, ha], ?_⟩
  unfold InFamily
  constructor
  · intro h
    refine ⟨a, ha, ?_⟩
    simpa using h
  · rintro ⟨a1, ha1, h⟩
    rw [ha] at ha1
    cases ha1
    simpa using h

/-- One turn with a priority archive leaves the loop exactly on a candidate of the priority
archive (or of an archive embedded in it) that the required namespace does not exclude. -/
theorem getEntryBody_priority (archiveIndex : Option Nat → Int)
    (isInNamespace : ArchiveEntry → Str → Bool) (p : Nat) (nspace : Str)
    (ns_required : Bool) (entry : ArchiveEntry) (best : Option ArchiveEntry)
    (hpar : entry.parent ≠ none) :
    ∃ nb brk, getEntryBody archiveIndex isInNamespace (some p) nspace ns_required entry best
        = some (nb, brk) ∧
      (brk = true → nb = entry ∧ InFamily p entry) ∧
      (InFamily p entry →
        (ns_required = true → nspace ≠ [] → isInNamespace entry nspace = true) →
        brk = true) := by
  cases ha : entry.parent with
  | none => exact absurd ha hpar
  | some a =>
    obtain ⟨t, ht, hfam⟩ := inPriority_family p entry a ha
    unfold getEntryBody
    simp only [ht]
    by_cases c1 : ns_required = true ∧ nspace ≠ [] ∧ isInNamespace entry nspace = false
    · refine ⟨_, false, if_pos c1, (fun h => by cases h), fun _ hel => ?_⟩
      have := hel c1.1 c1.2.1
      rw [c1.2.2] at this
      cases this
    · rw [if_neg c1]
      cases t with
      | true => exact ⟨entry, true, rfl, fun _ => ⟨rfl, hfam.mp rfl⟩, fun _ _ => rfl⟩
      | false =>
        have hnot : ¬ InFamily p entry := fun h => by
          have := hfam.mpr h
          cases this
        simp only []
        split_ifs
        · exact ⟨_, false, rfl, (fun h => by cases h), fun h => absurd h hnot⟩
        · exact ⟨_, false, rfl, (fun h => by cases h), fun h => absurd h hnot⟩
        · exact ⟨_, false, rfl, (fun h => by cases h), fun h => absurd h hnot⟩

/-- The scan with a priority archive returns a candidate of the priority archive (or of an
archive embedded in it) when it scans one that the required namespace does not exclude. -/
theorem getEntryLoop_priority (archiveIndex : Option Nat → Int)
    (isInNamespace : ArchiveEntry → Str → Bool) (p : Nat) (nspace : Str)
    (ns_required : Bool) (todo : List (Option ArchiveEntry)) (best : Option ArchiveEntry)
    (kept : List (Option ArchiveEntry))
    (hwf : ∀ e, some e ∈ todo → e.parent ≠ none)
    (hex : ∃ e, some e ∈ todo ∧ InFamily p e ∧
      (ns_required = true → nspace ≠ [] → isInNamespace e nspace = true)) :
    ∃ b l, getEntryLoop archiveIndex isInNamespace (some p) nspace ns_required todo best kept
        = some (some b, l) ∧ InFamily p b ∧ some b ∈ todo := by
  induction todo generalizing best kept with
  | nil =>
    obtain ⟨e, he, _⟩ := hex
    cases he
  | cons w todo ih =>
    have hwf1 : ∀ e, some e ∈ todo → e.parent ≠ none :=
      fun e he => hwf e (List.mem_cons_of_mem _ he)
    obtain ⟨e, he, hfam, hel⟩ := hex
    cases w with
    | none =>
      have he1 : some e ∈ todo := by
        rcases List.mem_cons.mp he with h | h
        · cases h
        · exact h
      obtain ⟨b, l, h1, h2, h3⟩ := ih best kept hwf1 ⟨e, he1, hfam, hel⟩
      exact ⟨b, l, by simp only [getEntryLoop, h1], h2, List.mem_cons_of_mem _ h3⟩
    | some entry =>
      obtain ⟨nb, brk, hb, hbrk, hfire⟩ := getEntryBody_priority archiveIndex isInNamespace p
        nspace ns_required entry best (hwf entry (List.mem_cons_self _ _))
      cases brk with
      | true =>
        obtain ⟨hnb, hf⟩ := hbrk rfl
        subst hnb
        exact ⟨nb, todo.reverse ++ some nb :: kept, by simp only [getEntryLoop, hb], hf,
          List.mem_cons_self _ _⟩
      | false =>
        have he1 : some e ∈ todo := by
          rcases List.mem_cons.mp he with h | h
          · simp only [Option.some.injEq] at h
            subst h
            have := hfire hfam hel
            cases this
          · exact h
        obtain ⟨b, l, h1, h2, h3⟩ := ih (some nb) (some entry :: kept) hwf1 ⟨e, he1, hfam, hel⟩
        exact ⟨b, l, by simp only [getEntryLoop, hb, h1], h2, List.mem_cons_of_mem _ h3⟩

/-- C16: for a resource (whose live references are to entries with a containing archive)
and a priority archive `P`, when some live candidate, in the namespace if one is required,
belongs to `P` or to an archive whose parent archive is `P`, `getEntry` returns a candidate
that belongs to `P` or to an archive whose parent archive is `P`. -/
theorem getEntry_priority_wins (archiveIndex : Option Nat → Int)
    (isInNamespace : ArchiveEntry → Str → Bool) (r : EntryResource) (p : Nat) (nspace : Str)
    (ns_required : Bool) (hwf : ParentsSet r)
    (hex : ∃ e, some e ∈ r.entries_ ∧ InFamily p e ∧
      (ns_required = true → nspace ≠ [] → isInNamespace e nspace = true)) :
    ∃ b r1, r.getEntry archiveIndex isInNamespace (some p) nspace ns_required
        = some (some b, r1) ∧ InFamily p b ∧ some b ∈ r.entries_ := by
  obtain ⟨e, he, hfam, hel⟩ := hex
  have hne : r.entries_ ≠ [] := List.ne_nil_of_mem he
  obtain ⟨b, l, h1, h2, h3⟩ := getEntryLoop_priority archiveIndex isInNamespace p nspace
    ns_required r.entries_.reverse none []
    (fun e he => hwf e (List.mem_reverse.mp he))
    ⟨e, List.mem_reverse.mpr he, hfam, hel⟩
  exact ⟨b, ⟨l⟩, by simp only [EntryResource.getEntry, hne, if_false, h1], h2,
    List.mem_reverse.mp h3⟩

/-- Witness of C16: with the priority archive `A1`, the entry of `A1` is returned although
`A2` was opened later. -/
theorem getEntry_priority_wins_witness :
    sampleIndex floorA1.parentPtr < sampleIndex floorA2.parentPtr ∧
    ∃ b r1, EntryResource.getEntry sampleIndex sampleInNamespace
        { entries_ := [some floorA1, some floorA2] } (some 1) [] false = some (some b, r1) ∧
      InFamily 1 b ∧ some b ∈ [some floorA1, some floorA2] :=
  ⟨by decide,
   getEntry_priority_wins sampleIndex sampleInNamespace
     { entries_ := [some floorA1, some floorA2] } 1 [] false
     (by
       intro e he
       simp only [List.mem_cons, Option.some.injEq, List.mem_singleton, List.not_mem_nil,
         or_false] at he
       rcases he with h | h <;> subst h <;> decide)
     ⟨floorA1, by simp, ⟨archiveA1, rfl, Or.inl rfl⟩, fun h => by cases h⟩⟩

/-- C17, the code at the failing input: the resource holds the entry of `A1`, in the
namespace `flats`, and then the entry of `A2`, in the namespace `patches`; with the
namespace `flats` required, `getEntry` returns the entry of `A2`, which is not in `flats`. -/
theorem getEntry_required_namespace_leak :
    sampleInNamespace floorA1 (str "flats") = true ∧
    sampleInNamespace floorA2 (str "flats") = false ∧
    EntryResource.getEntry sampleIndex sampleInNamespace
        { entries_ := [some floorA1, some floorA2] } none (str "flats") true
      = some (some floorA2, { entries_ := [some floorA1, some floorA2] }) := by
  refine ⟨?_, ?_, ?_⟩ <;> decide

/-- One turn without priority archive and with a namespace that is not required, from a
running best: the entry of the turn replaces the best when it is in the namespace and the
best is not, or else when its archive was opened no earlier. -/
theorem getEntryBody_preferred_some (archiveIndex : Option Nat → Int)
    (isInNamespace : ArchiveEntry → Str → Bool) (nspace : Str) (entry b : ArchiveEntry) :
    getEntryBody archiveIndex isInNamespace none nspace false entry (some b)
      = if nspace ≠ [] ∧ isInNamespace b nspace = false ∧ isInNamespace entry nspace = true
        then some (entry, false)
        else if archiveIndex b.parentPtr ≤ archiveIndex entry.parentPtr then some (entry, false)
        else some (b, false) := by
  simp [getEntryBody, inPriority]

/-- One turn without priority archive and with a namespace that is not required, without a
running best, takes the entry of the turn. -/
theorem getEntryBody_preferred_none (archiveIndex : Option Nat → Int)
    (isInNamespace : ArchiveEntry → Str → Bool) (nspace : Str) (entry : ArchiveEntry) :
    getEntryBody archiveIndex isInNamespace none nspace false entry none
      = some (entry, false) := by
  simp [getEntryBody, inPriority]

/-- One turn without priority archive and with a preferred, not required, namespace never
ends the scan; when the entry of the turn is in the namespace, so is the running best after
the turn. -/
theorem getEntryBody_preferred (archiveIndex : Option Nat → Int)
    (isInNamespace : ArchiveEntry → Str → Bool) (nspace : Str) (entry : ArchiveEntry)
    (best : Option ArchiveEntry) (hns : nspace ≠ []) :
    ∃ nb, getEntryBody archiveIndex isInNamespace none nspace false entry best
        = some (nb, false) ∧
      (isInNamespace entry nspace = true → isInNamespace nb nspace = true) := by
  cases best with
  | none => exact ⟨entry, getEntryBody_preferred_none _ _ _ _, id⟩
  | some b =>
    rw [getEntryBody_preferred_some]
    by_cases h1 : nspace ≠ [] ∧ isInNamespace b nspace = false ∧ isInNamespace entry nspace = true
    · rw [if_pos h1]
      exact ⟨entry, rfl, id⟩
    · rw [if_neg h1]
      by_cases h2 : archiveIndex b.parentPtr ≤ archiveIndex entry.parentPtr
      · rw [if_pos h2]
        exact ⟨entry, rfl, id⟩
      · rw [if_neg h2]
        refine ⟨b, rfl, fun hc => ?_⟩
        cases hb : isInNamespace b nspace
        · exact absurd ⟨hns, hb, hc⟩ h1
        · rfl

/-- The scan of expired references only changes nothing. -/
theorem getEntryLoop_expired (archiveIndex : Option Nat → Int)
    (isInNamespace : ArchiveEntry → Str → Bool) (priority : Option Nat) (nspace : Str)
    (ns_required : Bool) (todo : List (Option ArchiveEntry)) (best : Option ArchiveEntry)
    (kept : List (Option ArchiveEntry)) (hexp : ∀ w ∈ todo, w = none) :
    getEntryLoop archiveIndex isInNamespace priority nspace ns_required todo best kept
      = some (best, kept) := by
  induction todo with
  | nil => rfl
  | cons w todo ih =>
    have hw := hexp w (List.mem_cons_self _ _)
    subst hw
    simp only [getEntryLoop]
    exact ih (fun x hx => hexp x (List.mem_cons_of_mem _ hx))

/-- The scan without priority archive and with a preferred namespace returns an entry in the
namespace when the live reference it scans last is in the namespace. -/
theorem getEntryLoop_preferred (archiveIndex : Option Nat → Int)
    (isInNamespace : ArchiveEntry → Str → Bool) (nspace : Str) (c : ArchiveEntry)
    (expired : List (Option ArchiveEntry)) (hns : nspace ≠ [])
    (hc : isInNamespace c nspace = true) (hexp : ∀ w ∈ expired, w = none)
    (todo : List (Option ArchiveEntry)) (best : Option ArchiveEntry)
    (kept : List (Option ArchiveEntry)) :
    ∃ b l, getEntryLoop archiveIndex isInNamespace none nspace false
        (todo ++ some c :: expired) best kept = some (some b, l) ∧
      isInNamespace b nspace = true := by
  induction todo generalizing best kept with
  | nil =>
    obtain ⟨nb, h1, h2⟩ := getEntryBody_preferred archiveIndex isInNamespace nspace c best hns
    refine ⟨nb, some c :: kept, ?_, h2 hc⟩
    simp only [List.nil_append, getEntryLoop, h1]
    exact getEntryLoop_expired _ _ _ _ _ _ _ _ hexp
  | cons w todo ih =>
    cases w with
    | none =>
      simp only [List.cons_append, getEntryLoop]
      exact ih best kept
    | some x =>
      obtain ⟨nb, h1, _⟩ := getEntryBody_preferred archiveIndex isInNamespace nspace x best hns
      simp only [List.cons_append, getEntryLoop, h1]
      exact ih _ _

/-- C18, amended: for every resource and non-empty namespace with `ns_required` not set and
no priority archive, if the live reference added first, which is the candidate scanned last,
is in the namespace, then `getEntry` returns an entry that is in the namespace; a running
best in the namespace is replaced by every candidate scanned after it whose archive was
opened no earlier, also by one outside the namespace: a namespace match outranks a
later-opened archive only when the matching candidate is scanned after it. -/
theorem getEntry_namespace_preferred (archiveIndex : Option Nat → Int)
    (isInNamespace : ArchiveEntry → Str → Bool) (r : EntryResource) (nspace : Str)
    (expired rest : List (Option ArchiveEntry)) (c : ArchiveEntry) (hns : nspace ≠ [])
    (hlist : r.entries_ = expired ++ some c :: rest) (hexp : ∀ w ∈ expired, w = none)
    (hc : isInNamespace c nspace = true) :
    (∃ b r1, r.getEntry archiveIndex isInNamespace none nspace false = some (some b, r1) ∧
      isInNamespace b nspace = true) ∧
    (∀ b x : ArchiveEntry, isInNamespace b nspace = true →
      archiveIndex b.parentPtr ≤ archiveIndex x.parentPtr →
      getEntryBody archiveIndex isInNamespace none nspace false x (some b) = some (x, false)) := by
  constructor
  · have hne : r.entries_ ≠ [] := by
      rw [hlist]
      simp
    have hrev : r.entries_.reverse = rest.reverse ++ some c :: expired.reverse := by
      rw [hlist]
      simp
    obtain ⟨b, l, h1, h2⟩ := getEntryLoop_preferred archiveIndex isInNamespace nspace c
      expired.reverse hns hc (fun w hw => hexp w (List.mem_reverse.mp hw)) rest.reverse none []
    refine ⟨b, ⟨l⟩, ?_, h2⟩
    simp only [EntryResource.getEntry, hne, if_false, hrev, h1]
  · intro b x hb hle
    have hb2 : ¬ isInNamespace b nspace = false := by rw [hb]; decide
    rw [getEntryBody_preferred_some, if_neg (fun h => hb2 h.2.1), if_pos hle]

/-- The amended C18 at the resource that holds the entry of `A1`, in the namespace `flats`,
and then the entry of `A2`, in the namespace `patches`: with `flats` preferred the entry of
`A1` is returned although `A2` was opened later. -/
theorem getEntry_namespace_preferred_witness :
    (∃ b r1, EntryResource.getEntry sampleIndex sampleInNamespace
        { entries_ := [some floorA1, some floorA2] } none (str "flats") false
        = some (some b, r1) ∧ sampleInNamespace b (str "flats") = true) ∧
    EntryResource.getEntry sampleIndex sampleInNamespace
        { entries_ := [some floorA1, some floorA2] } none (str "flats") false
      = some (some floorA1, { entries_ := [some floorA1, some floorA2] }) :=
  ⟨(getEntry_namespace_preferred sampleIndex sampleInNamespace
      { entries_ := [some floorA1, some floorA2] } (str "flats") [] [some floorA2] floorA1
      (by decide) rfl (fun w hw => by cases hw) (by decide)).1,
   by decide⟩

/-- C18 as stated fails at the resource that holds the entry of `A2`, in the namespace
`patches`, and then the entry of `A1`, in the namespace `flats`: with the namespace `flats`
preferred and no priority archive, `getEntry` returns the entry of `A2`, which is not in
`flats`, although the live entry of `A1` is: the later archive outranks the namespace match
scanned before it. -/
theorem getEntry_namespace_preferred_counterexample :
    sampleInNamespace floorA1 (str "flats") = true ∧
    sampleInNamespace floorA2 (str "flats") = false ∧
    sampleIndex floorA1.parentPtr < sampleIndex floorA2.parentPtr ∧
    EntryResource.getEntry sampleIndex sampleInNamespace
        { entries_ := [some floorA2, some floorA1] } none (str "flats") false
      = some (some floorA2, { entries_ := [some floorA2, some floorA1] }) := by
  refine ⟨?_, ?_, ?_, ?_⟩ <;> decide

/-- One turn ends the scan exactly on a live reference that stops it, and then returns the
entry of the turn. -/
theorem getEntryBody_break (archiveIndex : Option Nat → Int)
    (isInNamespace : ArchiveEntry → Str → Bool) (priority : Option Nat) (nspace : Str)
    (ns_required : Bool) (entry : ArchiveEntry) (best : Option ArchiveEntry)
    (nb : ArchiveEntry) (brk : Bool)
    (h : getEntryBody archiveIndex isInNamespace priority nspace ns_required entry best
      = some (nb, brk)) :
    (brk = true ↔ StopsScan isInNamespace priority nspace ns_required entry) ∧
    (brk = true → nb = entry) := by
  unfold getEntryBody at h
  unfold StopsScan
  by_cases c1 : ns_required = true ∧ nspace ≠ [] ∧ isInNamespace entry nspace = false
  · rw [if_pos c1] at h
    simp only [Option.some.injEq, Prod.mk.injEq] at h
    rw [← h.2]
    exact ⟨⟨(fun hb => by cases hb), (fun hs => absurd c1 hs.1)⟩, (fun hb => by cases hb)⟩
  · rw [if_neg c1] at h
    cases hp : inPriority priority entry with
    | none => simp only [hp] at h; cases h
    | some t =>
      simp only [hp] at h
      cases t with
      | true =>
        simp only [Option.some.injEq, Prod.mk.injEq] at h
        rw [← h.2, ← h.1]
        exact ⟨⟨fun _ => ⟨c1, rfl⟩, fun _ => rfl⟩, fun _ => rfl⟩
      | false =>
        have hbrk : brk = false := by
          split_ifs at h <;> simp only [Option.some.injEq, Prod.mk.injEq] at h <;> exact h.2.symm
        rw [hbrk]
        exact ⟨⟨(fun hb => by cases hb), (fun hs => by cases hs.2)⟩, (fun hb => by cases hb)⟩

/-- The references after the scan. Either the scan meets no live reference that stops it:
then every expired reference is erased and the live ones are kept in their order. Or it
ends at the last live reference of the list that stops it, which it returns: then the
expired references after that one are erased and the references before it are left as they
are. -/
theorem getEntryLoop_scan (archiveIndex : Option Nat → Int)
    (isInNamespace : ArchiveEntry → Str → Bool) (priority : Option Nat) (nspace : Str)
    (ns_required : Bool) (todo : List (Option ArchiveEntry)) (best b : Option ArchiveEntry)
    (kept l : List (Option ArchiveEntry))
    (h : getEntryLoop archiveIndex isInNamespace priority nspace ns_required todo best kept
      = some (b, l)) :
    (l = todo.reverse.filter (fun w => w.isSome) ++ kept ∧
      ∀ x, some x ∈ todo → ¬ StopsScan isInNamespace priority nspace ns_required x) ∨
    (∃ unscanned e rest, todo.reverse = unscanned ++ some e :: rest ∧ b = some e ∧
      StopsScan isInNamespace priority nspace ns_required e ∧
      (∀ x, some x ∈ rest → ¬ StopsScan isInNamespace priority nspace ns_required x) ∧
      l = unscanned ++ some e :: rest.filter (fun w => w.isSome) ++ kept) := by
  induction todo generalizing best kept with
  | nil =>
    simp only [getEntryLoop, Option.some.injEq, Prod.mk.injEq] at h
    exact Or.inl ⟨by simp [h.2], (fun x hx => by cases hx)⟩
  | cons w todo ih =>
    cases w with
    | none =>
      simp only [getEntryLoop] at h
      rcases ih best kept h with ⟨h1, h2⟩ | ⟨u, e, rest, h1, h2, h3, h4, h5⟩
      · refine Or.inl ⟨by simp [h1], fun x hx => ?_⟩
        rcases List.mem_cons.mp hx with hx | hx
        · cases hx
        · exact h2 x hx
      · refine Or.inr ⟨u, e, rest ++ [none], by simp [h1], h2, h3, fun x hx => ?_, by simp [h5]⟩
        rcases List.mem_append.mp hx with hx | hx
        · exact h4 x hx
        · simp at hx
    | some entry =>
      simp only [getEntryLoop] at h
      cases hb : getEntryBody archiveIndex isInNamespace priority nspace ns_required entry best with
      | none => rw [hb] at h; cases h
      | some p =>
        obtain ⟨nb, brk⟩ := p
        rw [hb] at h
        have hbr := getEntryBody_break _ _ _ _ _ _ _ _ _ hb
        cases brk with
        | true =>
          simp only [Option.some.injEq, Prod.mk.injEq] at h
          refine Or.inr ⟨todo.reverse, entry, [], by simp, ?_, hbr.1.mp rfl,
            (fun x hx => by cases hx), by simp [← h.2]⟩
          rw [← h.1, hbr.2 rfl]
        | false =>
          simp only [] at h
          have hno : ¬ StopsScan isInNamespace priority nspace ns_required entry :=
            fun hs => by cases hbr.1.mpr hs
          rcases ih _ _ h with ⟨h1, h2⟩ | ⟨u, e, rest, h1, h2, h3, h4, h5⟩
          · refine Or.inl ⟨by simp [h1], fun x hx => ?_⟩
            rcases List.mem_cons.mp hx with hx | hx
            · simp only [Option.some.injEq] at hx
              rw [hx]
              exact hno
            · exact h2 x hx
          · refine Or.inr ⟨u, e, rest ++ [some entry], by simp [h1], h2, h3, fun x hx => ?_,
              by simp [h5]⟩
            rcases List.mem_append.mp hx with hx | hx
            · exact h4 x hx
            · simp only [List.mem_singleton, Option.some.injEq] at hx
              rw [hx]
              exact hno

/-- C19: `getEntry` (on a resource whose live references are to entries with a containing
archive when a priority archive is given) returns only an entry of a live reference of the
resource and returns no entry exactly when the resource holds no live reference. The expired
references met during the scan are removed from the list: either no live reference stops
the scan, and the list after the call is the list of the live references, in their order;
or the scan ends at the last live reference of the list that stops it, the entry returned,
and the list after the call keeps the references before that one as they are and, of the
references after it, the live ones. Without a priority archive the first case holds. -/
theorem getEntry_live_only (archiveIndex : Option Nat → Int)
    (isInNamespace : ArchiveEntry → Str → Bool) (r : EntryResource) (priority : Option Nat)
    (nspace : Str) (ns_required : Bool) (hwf : priority ≠ none → ParentsSet r) :
    ∃ b r1, r.getEntry archiveIndex isInNamespace priority nspace ns_required = some (b, r1) ∧
      (∀ e, b = some e → some e ∈ r.entries_) ∧
      (b = none ↔ ∀ w ∈ r.entries_, w = none) ∧
      ((r1.entries_ = r.entries_.filter (fun w => w.isSome) ∧
          ∀ x, some x ∈ r.entries_ → ¬ StopsScan isInNamespace priority nspace ns_required x) ∨
        (∃ unscanned e rest, r.entries_ = unscanned ++ some e :: rest ∧ b = some e ∧
          StopsScan isInNamespace priority nspace ns_required e ∧
          (∀ x, some x ∈ rest → ¬ StopsScan isInNamespace priority nspace ns_required x) ∧
          r1.entries_ = unscanned ++ some e :: rest.filter (fun w => w.isSome))) ∧
      (priority = none → r1.entries_ = r.entries_.filter (fun w => w.isSome)) := by
  have hnostop : priority = none →
      ∀ e, ¬ StopsScan isInNamespace priority nspace ns_required e := by
    intro hp e hs
    have h2 := hs.2
    rw [hp] at h2
    simp only [inPriority, Option.some.injEq] at h2
    cases h2
  by_cases hne : r.entries_ = []
  · refine ⟨none, r, by simp only [EntryResource.getEntry, hne, if_true],
      (fun e h => by cases h),
      ?_, Or.inl ⟨by simp [hne], (fun x hx => by rw [hne] at hx; cases hx)⟩,
      (fun _ => by simp [hne])⟩
    simp [hne]
  · obtain ⟨res, hres⟩ := getEntryLoop_defined archiveIndex isInNamespace priority nspace
      ns_required r.entries_.reverse none []
      (fun hp e he => hwf hp e (List.mem_reverse.mp he))
    obtain ⟨b, l⟩ := res
    have hscan := getEntryLoop_scan _ _ _ _ _ _ _ _ _ _ hres
    simp only [List.reverse_reverse, List.append_nil, List.mem_reverse] at hscan
    refine ⟨b, ⟨l⟩, by simp only [EntryResource.getEntry, hne, if_false, hres], ?_, ?_, hscan, ?_⟩
    · intro e he
      subst he
      rcases getEntryLoop_live _ _ _ _ _ _ _ _ _ _ hres with h | h
      · cases h
      · exact List.mem_reverse.mp h
    · rw [getEntryLoop_none _ _ _ _ _ _ _ _ _ _ hres]
      simp
    · intro hp
      rcases hscan with ⟨h1, _⟩ | ⟨u, e, rest, _, _, h3, _, _⟩
      · exact h1
      · exact absurd h3 (hnostop hp e)

/-- Witness of C19: with the archive `A1` as priority, the scan of the entry of `A1`, an
expired reference and the entry of `A2` ends at the entry of `A1` and erases the expired
reference met on the way; a resource of expired references only gives no entry and is left
empty. -/
theorem getEntry_live_only_witness :
    (∃ b r1, EntryResource.getEntry sampleIndex sampleInNamespace
        { entries_ := [some floorA1, none, some floorA2] } (some 1) [] false = some (b, r1) ∧
      (b = none ↔ ∀ w ∈ [some floorA1, none, some floorA2], w = none)) ∧
    EntryResource.getEntry sampleIndex sampleInNamespace
        { entries_ := [some floorA1, none, some floorA2] } (some 1) [] false
      = some (some floorA1, { entries_ := [some floorA1, some floorA2] }) ∧
    EntryResource.getEntry sampleIndex sampleInNamespace
        { entries_ := [none, some floorA1, none, some floorA2] } (some 2) [] false
      = some (some floorA2, { entries_ := [none, some floorA1, none, some floorA2] }) ∧
    EntryResource.getEntry sampleIndex sampleInNamespace { entries_ := [none, none] }
        (some 1) [] false = some (none, { entries_ := [] }) := by
  obtain ⟨b, r1, h1, _, h3, _, _⟩ := getEntry_live_only sampleIndex sampleInNamespace
     { entries_ := [some floorA1, none, some floorA2] } (some 1) [] false
     (by
       intro _ e he
       simp only [List.mem_cons, Option.some.injEq, List.mem_singleton, List.not_mem_nil,
         or_false, false_or, reduceCtorEq] at he
       rcases he with h | h <;> subst h <;> decide)
  exact ⟨⟨b, r1, h1, h3⟩, by decide, by decide, by decide⟩

/-- The loop of `removeArchive` keeps exactly the live references to entries outside the
archive, in their order. -/
theorem removeArchiveLoop_filter (archive : Option Nat) (l : List (Option ArchiveEntry)) :
    removeArchiveLoop archive l = l.filter (keptRef archive) := by
  induction l with
  | nil => rfl
  | cons w l ih =>
    cases w with
    | none => simp [removeArchiveLoop, keptRef, ih]
    | some e =>
      by_cases h : e.parentPtr = archive
      · simp [removeArchiveLoop, keptRef, ih, h]
      · simp [removeArchiveLoop, keptRef, ih, h]

/-- On a resource with one live reference, to an entry with a containing archive,
`getEntry` returns that entry for all arguments. -/
theorem getEntry_single (archiveIndex : Option Nat → Int)
    (isInNamespace : ArchiveEntry → Str → Bool) (e : ArchiveEntry) (priority : Option Nat)
    (nspace : Str) (ns_required : Bool) (hpar : e.parent ≠ none) :
    EntryResource.getEntry archiveIndex isInNamespace { entries_ := [some e] } priority nspace
      ns_required = some (some e, { entries_ := [some e] }) := by
  obtain ⟨r, hr⟩ := getEntryBody_defined archiveIndex isInNamespace priority nspace
    ns_required e none (fun _ => hpar)
  obtain ⟨nb, brk⟩ := r
  have hnb : nb = e := by
    rcases getEntryBody_best _ _ _ _ _ _ _ _ _ hr with h | h
    · exact h
    · cases h
  subst hnb
  cases brk <;> simp [EntryResource.getEntry, getEntryLoop, hr]

/-- C20: after `removeArchive(A)` every entry index holds, under every key, the live
references it held to entries outside `A`, in their order, and none to an entry of `A`;
every texture resource holds the records it held of other archives, in their order, and
none of `A`; so for a resource held by an entry of `A1` and an entry of `A`, `getEntry`
after the removal of `A` returns the entry of `A1`. -/
theorem removeArchive_purges (archiveIndex : Option Nat → Int)
    (isInNamespace : ArchiveEntry → Str → Bool) (rm : ResourceManager) (a : Nat)
    (e1 e2 : ArchiveEntry) (A1 : Archive)
    (h1 : e1.parent = some A1) (hne : A1.ptr ≠ a) (h2 : e2.parentPtr = some a) :
    (rm.removeArchive (some a)).entryIndexes
      = rm.entryIndexes.map (fun m i => (m i).removeArchive (some a)) ∧
    (∀ r : EntryResource,
      (r.removeArchive (some a)).entries_ = r.entries_.filter (keptRef (some a))) ∧
    (∀ m ∈ (rm.removeArchive (some a)).entryIndexes, ∀ i e,
      some e ∈ (m i).entries_ → e.parentPtr ≠ some a) ∧
    (∀ m ∈ (rm.removeArchive (some a)).entryIndexes, ∀ i, none ∉ (m i).entries_) ∧
    (∀ i, ((rm.removeArchive (some a)).textures_ i).textures_
      = (rm.textures_ i).textures_.filter (fun t => t.parent != some a)) ∧
    (∀ i t, t ∈ ((rm.removeArchive (some a)).textures_ i).textures_ → t.parent ≠ some a) ∧
    (∀ r : EntryResource,
      (r.entries_ = [some e1, some e2] ∨ r.entries_ = [some e2, some e1]) →
      ∀ priority nspace ns_required,
        (r.removeArchive (some a)).getEntry archiveIndex isInNamespace priority nspace
          ns_required = some (some e1, { entries_ := [some e1] })) := by
  have hidx : (rm.removeArchive (some a)).entryIndexes
      = rm.entryIndexes.map (fun m i => (m i).removeArchive (some a)) := rfl
  have hfil : ∀ r : EntryResource,
      (r.removeArchive (some a)).entries_ = r.entries_.filter (keptRef (some a)) :=
    fun r => removeArchiveLoop_filter (some a) r.entries_
  have hk1 : keptRef (some a) (some e1) = true := by
    simp [keptRef, ArchiveEntry.parentPtr, h1, hne]
  have hk2 : keptRef (some a) (some e2) = false := by
    simp [keptRef, h2]
  refine ⟨hidx, hfil, ?_, ?_, ?_, ?_, ?_⟩
  · intro m hm i e he
    rw [hidx] at hm
    obtain ⟨m0, _, rfl⟩ := List.mem_map.mp hm
    rw [hfil] at he
    have := (List.mem_filter.mp he).2
    simpa [keptRef] using this
  · intro m hm i hnone
    rw [hidx] at hm
    obtain ⟨m0, _, rfl⟩ := List.mem_map.mp hm
    rw [hfil] at hnone
    have := (List.mem_filter.mp hnone).2
    simp [keptRef] at this
  · intro i
    rfl
  · intro i t ht
    have : t ∈ (rm.textures_ i).textures_.filter (fun t => t.parent != some a) := ht
    simpa using (List.mem_filter.mp this).2
  · intro r hlist priority nspace ns_required
    have hres : r.removeArchive (some a) = { entries_ := [some e1] } := by
      have h := hfil r
      rcases hlist with hl | hl
      · rw [hl] at h
        simp only [List.filter, hk1, hk2] at h
        cases hr : r.removeArchive (some a)
        rw [hr] at h
        simp only at h
        rw [h]
      · rw [hl] at h
        simp only [List.filter, hk1, hk2] at h
        cases hr : r.removeArchive (some a)
        rw [hr] at h
        simp only at h
        rw [h]
    rw [hres]
    exact getEntry_single archiveIndex isInNamespace e1 priority nspace ns_required
      (by rw [h1]; simp)

/-- Witness of C20: the palette key `FLOOR` is held by the entries of `A1` and `A2`, the
texture name `WALL` by a record of each; after `removeArchive(A2)` the key resolves to the
entry of `A1` and the record of `A1` is left. -/
theorem removeArchive_purges_witness :
    (sampleManager.palettes_ (str "FLOOR")).entries_ = [some floorA1, some floorA2] ∧
    ((sampleManager.removeArchive (some 2)).palettes_ (str "FLOOR")).getEntry sampleIndex
        sampleInNamespace none [] false = some (some floorA1, { entries_ := [some floorA1] }) ∧
    ((sampleManager.removeArchive (some 2)).textures_ (str "WALL")).textures_
      = [{ tex := { name := str "WALL" }, parent := some 1 }] :=
  ⟨by decide,
   (removeArchive_purges sampleIndex sampleInNamespace sampleManager 2 floorA1 floorA2
      archiveA1 rfl (by decide) (by decide)).2.2.2.2.2.2
      (sampleManager.palettes_ (str "FLOOR")) (Or.inl (by decide)) none [] false,
   by decide⟩

/-! ## Properties of the texture hash -/

theorem char_toUpper_idem (c : Char) : Char.toUpper (Char.toUpper c) = Char.toUpper c := by
  unfold Char.toUpper
  simp only []
  split_ifs with h h2
  · exfalso
    obtain ⟨h1, h1b⟩ := h
    generalize c.toNat = n at *
    interval_cases n <;> revert h2 <;> decide
  · rfl
  · rfl

theorem char_toUpper_nul (c : Char) : Char.toUpper c = Char.ofNat 0 ↔ c = Char.ofNat 0 := by
  constructor
  · unfold Char.toUpper
    simp only []
    split_ifs with h
    · obtain ⟨h1, h2⟩ := h
      generalize c.toNat = n at h1 h2
      intro hc
      exfalso
      revert hc
      interval_cases n <;> decide
    · exact id
  · intro h
    subst h
    decide

theorem hashStep_upper (h : Nat) (c : Char) : hashStep h (Char.toUpper c) = hashStep h c := by
  unfold hashStep
  rw [char_toUpper_idem]

theorem hashLoop_upper (l : List Char) (h : Nat) :
    hashLoop (l.map Char.toUpper) h = hashLoop l h := by
  induction l generalizing h with
  | nil => rfl
  | cons c cs ih =>
    simp only [List.map_cons, hashLoop, char_toUpper_nul, hashStep_upper, ih]

theorem hashBuffer_upper (name : Str) :
    hashBuffer (Upper (name.take 8)) = (hashBuffer name).map Char.toUpper := by
  have hlen : (name.take 8).length ≤ 8 := by
    rw [List.length_take]; exact Nat.min_le_left _ _
  have ht : (Upper (name.take 8)).take 8 = Upper (name.take 8) := by
    apply List.take_of_length_le
    simp only [Upper, List.length_map]; exact hlen
  have hn : (List.replicate (8 - (name.take 8).length) (Char.ofNat 0)).map Char.toUpper
      = List.replicate (8 - (name.take 8).length) (Char.ofNat 0) := by
    rw [List.map_replicate]; rfl
  unfold hashBuffer
  rw [ht, List.map_append, hn]
  simp only [Upper, List.length_map]

theorem hashLoop_nonnul (l : List Char) (k : Nat) (h : Nat)
    (hl : ∀ c ∈ l, c ≠ Char.ofNat 0) :
    hashLoop (l ++ List.replicate k (Char.ofNat 0)) h = l.foldl hashStep h := by
  induction l generalizing h with
  | nil =>
    cases k with
    | zero => rfl
    | succ k => simp only [List.nil_append, List.replicate_succ, hashLoop, if_true, List.foldl_nil]
  | cons c cs ih =>
    have hc : c ≠ Char.ofNat 0 := hl c (List.mem_cons_self _ _)
    simp only [List.cons_append, hashLoop, if_neg hc, List.foldl_cons]
    exact ih _ (fun d hd => hl d (List.mem_cons_of_mem _ hd))

theorem hashFold_eq (name : Str) :
    hashFold name = (name.take 8).foldl hashStep 1315423911 % 65536 := by
  unfold hashFold Upper
  rw [List.foldl_map]
  have hs : (fun h (c : Char) => h ^^^ ((h <<< 5 + c.toUpper.toNat + h >>> 2) % 4294967296))
      = hashStep := by
    funext h c
    unfold hashStep
    congr 1
    omega
  rw [hs]

/-- C26: for every ASCII name, a text of ASCII characters none of which is NUL, the
terminator of the hashing loop, `getTextureHash(name)` is below 65536 and equals
`getTextureHash` of the upper-cased first eight characters of the name: the hash is
case-insensitive, ignores every character past the eighth, and is the fold
`h := h xor ((h << 5) + c + (h >> 2))` in 32-bit arithmetic over the upper-cased first eight
characters, from the seed 1315423911, reduced modulo 65536; the empty name hashes to 50855. -/
theorem getTextureHash_fold (name : Str) (hascii : ∀ c ∈ name, 0 < c.toNat ∧ c.toNat < 128) :
    getTextureHash name < 65536 ∧
    getTextureHash name = getTextureHash (Upper (name.take 8)) ∧
    getTextureHash name = hashFold name ∧
    getTextureHash [] = 50855 := by
  have hnul : ∀ c ∈ name.take 8, c ≠ Char.ofNat 0 := by
    intro c hc h0
    have hpos := (hascii c (List.mem_of_mem_take hc)).1
    rw [h0] at hpos
    exact absurd hpos (by decide)
  refine ⟨Nat.mod_lt _ (by decide), ?_, ?_, by decide⟩
  · unfold getTextureHash
    rw [hashBuffer_upper, hashLoop_upper]
  · rw [hashFold_eq]
    unfold getTextureHash hashBuffer
    rw [hashLoop_nonnul _ _ _ hnul]

/-- C26 at the name `abcdefghij`: the hash is 3764, the fold over `ABCDEFGH`, and the hash
of `ABCDEFGH`. -/
theorem getTextureHash_fold_witness :
    getTextureHash (str "abcdefghij") = 3764 ∧ hashFold (str "abcdefghij") = 3764 ∧
    getTextureHash (str "ABCDEFGH") = 3764 := by
  have h := getTextureHash_fold (str "abcdefghij") (by decide)
  refine ⟨by decide, ?_, by decide⟩
  rw [← h.2.2.1]
  decide

/-! ## Properties of the name split -/

theorem find_first_of_dot (a rest : Str) (hdot : '.' ∉ a) :
    find_first_of (a ++ '.' :: rest) '.' = some a.length := by
  have hi : List.indexOf '.' (a ++ '.' :: rest) = a.length := by
    induction a with
    | nil => simp [List.indexOf_cons]
    | cons c cs ih =>
      have hc : c ≠ '.' := fun h => hdot (h ▸ List.mem_cons_self _ _)
      have hne : (c == '.') = false := by simpa using hc
      have hcs : '.' ∉ cs := fun h => hdot (List.mem_cons_of_mem _ h)
      simp only [List.cons_append, List.indexOf_cons, hne, cond_false, ih hcs,
        List.length_cons]
  unfold find_first_of
  rw [hi, if_pos]
  simp

theorem find_first_of_none (fn : Str) (hdot : '.' ∉ fn) : find_first_of fn '.' = none := by
  unfold find_first_of
  rw [if_neg]
  rw [List.indexOf_eq_length.mpr hdot]
  exact Nat.lt_irrefl _

theorem any_beq_mem (l : List Str) (r : Str) : l.any (fun x => r == x) = true ↔ r ∈ l := by
  rw [List.any_eq_true]
  constructor
  · rintro ⟨x, hx, h⟩
    rw [beq_iff_eq] at h
    exact h ▸ hx
  · intro h
    exact ⟨r, h, beq_self_eq_true r⟩

/-- C27: in the name stage of `isThisType` the entry name is split at its first dot. For a
name `a.rest` where `a` holds no dot (so also for a name with two or more dots), the
separator is found at the end of `a`, the name masks are tested against `a` and the
extension list against everything after the first dot; a name without a dot matches no
extension, and a definition with an extension list only rejects it. An entry named `A.B.C`
matches the extension `B.C` and not the extension `C`, and it matches the name mask `A`. -/
theorem isThisType_first_dot (t : EntryType) (a rest : Str) (hdot : '.' ∉ a) :
    find_first_of (a ++ '.' :: rest) '.' = some a.length ∧
    nameLoop t (a ++ '.' :: rest) (find_first_of (a ++ '.' :: rest) '.')
      = t.match_name_.any (fun mask => Matches mask a) ∧
    extLoop t (a ++ '.' :: rest) (find_first_of (a ++ '.' :: rest) '.')
      = t.match_extension_.any (fun x => rest == x) ∧
    (t.match_name_ = [] → t.match_extension_ ≠ [] →
      (nameExtCheck t (a ++ '.' :: rest) = true ↔ rest ∈ t.match_extension_)) ∧
    (∀ fn : Str, '.' ∉ fn →
      extLoop t fn (find_first_of fn '.') = false ∧
      (t.match_name_ = [] → t.match_extension_ ≠ [] → nameExtCheck t fn = false)) ∧
    isThisType noFormats (extOnly (str "B.C")) (some (mkEntry (str "A.B.C") [1]))
      = some MATCH_TRUE ∧
    isThisType noFormats (extOnly (str "C")) (some (mkEntry (str "A.B.C") [1]))
      = some MATCH_FALSE ∧
    isThisType noFormats (nameOnly (str "A")) (some (mkEntry (str "A.B.C") [1]))
      = some MATCH_TRUE ∧
    isThisType noFormats (nameOnly (str "A.B")) (some (mkEntry (str "A.B.C") [1]))
      = some MATCH_FALSE ∧
    isThisType noFormats (extOnly (str "C")) (some (mkEntry (str "ABC") [1]))
      = some MATCH_FALSE := by
  have hsep := find_first_of_dot a rest hdot
  have hleft : Left (a ++ '.' :: rest) a.length = a := by
    simp [Left]
  have hmid : Mid (a ++ '.' :: rest) (a.length + 1) = rest := by
    simp [Mid]
  have hext : extLoop t (a ++ '.' :: rest) (find_first_of (a ++ '.' :: rest) '.')
      = t.match_extension_.any (fun x => rest == x) := by
    rw [hsep]
    simp only [extLoop, hmid]
  refine ⟨hsep, ?_, hext, ?_, ?_, by decide, by decide, by decide, by decide, by decide⟩
  · rw [hsep]
    simp only [nameLoop, hleft]
  · intro hn he
    rw [← any_beq_mem]
    simp only [nameExtCheck, hn, he, hext]
    generalize (t.match_extension_.any fun x => rest == x) = E
    cases E <;> simp [he]
  · intro fn hfn
    have hnone := find_first_of_none fn hfn
    refine ⟨by rw [hnone]; rfl, ?_⟩
    intro hn he
    simp only [nameExtCheck, hn, he, hnone, extLoop]
    simp [he]

/-- C27 at the name `A.B.C`, whose first dot follows `A`. -/
theorem isThisType_first_dot_witness :
    find_first_of (str "A.B.C") '.' = some 1 ∧
    (nameExtCheck (extOnly (str "B.C")) (str "A.B.C") = true ↔
      str "B.C" ∈ (extOnly (str "B.C")).match_extension_) :=
  have h := isThisType_first_dot (extOnly (str "B.C")) (str "A") (str "B.C") (by decide)
  ⟨h.1, h.2.2.2.1 (by decide) (by decide)⟩

/-! ## Properties of the sweep: definitions of reliability 0 -/

theorem sweepBody_reliable (fm : FormatMatcher) (t : EntryType) (e e1 : ArchiveEntry) (b : Bool)
    (h : sweepBody fm t e = some (e1, b))
    (hP : ¬ (e.type_.detectable_ = true ∧ e.type_.reliability_ = 0)) :
    ¬ (e1.type_.detectable_ = true ∧ e1.type_.reliability_ = 0) := by
  unfold sweepBody at h
  by_cases hrel : e.typeReliability ≥ t.reliability_.val
  · rw [if_pos hrel] at h
    cases h
    exact hP
  · rw [if_neg hrel] at h
    have hpos : t.reliability_ ≠ 0 := by
      intro h0
      apply hrel
      rw [h0]
      exact Nat.zero_le _
    cases hr : isThisType fm t (some e) with
    | none => simp only [hr] at h; cases h
    | some r =>
      simp only [hr] at h
      split_ifs at h <;> cases h
      · exact fun hc => hpos hc.2
      · exact fun hc => hpos hc.2
      · exact hP

theorem sweep_reliable (fm : FormatMatcher) (ts : List EntryType) (e e1 : ArchiveEntry) (b : Bool)
    (h : sweep fm ts e = some (e1, b))
    (hP : ¬ (e.type_.detectable_ = true ∧ e.type_.reliability_ = 0)) :
    ¬ (e1.type_.detectable_ = true ∧ e1.type_.reliability_ = 0) := by
  induction ts generalizing e with
  | nil =>
    simp only [sweep, Option.some.injEq, Prod.mk.injEq] at h
    rw [← h.1]
    exact hP
  | cons t ts ih =>
    simp only [sweep] at h
    cases hb : sweepBody fm t e with
    | none => simp only [hb] at h; cases h
    | some p =>
      obtain ⟨e2, b2⟩ := p
      have hP2 := sweepBody_reliable fm t e e2 b2 hb hP
      cases b2 with
      | true =>
        simp only [hb, Option.some.injEq, Prod.mk.injEq] at h
        rw [← h.1]
        exact hP2
      | false =>
        simp only [hb] at h
        exact ih e2 h hP2

/-- C30: a detectable definition whose reliability is 0 is never assigned by
`detectEntryType`. For every entry and registry, the type the call leaves on the entry is
not such a definition; and when such a definition is the only one registered, whatever its
`isThisType` would answer, an entry with data that is neither a folder nor a map marker
stays unknown and the call returns false. -/
theorem detect_skips_zero_reliability (fm : FormatMatcher) (entry_types : List EntryType)
    (e : ArchiveEntry) :
    (∀ (e1 : ArchiveEntry) (b : Bool),
      detectEntryType fm entry_types (some e) = some (some e1, b) →
      ¬ (e1.type_.detectable_ = true ∧ e1.type_.reliability_ = 0)) ∧
    (∀ t : EntryType, t.detectable_ = true → t.reliability_ = 0 →
      e.type_ ≠ etype_folder → e.type_ ≠ etype_map → e.size ≠ 0 →
      detectEntryType fm [t] (some e) = some (some (e.setType etype_unknown 255), false)) := by
  constructor
  · intro e1 b h
    simp only [detectEntryType] at h
    split_ifs at h with h1 h2
    · simp only [Option.some.injEq, Prod.mk.injEq] at h
      rw [← h.1]
      rcases h1 with h1 | h1 <;> rw [h1] <;> decide
    · simp only [Option.some.injEq, Prod.mk.injEq] at h
      rw [← h.1]
      exact fun hc => absurd hc.1 (by simp only [ArchiveEntry.setType]; decide)
    · cases hs : sweep fm entry_types (e.setType etype_unknown 255) with
      | none => simp only [hs] at h; cases h
      | some p =>
        obtain ⟨e2, b2⟩ := p
        have hP := sweep_reliable fm entry_types _ e2 b2 hs
          (fun hc => absurd hc.1 (by simp only [ArchiveEntry.setType]; decide))
        cases b2 with
        | true =>
          simp only [hs, Option.some.injEq, Prod.mk.injEq] at h
          rw [← h.1]
          exact hP
        | false =>
          simp only [hs] at h
          split_ifs at h <;>
            (simp only [Option.some.injEq, Prod.mk.injEq] at h; rw [← h.1]; exact hP)
  · intro t _ hrel hf hm hs
    have hskip : sweepBody fm t (e.setType etype_unknown 255)
        = some (e.setType etype_unknown 255, false) := by
      unfold sweepBody
      rw [if_pos]
      rw [hrel]
      exact Nat.zero_le _
    simp only [detectEntryType]
    rw [if_neg (by simp only [not_or]; exact ⟨hf, hm⟩), if_neg hs]
    simp only [sweep, hskip]
    exact if_pos rfl

/-- C30 at the entry `LUMP` of three bytes and the one definition `a` of reliability 0,
which matches every entry: the entry stays unknown and the call returns false. -/
theorem detect_skips_zero_reliability_witness :
    isThisType noFormats (anyType (str "a") 0) (some smallEntry) = some MATCH_TRUE ∧
    detectEntryType noFormats [anyType (str "a") 0] (some smallEntry)
      = some (some (smallEntry.setType etype_unknown 255), false) ∧
    ¬ ((smallEntry.setType etype_unknown 255).type_.detectable_ = true ∧
       (smallEntry.setType etype_unknown 255).type_.reliability_ = 0) :=
  have h := detect_skips_zero_reliability noFormats [anyType (str "a") 0] smallEntry
  have h2 := h.2 (anyType (str "a") 0) (by decide) (by decide) (by decide) (by decide)
    (by decide)
  ⟨by decide, h2, h.1 _ _ h2⟩

/-! ## Properties of `addEntry` and `removeEntry` -/

theorem add_entries (r : EntryResource) (e : ArchiveEntry) (a : Archive) (hp : e.parent = some a) :
    (r.add e).entries_ = r.entries_ ++ [some e] := by
  unfold EntryResource.add
  rw [if_pos (by rw [hp]; exact Option.some_ne_none a)]

theorem addToIndexes_parent (w : Env) (e : ArchiveEntry) (a : Archive) (lname name path : Str)
    (short fp fp_only : Str → EntryResource) (hp : e.parent = some a) :
    addToIndexes w e lname name path short fp fp_only
      = some (addedUnder true e name short, addedUnder (!w.isTreeless a) e path fp,
          addedUnder (!w.isTreeless a && (short name).length != 0) e path fp_only) := by
  have hlen : (setKey short name ((short name).add e) name).length > 0 := by
    simp only [setKey, if_true, EntryResource.length, add_entries _ e a hp, List.length_append,
      List.length_singleton]
    omega
  simp only [addToIndexes, hp, hlen, or_true, true_and]
  cases ht : w.isTreeless a
  · by_cases h0 : (short name).length = 0
    · simp [addedUnder, h0]
    · simp [addedUnder, h0]
  · simp [addedUnder]

theorem addPatch_closed (w : Env) (e : ArchiveEntry) (a : Archive) (lname name path : Str)
    (rm : ResourceManager) (hp : e.parent = some a) :
    addPatch w e lname name path rm
      = some { rm with
          patches_ := addedUnder (isPatchEntry w e) e name rm.patches_
          patches_fp_ := addedUnder (isPatchEntry w e && !w.isTreeless a) e path rm.patches_fp_
          patches_fp_only_ :=
            addedUnder (isPatchEntry w e && !w.isTreeless a && (rm.patches_ name).length != 0)
              e path rm.patches_fp_only_ } := by
  unfold addPatch
  cases hc : isPatchEntry w e
  · simp [addedUnder]
  · simp only [if_true, addToIndexes_parent w e a lname name path _ _ _ hp, Bool.true_and]

theorem addFlat_closed (w : Env) (e : ArchiveEntry) (a : Archive) (lname name path : Str)
    (rm : ResourceManager) (hp : e.parent = some a) :
    addFlat w e lname name path rm
      = some { rm with
          flats_ := addedUnder (isFlatEntry w e) e name rm.flats_
          flats_fp_ := addedUnder (isFlatEntry w e && !w.isTreeless a) e path rm.flats_fp_
          flats_fp_only_ :=
            addedUnder (isFlatEntry w e && !w.isTreeless a && (rm.flats_ name).length != 0)
              e path rm.flats_fp_only_ } := by
  unfold addFlat
  cases hc : isFlatEntry w e
  · simp [addedUnder]
  · simp only [if_true, addToIndexes_parent w e a lname name path _ _ _ hp, Bool.true_and]

theorem addSaTexture_closed (w : Env) (e : ArchiveEntry) (a : Archive) (name path : Str)
    (rm : ResourceManager) (hp : e.parent = some a) :
    addSaTexture w e name path rm
      = some { rm with
          satextures_ := addedUnder (isSaTextureEntry w e) e name rm.satextures_
          satextures_fp_ :=
            addedUnder (isSaTextureEntry w e && !w.isTreeless a) e path rm.satextures_fp_
          doom64_hash_table_ :=
            if isSaTextureEntry w e = true then
              fun i => if i = getTextureHash name then name else rm.doom64_hash_table_ i
            else rm.doom64_hash_table_ } := by
  unfold addSaTexture
  cases hc : isSaTextureEntry w e
  · simp [addedUnder]
  · cases ht : w.isTreeless a <;> simp [addedUnder, hp, ht]

theorem addEntryTextures_closed (w : Env) (e : ArchiveEntry) (a : Archive)
    (rm : ResourceManager) (hp : e.parent = some a) :
    addEntryTextures w e rm = some { rm with textures_ := addedTextures w e a rm.textures_ } := by
  unfold addEntryTextures addedTextures addEntryList
  by_cases h0 : txentryOf e > 0
  · by_cases h1 : txentryOf e = 1
    · simp [h0, h1, hp]
    · simp [h0, h1]
  · simp [h0]

theorem addEntryGfx_closed (w : Env) (e : ArchiveEntry) (a : Archive) (lname name path : Str)
    (rm : ResourceManager) (hp : e.parent = some a) (hv : inValidNamespace w e = true) :
    addEntryGfx w e lname name path rm
      = some ({ rm with
          patches_ := addedUnder (isPatchEntry w e) e name rm.patches_
          patches_fp_ := addedUnder (isPatchEntry w e && !w.isTreeless a) e path rm.patches_fp_
          patches_fp_only_ :=
            addedUnder (isPatchEntry w e && !w.isTreeless a && (rm.patches_ name).length != 0)
              e path rm.patches_fp_only_
          flats_ := addedUnder (isFlatEntry w e) e name rm.flats_
          flats_fp_ := addedUnder (isFlatEntry w e && !w.isTreeless a) e path rm.flats_fp_
          flats_fp_only_ :=
            addedUnder (isFlatEntry w e && !w.isTreeless a && (rm.flats_ name).length != 0)
              e path rm.flats_fp_only_
          satextures_ := addedUnder (isSaTextureEntry w e) e name rm.satextures_
          satextures_fp_ :=
            addedUnder (isSaTextureEntry w e && !w.isTreeless a) e path rm.satextures_fp_
          doom64_hash_table_ :=
            if isSaTextureEntry w e = true then
              fun i => if i = getTextureHash name then name else rm.doom64_hash_table_ i
            else rm.doom64_hash_table_ }, false) := by
  unfold addEntryGfx
  rw [if_neg (by rw [hv]; decide)]
  simp only [addPatch_closed w e a lname name path _ hp, addFlat_closed w e a lname name path _ hp,
    addSaTexture_closed w e a name path _ hp]

theorem addEntry_closed (w : Env) (rm : ResourceManager) (e0 e : ArchiveEntry) (a : Archive)
    (hdet : addEntryDetect w e0 = some e) (hp : e.parent = some a) :
    rm.addEntry w (some e0) = some (some e, addEntryResult w rm e a) := by
  simp only [ResourceManager.addEntry, hdet]
  by_cases hpal : e.type_.id_ = str "palette"
  · by_cases hg : e.type_.editor_ = str "gfx"
    · cases hv : inValidNamespace w e
      · simp [addEntryGfx, hg, hv, hpal, addEntryResult, addedUnder]
      · simp only [hg, if_true, addEntryGfx_closed w e a _ _ _ _ hp hv,
          addEntryTextures_closed w e a _ hp]
        simp [addEntryResult, addedUnder, hg, hv, hpal]
    · simp only [hg, if_false, addEntryTextures_closed w e a _ hp]
      simp [addEntryResult, addedUnder, hg, hpal]
  · by_cases hg : e.type_.editor_ = str "gfx"
    · cases hv : inValidNamespace w e
      · simp [addEntryGfx, hg, hv, hpal, addEntryResult, addedUnder]
      · simp only [hg, if_true, addEntryGfx_closed w e a _ _ _ _ hp hv,
          addEntryTextures_closed w e a _ hp]
        simp [addEntryResult, addedUnder, hg, hv, hpal]
    · simp only [hg, if_false, addEntryTextures_closed w e a _ hp]
      simp [addEntryResult, addedUnder, hg, hpal]

theorem addedUnder_entries (c : Bool) (e : ArchiveEntry) (a : Archive) (key : Str)
    (map : Str → EntryResource) (k : Str) (hp : e.parent = some a) :
    (addedUnder c e key map k).entries_
      = (map k).entries_ ++ (if c = true ∧ k = key then [some e] else []) := by
  unfold addedUnder setKey
  cases c
  · simp
  · by_cases hk : k = key
    · subst hk
      simp [add_entries _ e a hp]
    · simp [hk]

theorem addEntryResult_refs (w : Env) (rm : ResourceManager) (e : ArchiveEntry) (a : Archive)
    (hp : e.parent = some a) (i : EntryIndex) (k : Str) :
    (addEntryResult w rm e a).refs i k
      = rm.refs i k ++ (if indexedIn w rm e a i = true ∧ k = keyOf w e i then [some e] else []) := by
  cases i <;>
    simp only [ResourceManager.refs, ResourceManager.index, addEntryResult, indexedIn, keyOf,
      addedUnder_entries _ e a _ _ k hp]

theorem addEntryDetect_typed (w : Env) (e : ArchiveEntry) (h : e.type_ ≠ etype_unknown) :
    addEntryDetect w e = some e := by
  unfold addEntryDetect
  rw [if_neg h]

theorem removeLoop_append (e : ArchiveEntry) (l m : List (Option ArchiveEntry)) :
    removeLoop e (l ++ m) = removeLoop e l ++ removeLoop e m := by
  induction l with
  | nil => rfl
  | cons x xs ih =>
    simp only [List.cons_append, removeLoop]
    split_ifs
    · exact ih
    · exact congrArg (fun t => x :: t) ih

theorem removeLoop_absent (e : ArchiveEntry) (l : List (Option ArchiveEntry))
    (h : ∀ x ∈ l, x.map (fun y => y.ptr) ≠ some e.ptr) : removeLoop e l = l := by
  induction l with
  | nil => rfl
  | cons x xs ih =>
    simp only [removeLoop]
    rw [if_neg (h x (List.mem_cons_self _ _)), ih (fun y hy => h y (List.mem_cons_of_mem _ hy))]

theorem removeEntryFromMap_entries (map : Str → EntryResource) (name : Str) (e : ArchiveEntry)
    (fc : Bool) (k : Str) :
    (removeEntryFromMap map name e fc k).entries_
      = if fc = true ∨ k = name then removeLoop e (map k).entries_ else (map k).entries_ := by
  unfold removeEntryFromMap setKey EntryResource.remove
  cases fc
  · by_cases hk : k = name
    · subst hk
      simp
    · simp [hk]
  · simp

theorem removeEntry_refs (w : Env) (rm : ResourceManager) (e : ArchiveEntry) (fc : Bool)
    (i : EntryIndex) (k : Str) :
    (rm.removeEntry w (some e) fc).refs i k
      = if fc = true ∨ k = keyOf w e i then removeLoop e (rm.refs i k) else rm.refs i k := by
  cases i <;>
    simp only [ResourceManager.refs, ResourceManager.index, ResourceManager.removeEntry, keyOf,
      removeEntryFromMap_entries]

/-- C29: in `addEntry` a patch (respectively flat) entry of a hierarchical, non-treeless
archive is added to the full-path-only patch (respectively flat) index, under its path,
exactly when the short-name index already held at least one reference under the 8-character
short name of the entry before the call; otherwise the full-path-only index is left as it
was, so the first entry indexed under a short name is never added to it, however long its
full name is. -/
theorem addEntry_full_path_only (w : Env) (rm : ResourceManager) (e0 e : ArchiveEntry)
    (a : Archive) (hdet : addEntryDetect w e0 = some e) (hp : e.parent = some a)
    (hgfx : e.type_.editor_ = str "gfx") (hns : inValidNamespace w e = true)
    (htree : w.isTreeless a = false) :
    ∃ rm1, rm.addEntry w (some e0) = some (some e, rm1) ∧
      (isPatchEntry w e = true → ∀ k,
        rm1.refs .patches_fp_only k = rm.refs .patches_fp_only k ++
          (if 0 < (rm.patches_ ((w.upperNameNoExt e).take 8)).length ∧
              k = Mid (Upper (w.path e)) 1 then [some e] else [])) ∧
      (isFlatEntry w e = true → ∀ k,
        rm1.refs .flats_fp_only k = rm.refs .flats_fp_only k ++
          (if 0 < (rm.flats_ ((w.upperNameNoExt e).take 8)).length ∧
              k = Mid (Upper (w.path e)) 1 then [some e] else [])) := by
  refine ⟨_, addEntry_closed w rm e0 e a hdet hp, ?_, ?_⟩
  · intro hc k
    rw [addEntryResult_refs w rm e a hp]
    simp [indexedIn, keyOf, hgfx, hns, htree, hc, Nat.pos_iff_ne_zero]
  · intro hc k
    rw [addEntryResult_refs w rm e a hp]
    simp [indexedIn, keyOf, hgfx, hns, htree, hc, Nat.pos_iff_ne_zero]

/-- C29 at the entry `WALL.PNG`, a patch of the archive `A1`: added to a manager that holds
nothing it stays out of the full-path-only patch index; added to a manager whose patch index
already holds a reference under `WALL` it enters that index under its path. -/
theorem addEntry_full_path_only_witness :
    (∃ rm1, emptyManager.addEntry sampleEnv (some wallPng) = some (some wallPng, rm1) ∧
      rm1.refs .patches_fp_only (str "WALL.PNG") = []) ∧
    (∃ rm1, wallHeld.addEntry sampleEnv (some wallPng) = some (some wallPng, rm1) ∧
      rm1.refs .patches_fp_only (str "WALL.PNG") = [some wallPng]) := by
  constructor
  · obtain ⟨rm1, h1, h2, _⟩ := addEntry_full_path_only sampleEnv emptyManager wallPng wallPng
      archiveA1 (by decide) (by decide) (by decide) (by decide) (by decide)
    exact ⟨rm1, h1, by rw [h2 (by decide)]; decide⟩
  · obtain ⟨rm1, h1, h2, _⟩ := addEntry_full_path_only sampleEnv wallHeld wallPng wallPng
      archiveA1 (by decide) (by decide) (by decide) (by decide) (by decide)
    exact ⟨rm1, h1, by rw [h2 (by decide)]; decide⟩

/-- C23, amended: for every entry of an archive whose type has the editor category `gfx`,
`addEntry` decides each of the three categories patch, flat and stand-alone texture by its
own test and indexes the entry in every category whose test holds, which can be more than
one: as patch when the type carries the property `patch` or the entry is in the namespace
patches or sprites, as flat when the type is `gfx_flat` or the entry is in the namespace
flats, as stand-alone texture when the entry is in the namespace textures or hires, each
with the full-path variant of the category when the archive is not treeless. Outside the
namespaces global, patches, sprites, graphics, hires, textures, flats it indexes the entry in
none of them. -/
theorem addEntry_categories (w : Env) (rm : ResourceManager) (e0 e : ArchiveEntry)
    (a : Archive) (hdet : addEntryDetect w e0 = some e) (hp : e.parent = some a)
    (hgfx : e.type_.editor_ = str "gfx") :
    ∃ rm1, rm.addEntry w (some e0) = some (some e, rm1) ∧
      (∀ k, rm1.refs .patches k = rm.refs .patches k ++
        (if (inValidNamespace w e = true ∧ isPatchEntry w e = true) ∧
            k = (w.upperNameNoExt e).take 8 then [some e] else [])) ∧
      (∀ k, rm1.refs .flats k = rm.refs .flats k ++
        (if (inValidNamespace w e = true ∧ isFlatEntry w e = true) ∧
            k = (w.upperNameNoExt e).take 8 then [some e] else [])) ∧
      (∀ k, rm1.refs .satextures k = rm.refs .satextures k ++
        (if (inValidNamespace w e = true ∧ isSaTextureEntry w e = true) ∧
            k = (w.upperNameNoExt e).take 8 then [some e] else [])) ∧
      (∀ k, rm1.refs .patches_fp k = rm.refs .patches_fp k ++
        (if ((inValidNamespace w e = true ∧ isPatchEntry w e = true) ∧ w.isTreeless a = false) ∧
            k = Mid (Upper (w.path e)) 1 then [some e] else [])) ∧
      (∀ k, rm1.refs .flats_fp k = rm.refs .flats_fp k ++
        (if ((inValidNamespace w e = true ∧ isFlatEntry w e = true) ∧ w.isTreeless a = false) ∧
            k = Mid (Upper (w.path e)) 1 then [some e] else [])) ∧
      (∀ k, rm1.refs .satextures_fp k = rm.refs .satextures_fp k ++
        (if ((inValidNamespace w e = true ∧ isSaTextureEntry w e = true) ∧
              w.isTreeless a = false) ∧
            k = Mid (Upper (w.path e)) 1 then [some e] else [])) ∧
      (inValidNamespace w e = false →
        ∀ i, i ≠ EntryIndex.palettes → ∀ k, rm1.refs i k = rm.refs i k) := by
  refine ⟨_, addEntry_closed w rm e0 e a hdet hp, ?_, ?_, ?_, ?_, ?_, ?_, ?_⟩
  · intro k
    rw [addEntryResult_refs w rm e a hp]
    simp [indexedIn, keyOf, hgfx]
  · intro k
    rw [addEntryResult_refs w rm e a hp]
    simp [indexedIn, keyOf, hgfx]
  · intro k
    rw [addEntryResult_refs w rm e a hp]
    simp [indexedIn, keyOf, hgfx]
  · intro k
    rw [addEntryResult_refs w rm e a hp]
    simp [indexedIn, keyOf, hgfx]
  · intro k
    rw [addEntryResult_refs w rm e a hp]
    simp [indexedIn, keyOf, hgfx]
  · intro k
    rw [addEntryResult_refs w rm e a hp]
    simp [indexedIn, keyOf, hgfx]
  · intro hns i hi k
    rw [addEntryResult_refs w rm e a hp]
    cases i <;> first
      | exact absurd rfl hi
      | simp [indexedIn, hns]

/-- The amended C23 at the entry `FLOOR` of the archive `A2`, a plain graphic in the namespace
patches: it is indexed as patch under `FLOOR` and neither as flat nor as stand-alone
texture. -/
theorem addEntry_categories_witness :
    ∃ rm1, emptyManager.addEntry sampleEnv (some floorGfx) = some (some floorGfx, rm1) ∧
      rm1.refs .patches (str "FLOOR") = [some floorGfx] ∧
      rm1.refs .flats (str "FLOOR") = [] ∧
      rm1.refs .satextures (str "FLOOR") = [] := by
  obtain ⟨rm1, h1, h2, h3, h4, _⟩ := addEntry_categories sampleEnv emptyManager floorGfx
    floorGfx archiveA2 (by decide) (by decide) (by decide)
  exact ⟨rm1, h1, by rw [h2]; decide, by rw [h3]; decide, by rw [h4]; decide⟩

/-- C23 as stated fails at the entry `WALL.PNG` of the archive `A1`, whose type has the
editor category `gfx` and carries the property `patch`, in the namespace flats: `addEntry`
indexes it both as patch and as flat. -/
theorem addEntry_categories_counterexample :
    wallPng.type_.editor_ = str "gfx" ∧
    (emptyManager.addEntry sampleEnv (some wallPng)).map
        (fun r => (r.2.refs .patches (str "WALL"), r.2.refs .flats (str "WALL")))
      = some ([some wallPng], [some wallPng]) := by
  decide

theorem indexedIn_again (w : Env) (rm : ResourceManager) (e : ArchiveEntry) (a : Archive)
    (hp : e.parent = some a) (i : EntryIndex) (h : indexedIn w rm e a i = true) :
    indexedIn w (addEntryResult w rm e a) e a i = true := by
  have hlenP : e.type_.editor_ = str "gfx" → inValidNamespace w e = true →
      isPatchEntry w e = true →
      ((addEntryResult w rm e a).patches_ ((w.upperNameNoExt e).take 8)).length ≠ 0 := by
    intro h1 h2 h3
    have := addEntryResult_refs w rm e a hp .patches ((w.upperNameNoExt e).take 8)
    simp only [ResourceManager.refs, ResourceManager.index] at this
    simp [EntryResource.length, this, indexedIn, keyOf, h1, h2, h3]
  have hlenF : e.type_.editor_ = str "gfx" → inValidNamespace w e = true →
      isFlatEntry w e = true →
      ((addEntryResult w rm e a).flats_ ((w.upperNameNoExt e).take 8)).length ≠ 0 := by
    intro h1 h2 h3
    have := addEntryResult_refs w rm e a hp .flats ((w.upperNameNoExt e).take 8)
    simp only [ResourceManager.refs, ResourceManager.index] at this
    simp [EntryResource.length, this, indexedIn, keyOf, h1, h2, h3]
  cases i
  case patches_fp_only =>
    simp only [indexedIn, Bool.and_eq_true, beq_iff_eq, Bool.not_eq_true', bne_iff_ne] at h ⊢
    exact ⟨h.1, hlenP h.1.1.1.1 h.1.1.1.2 h.1.1.2⟩
  case flats_fp_only =>
    simp only [indexedIn, Bool.and_eq_true, beq_iff_eq, Bool.not_eq_true', bne_iff_ne] at h ⊢
    exact ⟨h.1, hlenF h.1.1.1.1 h.1.1.1.2 h.1.1.2⟩
  all_goals exact h

/-- C21, amended: `addEntry` is not idempotent on an already indexed entry. For every catalog
state and every entry of an archive whose type is settled, both calls of `addEntry` return,
and under every key of every index the second call appends a reference to the entry wherever
the first call appended one (each call appends at most one), so a key the first call used
holds one reference more after two calls than after one; for a palette entry the palette
index gains two references under the short name of the entry. -/
theorem addEntry_twice (w : Env) (rm : ResourceManager) (e : ArchiveEntry) (a : Archive)
    (ht : e.type_ ≠ etype_unknown) (hp : e.parent = some a) :
    ∃ rm1 rm2, rm.addEntry w (some e) = some (some e, rm1) ∧
      rm1.addEntry w (some e) = some (some e, rm2) ∧
      (∀ i k, ∃ n1 n2 : Nat, n1 ≤ n2 ∧ n2 ≤ 1 ∧
        rm1.refs i k = rm.refs i k ++ List.replicate n1 (some e) ∧
        rm2.refs i k = rm1.refs i k ++ List.replicate n2 (some e)) ∧
      (e.type_.id_ = str "palette" →
        rm2.refs .palettes ((w.upperNameNoExt e).take 8)
          = rm.refs .palettes ((w.upperNameNoExt e).take 8) ++ [some e, some e]) := by
  have hdet := addEntryDetect_typed w e ht
  refine ⟨_, _, addEntry_closed w rm e e a hdet hp,
    addEntry_closed w (addEntryResult w rm e a) e e a hdet hp, ?_, ?_⟩
  · intro i k
    rw [addEntryResult_refs w (addEntryResult w rm e a) e a hp,
      addEntryResult_refs w rm e a hp]
    by_cases h1 : indexedIn w rm e a i = true ∧ k = keyOf w e i
    · have h2 : indexedIn w (addEntryResult w rm e a) e a i = true ∧ k = keyOf w e i :=
        ⟨indexedIn_again w rm e a hp i h1.1, h1.2⟩
      exact ⟨1, 1, Nat.le_refl _, Nat.le_refl _, by rw [if_pos h1]; rfl, by rw [if_pos h2]; rfl⟩
    · by_cases h2 : indexedIn w (addEntryResult w rm e a) e a i = true ∧ k = keyOf w e i
      · exact ⟨0, 1, Nat.zero_le _, Nat.le_refl _, by rw [if_neg h1]; rfl,
          by rw [if_pos h2]; rfl⟩
      · exact ⟨0, 0, Nat.le_refl _, Nat.zero_le _, by rw [if_neg h1]; rfl,
          by rw [if_neg h2]; rfl⟩
  · intro hpal
    rw [addEntryResult_refs w (addEntryResult w rm e a) e a hp,
      addEntryResult_refs w rm e a hp]
    simp [indexedIn, keyOf, hpal]

/-- The amended C21 at the palette entry `PLAYPAL` of the archive `A1` and a manager that
holds nothing: after two calls the palette index holds two references under `PLAYPAL`. -/
theorem addEntry_twice_witness :
    ∃ rm1 rm2, emptyManager.addEntry sampleEnv (some playpalA1) = some (some playpalA1, rm1) ∧
      rm1.addEntry sampleEnv (some playpalA1) = some (some playpalA1, rm2) ∧
      rm2.refs .palettes (str "PLAYPAL") = [some playpalA1, some playpalA1] := by
  obtain ⟨rm1, rm2, h1, h2, _, h4⟩ := addEntry_twice sampleEnv emptyManager playpalA1 archiveA1
    (by decide) (by decide)
  exact ⟨rm1, rm2, h1, h2, h4 (by decide)⟩

/-- C21 as stated fails at the palette entry `PLAYPAL` of the archive `A1` and a manager that
holds nothing: one call of `addEntry` leaves one reference under `PLAYPAL`, two calls leave
two references to the same entry under that key. -/
theorem addEntry_twice_counterexample :
    (emptyManager.addEntry sampleEnv (some playpalA1)).map
        (fun r => r.2.refs .palettes (str "PLAYPAL"))
      = some [some playpalA1] ∧
    ((emptyManager.addEntry sampleEnv (some playpalA1)).bind
        (fun r => r.2.addEntry sampleEnv r.1)).map
        (fun r => r.2.refs .palettes (str "PLAYPAL"))
      = some [some playpalA1, some playpalA1] := by
  decide

/-- C22: `removeEntry` mirrors `addEntry`. For every catalog state that holds no reference to
the entry and every entry of an archive (so for a palette or graphics entry), `addEntry`
returns, and `removeEntry` of the entry after it, with or without the full check, leaves
every entry index with the same reference list under every key as before the two calls. -/
theorem removeEntry_mirrors_addEntry (w : Env) (rm : ResourceManager) (e0 e : ArchiveEntry)
    (a : Archive) (full_check : Bool) (hdet : addEntryDetect w e0 = some e)
    (hp : e.parent = some a) (hno : NoReference rm e) :
    ∃ rm1, rm.addEntry w (some e0) = some (some e, rm1) ∧
      ∀ i k, (rm1.removeEntry w (some e) full_check).refs i k = rm.refs i k := by
  refine ⟨_, addEntry_closed w rm e0 e a hdet hp, ?_⟩
  intro i k
  have habs := removeLoop_absent e (rm.refs i k) (hno i k)
  have hself : removeLoop e [some e] = [] := by
    simp [removeLoop]
  rw [removeEntry_refs, addEntryResult_refs w rm e a hp]
  by_cases hk : k = keyOf w e i
  · rw [if_pos (Or.inr hk), removeLoop_append, habs]
    split_ifs
    · rw [hself, List.append_nil]
    · exact List.append_nil _
  · have hnot : ¬ (indexedIn w rm e a i = true ∧ k = keyOf w e i) := fun h => hk h.2
    rw [if_neg hnot, List.append_nil]
    split_ifs
    · exact habs
    · rfl

/-- C22 at the graphics entry `WALL.PNG` of the archive `A1`, indexed as patch and as flat,
and a manager whose patch index holds another entry under `WALL`: after `addEntry` and
`removeEntry` the patch index holds under `WALL` what it held before. -/
theorem removeEntry_mirrors_addEntry_witness :
    ∃ rm1, wallHeld.addEntry sampleEnv (some wallPng) = some (some wallPng, rm1) ∧
      rm1.refs .patches (str "WALL") = [some floorA2, some wallPng] ∧
      (rm1.removeEntry sampleEnv (some wallPng) false).refs .patches (str "WALL")
        = [some floorA2] := by
  obtain ⟨rm1, h1, h2⟩ := removeEntry_mirrors_addEntry sampleEnv wallHeld wallPng wallPng
    archiveA1 false (by decide) (by decide)
    (by
      intro i k x hx
      cases i <;>
        simp only [ResourceManager.refs, ResourceManager.index, wallHeld, emptyManager,
          List.not_mem_nil] at hx
      split_ifs at hx
      · simp only [List.mem_singleton] at hx
        subst hx
        decide
      · simp only [List.not_mem_nil] at hx)
  refine ⟨rm1, h1, ?_, by rw [h2]; decide⟩
  have h3 := addEntry_closed sampleEnv wallHeld wallPng wallPng archiveA1 (by decide) (by decide)
  rw [h1] at h3
  simp only [Option.some.injEq, Prod.mk.injEq, true_and] at h3
  rw [h3]
  decide

/-! ## Properties of the texture index -/

theorem addFold_textures (p : Nat) (tx : List CTexture) (textures : Str → TextureResource)
    (k : Str) :
    ((tx.foldl (fun m tex => setKey m tex.name ((m tex.name).add (some tex) (some p)))
        textures) k).textures_
      = (textures k).textures_ ++
          (tx.filter (fun t => t.name == k)).map (fun t => { tex := t, parent := some p }) := by
  induction tx generalizing textures with
  | nil => simp
  | cons t rest ih =>
    rw [List.foldl_cons, ih]
    by_cases hk : t.name = k
    · subst hk
      simp [setKey, TextureResource.add]
    · have hk2 : ¬ k = t.name := fun h => hk h.symm
      simp [setKey, hk, hk2]

theorem remove_remove (r : TextureResource) (p : Option Nat) : (r.remove p).remove p = r.remove p := by
  simp [TextureResource.remove, List.filter_filter]

theorem removeFold_textures (p : Option Nat) (tx : List CTexture)
    (textures : Str → TextureResource) (k : Str) :
    (tx.foldl (fun m tex => setKey m tex.name ((m tex.name).remove p)) textures) k
      = if k ∈ tx.map (fun t => t.name) then (textures k).remove p else textures k := by
  induction tx generalizing textures with
  | nil => simp
  | cons t rest ih =>
    rw [List.foldl_cons, ih]
    by_cases hk : k = t.name
    · subst hk
      simp [setKey, remove_remove]
    · by_cases hm : k ∈ rest.map (fun t => t.name)
      · simp [setKey, hk, hm]
      · simp [setKey, hk, hm]

theorem filter_name_nodup (tx : List CTexture) (t : CTexture) (ht : t ∈ tx)
    (hd : (tx.map (fun t => t.name)).Nodup) :
    tx.filter (fun s => s.name == t.name) = [t] := by
  induction tx with
  | nil => cases ht
  | cons s rest ih =>
    rw [List.map_cons, List.nodup_cons] at hd
    rcases List.mem_cons.mp ht with h | h
    · subst h
      have hnone : rest.filter (fun s => s.name == t.name) = [] := by
        rw [List.filter_eq_nil_iff]
        intro x hx hxe
        rw [beq_iff_eq] at hxe
        exact hd.1 (hxe ▸ List.mem_map_of_mem (fun t => t.name) hx)
      simp [List.filter_cons, hnone]
    · have hne : ¬ s.name = t.name := by
        intro he
        exact hd.1 (he ▸ List.mem_map_of_mem (fun t => t.name) h)
      simp [List.filter_cons, hne, ih h hd.2]

theorem filter_name_absent (tx : List CTexture) (k : Str) (hk : k ∉ tx.map (fun t => t.name)) :
    tx.filter (fun s => s.name == k) = [] := by
  rw [List.filter_eq_nil_iff]
  intro x hx hxe
  rw [beq_iff_eq] at hxe
  exact hk (hxe ▸ List.mem_map_of_mem (fun t => t.name) hx)

theorem getTexture_single (archiveIndex : Option Nat → Int) (rm : ResourceManager) (n : Str)
    (t : Texture) (p : Nat) (hp : t.parent = some p)
    (h : (rm.textures_ (Upper n)).textures_ = [t]) :
    rm.getTexture archiveIndex n none none = some t := by
  simp [ResourceManager.getTexture, h, getTextureLoop, hp]

theorem getTexture_empty (archiveIndex : Option Nat → Int) (rm : ResourceManager) (n : Str)
    (priority ignore : Option Nat) (h : (rm.textures_ (Upper n)).textures_ = []) :
    rm.getTexture archiveIndex n priority ignore = none := by
  simp [ResourceManager.getTexture, h]

theorem addedTextures_parses (w : Env) (e : ArchiveEntry) (a : Archive) (tx : List CTexture)
    (textures : Str → TextureResource)
    (hid : e.type_.id_ = str "texturex" ∨ e.type_.id_ = str "zdtextures")
    (hp : e.parent = some a) (hparse : ParsesInto w e tx) :
    addedTextures w e a textures
      = tx.foldl (fun m tex => setKey m tex.name ((m tex.name).add (some tex) (some a.ptr)))
          textures := by
  have hpp : e.parentPtr = some a.ptr := by simp [ArchiveEntry.parentPtr, hp]
  unfold ParsesInto at hparse
  unfold addedTextures
  by_cases h1 : e.type_.id_ = str "texturex"
  · rw [if_pos h1] at hparse
    simp [txentryOf, h1, hparse, hpp]
  · rw [if_neg h1] at hparse
    have h2 : e.type_.id_ = str "zdtextures" := hid.resolve_left h1
    have hne : ¬ (str "zdtextures" = str "texturex") := by decide
    simp [txentryOf, h2, hne, hparse, hpp]

theorem removeEntryTextures_parses (w : Env) (e : ArchiveEntry) (a : Archive)
    (tx : List CTexture) (textures : Str → TextureResource)
    (hid : e.type_.id_ = str "texturex" ∨ e.type_.id_ = str "zdtextures")
    (hp : e.parent = some a) (hparse : ParsesInto w e tx) :
    removeEntryTextures w e textures
      = tx.foldl (fun m tex => setKey m tex.name ((m tex.name).remove (some a.ptr))) textures := by
  have hpp : e.parentPtr = some a.ptr := by simp [ArchiveEntry.parentPtr, hp]
  unfold ParsesInto at hparse
  unfold removeEntryTextures
  by_cases h1 : e.type_.id_ = str "texturex"
  · rw [if_pos h1] at hparse
    simp [txentryOf, h1, hparse, hpp]
  · rw [if_neg h1] at hparse
    have h2 : e.type_.id_ = str "zdtextures" := hid.resolve_left h1
    have hne : ¬ (str "zdtextures" = str "texturex") := by decide
    simp [txentryOf, h2, hne, hparse, hpp]

theorem textureResource_ext (r s : TextureResource) (h : r.textures_ = s.textures_) : r = s := by
  cases r
  cases s
  simp only [TextureResource.mk.injEq]
  exact h

/-- C24, amended: for every compiled texture-list entry (type texturex or zdtextures, not of
the editor category gfx) of an archive that parses, whatever the patch table, into textures
with distinct upper-case names, in a catalog holding no texture under those names, `addEntry`
returns and creates exactly one texture record under each name, tagged with the archive of
the entry and returned by `getTexture` of the name, and no record under any other name; a
following `removeEntry` of the same entry leaves the texture index as it was before the two
calls, after which `getTexture` of each name returns nothing. An entry whose read leaves no
texture in the list adds no record. -/
theorem texture_list_round_trip (w : Env) (archiveIndex : Option Nat → Int)
    (rm : ResourceManager) (e0 e : ArchiveEntry) (a : Archive) (tx : List CTexture)
    (full_check : Bool) (hdet : addEntryDetect w e0 = some e) (hp : e.parent = some a)
    (hid : e.type_.id_ = str "texturex" ∨ e.type_.id_ = str "zdtextures")
    (hed : e.type_.editor_ ≠ str "gfx") (hparse : ParsesInto w e tx)
    (hdist : (tx.map (fun t => t.name)).Nodup) (hup : ∀ t ∈ tx, Upper t.name = t.name)
    (hfree : ∀ t ∈ tx, (rm.textures_ t.name).textures_ = []) :
    ∃ rm1, rm.addEntry w (some e0) = some (some e, rm1) ∧
      (∀ t ∈ tx,
        (rm1.textures_ t.name).textures_ = [{ tex := t, parent := some a.ptr }] ∧
        rm1.getTexture archiveIndex t.name none none
          = some { tex := t, parent := some a.ptr }) ∧
      (∀ k, k ∉ tx.map (fun t => t.name) → rm1.textures_ k = rm.textures_ k) ∧
      (tx = [] → ∀ k, rm1.textures_ k = rm.textures_ k) ∧
      (∀ k, (rm1.removeEntry w (some e) full_check).textures_ k = rm.textures_ k) ∧
      (∀ t ∈ tx,
        (rm1.removeEntry w (some e) full_check).getTexture archiveIndex t.name none none
          = none) := by
  have hT : (addEntryResult w rm e a).textures_
      = tx.foldl (fun m tex => setKey m tex.name ((m tex.name).add (some tex) (some a.ptr)))
          rm.textures_ := by
    rw [← addedTextures_parses w e a tx rm.textures_ hid hp hparse]
    simp [addEntryResult, hed]
  have hin : ∀ t ∈ tx, ((addEntryResult w rm e a).textures_ t.name).textures_
      = [{ tex := t, parent := some a.ptr }] := by
    intro t ht
    rw [hT, addFold_textures, hfree t ht, filter_name_nodup tx t ht hdist]
    rfl
  have hout : ∀ k, k ∉ tx.map (fun t => t.name) →
      (addEntryResult w rm e a).textures_ k = rm.textures_ k := by
    intro k hk
    apply textureResource_ext
    rw [hT, addFold_textures, filter_name_absent tx k hk]
    simp
  have hR : ∀ k, ((addEntryResult w rm e a).removeEntry w (some e) full_check).textures_ k
      = rm.textures_ k := by
    intro k
    have h1 : ((addEntryResult w rm e a).removeEntry w (some e) full_check).textures_
        = removeEntryTextures w e (addEntryResult w rm e a).textures_ := rfl
    rw [h1, removeEntryTextures_parses w e a tx _ hid hp hparse, removeFold_textures]
    by_cases hk : k ∈ tx.map (fun t => t.name)
    · rw [if_pos hk]
      obtain ⟨t, ht, htk⟩ := List.mem_map.mp hk
      subst htk
      apply textureResource_ext
      rw [hfree t ht]
      simp [TextureResource.remove, hin t ht]
    · rw [if_neg hk]
      exact hout k hk
  refine ⟨_, addEntry_closed w rm e0 e a hdet hp, ?_, hout, ?_, hR, ?_⟩
  · intro t ht
    refine ⟨hin t ht, ?_⟩
    apply getTexture_single archiveIndex _ t.name _ a.ptr rfl
    rw [hup t ht]
    exact hin t ht
  · intro h0 k
    apply hout
    rw [h0]
    simp
  · intro t ht
    apply getTexture_empty
    rw [hup t ht, hR, hfree t ht]

/-- The amended C24 at the entry `TEXTURE1` of the archive `A1`, which parses into the textures `WALL`
and `DOOR`, and a manager that holds nothing: after `addEntry` the texture `WALL` is the
record of `A1`, after `removeEntry` it is gone. -/
theorem texture_list_round_trip_witness :
    ∃ rm1, emptyManager.addEntry texEnv (some texture1) = some (some texture1, rm1) ∧
      rm1.getTexture sampleIndex (str "WALL") none none
        = some { tex := { name := str "WALL" }, parent := some 1 } ∧
      (rm1.removeEntry texEnv (some texture1) false).getTexture sampleIndex (str "WALL")
        none none = none := by
  obtain ⟨rm1, h1, h2, _, _, _, h6⟩ := texture_list_round_trip texEnv sampleIndex emptyManager
    texture1 texture1 archiveA1 [{ name := str "WALL" }, { name := str "DOOR" }] false
    (by decide) (by decide) (by decide) (by decide)
    (by unfold ParsesInto; rw [if_pos (by decide)]; intro _; rfl)
    (by decide) (by decide) (by decide)
  exact ⟨rm1, h1, (h2 { name := str "WALL" } (by decide)).2, h6 { name := str "WALL" } (by decide)⟩

/-- C24 as stated fails at a texture name that is not upper-case: the entry `TEXTURE1` of the
archive `A1` parses into the one texture `wall`; `addEntry` files the record under the name
as it is, `getTexture` looks the name up upper-cased, so `getTexture` of `wall` returns
nothing although the record is stored. -/
theorem texture_list_round_trip_counterexample :
    (emptyManager.addEntry lowerEnv (some texture1)).map
        (fun r => ((r.2.textures_ (str "wall")).textures_,
          r.2.getTexture sampleIndex (str "wall") none none))
      = some ([{ tex := { name := str "wall" }, parent := some 1 }], none) := by
  decide

/-- C25, the code at the failing input: the texture index holds under `WALL` the record of
`A2` and then the record of `A1`, and `A2` is the later archive. With `A2` to be ignored
and no priority archive, `getTexture` returns nothing although the record of `A1` is a match:
the running choice starts at the first record, which is of the ignored archive, and the
record of the earlier archive `A1` does not replace it. With the two records in the other
order the record of `A1` is returned. -/
theorem getTexture_ignore_hides_match :
    (wallLate.textures_ (str "WALL")).textures_
      = [{ tex := { name := str "WALL" }, parent := some 2 },
         { tex := { name := str "WALL" }, parent := some 1 }] ∧
    sampleIndex (some 1) < sampleIndex (some 2) ∧
    wallLate.getTexture sampleIndex (str "WALL") none (some 2) = none ∧
    sampleManager.getTexture sampleIndex (str "WALL") none (some 2)
      = some { tex := { name := str "WALL" }, parent := some 1 } := by
  refine ⟨?_, ?_, ?_, ?_⟩ <;> decide

/-- C28, the code at the failing input: the texture index holds under `WALL` the record of
`A2` and then the record of `A1`, and `A2` has the greater open-order index. With no
priority and no ignore archive, `putAllTextures` lists the record of `A1`, the last record
under the name, while `getTexture` returns the record of `A2`, the record of the later
archive: each turn of the loop of `putAllTextures` sets `res` to the record of the turn
before it compares. -/
theorem putAllTextures_lists_last :
    sampleIndex (some 1) < sampleIndex (some 2) ∧
    wallLate.putAllTextures sampleIndex [str "WALL"] [] none none
      = [{ tex := { name := str "WALL" }, parent := some 1 }] ∧
    wallLate.getTexture sampleIndex (str "WALL") none none
      = some { tex := { name := str "WALL" }, parent := some 2 } := by
  refine ⟨?_, ?_, ?_⟩ <;> decide

end Slade
